import Mathlib

/-!
# UniCore64 instruction printer (`unicore64-dis.c`) and soft MMU (`softmmu.c`)

A shallow embedding of the table-driven disassembler: the opcode table, the
bitfield range grammar, the `%` directive interpreter and its helpers; and of the
mode switch, the interrupt entry and the page-table walk of
`target-unicore64/softmmu.c`, over the fields of the CPU state they touch.

Conventions of the embedding.
* `long`, `unsigned long` and `bfd_vma` are 64 bits wide (LP64).  A `long` or
  `unsigned long` is carried as the natural number below `2 ^ 64` that is its
  two's-complement bit pattern; unsigned arithmetic is reduced `% 2 ^ 64`.
* Values the source holds in an `int` are carried as `Int`.  Signed overflow is
  undefined in C and does not occur for bit positions and widths that fit the
  64-bit word; the embedding keeps the exact integer.
* A `const char *` cursor is the list of characters from the cursor to the
  terminating NUL; the empty list is a cursor standing on the NUL.
* The text handed to `func (stream, ...)` and the calls of
  `info->print_address_func` are recorded, in order, as a list of `Out` events.
-/

namespace UC64

/-- Abnormal outcomes of a run. -/
inductive Fault
  /-- the source calls `abort ()` -/
  | abort
  /-- a read or a cursor move beyond the end of a string or a table -/
  | outOfBounds
  /-- the iteration bound of the embedding was reached -/
  | outOfFuel
deriving DecidableEq, Repr

/-- One observable action of the printer. -/
inductive Out
  /-- a character appended to the stream -/
  | chr (c : Char)
  /-- a call `info->print_address_func (a, info)` -/
  | addr (a : Nat)
deriving DecidableEq, Repr

deriving instance DecidableEq for Except

/-- The characters of a literal string, as stream output. -/
def txt (s : String) : List Out := s.toList.map Out.chr

/-- The characters of a character list, as stream output. -/
def chars (s : List Char) : List Out := s.map Out.chr

/-! ## `printf` conversions -/

/-- Lower-case digit character for a digit value below 16. -/
def hexDigit (d : Nat) : Char :=
  if d < 10 then Char.ofNat (48 + d) else Char.ofNat (87 + d)

/-- Digits of `n` in base `b`, most significant first, without leading zeros
(at least one digit); `fuel` bounds the number of digits. -/
def natDigits (b : Nat) : Nat → Nat → List Char
  | 0, _ => []
  | fuel + 1, n =>
    if n < b then [hexDigit n] else natDigits b fuel (n / b) ++ [hexDigit (n % b)]

/-- Left padding with `'0'` up to a minimum field width (`%0<w>...`). -/
def pad0 (w : Nat) (s : List Char) : List Char :=
  List.replicate (w - s.length) '0' ++ s

/-- The conversion `%x` / `%lx` / `%llx` of an unsigned value below `2 ^ 64`. -/
def fmt_x (n : Nat) : List Char := natDigits 16 16 n

/-- The conversion `%d` / `%ld` of a signed value of at most 64 bits. -/
def fmt_d (x : Int) : List Char :=
  if x < 0 then '-' :: natDigits 10 20 x.natAbs else natDigits 10 20 x.toNat

/-- Value of a 64-bit pattern read as a signed `long`. -/
def toLong (n : Nat) : Int :=
  if n % 2 ^ 64 < 2 ^ 63 then (n % 2 ^ 64 : Nat) else (n % 2 ^ 64 : Nat) - 2 ^ 64

/-- Value of the low 32 bits of a pattern read as a signed `int`. -/
def toInt32 (n : Nat) : Int :=
  if n % 2 ^ 32 < 2 ^ 31 then (n % 2 ^ 32 : Nat) else (n % 2 ^ 32 : Nat) - 2 ^ 32

/-- The 64-bit pattern of a signed value converted to `bfd_vma`. -/
def toU64 (x : Int) : Nat := (x % 2 ^ 64).toNat

/-! ## Static tables -/

/-- An entry of the opcode table, `struct opcode32`; a null `assembler` is `none`. -/
structure opcode32 where
  arch : Nat
  value : Nat
  mask : Nat
  assembler : Option String
deriving DecidableEq, Repr

/-- The opcode table, in source order, ending with the null-template sentinel. -/
def unicore64_opcodes : List opcode32 := [
  opcode32.mk 1 0x00000000 0xffffffff (some "nop\t\t\t(mov r0,r0)"),
  opcode32.mk 1 0x00000000 0xff400000 (some "and%23'.%23'a\t%16-20r, %11-15r, %o"),
  opcode32.mk 1 0x01000000 0xff400000 (some "xor%23'.%23'a\t%16-20r, %11-15r, %o"),
  opcode32.mk 1 0x02000000 0xff400000 (some "sub%23'.%23'a\t%16-20r, %11-15r, %o"),
  opcode32.mk 1 0x03000000 0xff400000 (some "rsub%23'.%23'a\t%16-20r, %11-15r, %o"),
  opcode32.mk 1 0x04000000 0xff400000 (some "add%23'.%23'a\t%16-20r, %11-15r, %o"),
  opcode32.mk 1 0x05000000 0xff400000 (some "addc%23'.%23'a\t%16-20r, %11-15r, %o"),
  opcode32.mk 1 0x06000000 0xff400000 (some "subc%23'.%23'a\t%16-20r, %11-15r, %o"),
  opcode32.mk 1 0x07000000 0xff400000 (some "rsubc%23'.%23'a\t%16-20r, %11-15r, %o"),
  opcode32.mk 1 0x08800000 0xffc00000 (some "cmpand.a\t%11-15r, %o"),
  opcode32.mk 1 0x09800000 0xffc00000 (some "cmpxor.a\t%11-15r, %o"),
  opcode32.mk 1 0x0a800000 0xffc00000 (some "cmpsub.a\t%11-15r, %o"),
  opcode32.mk 1 0x0b800000 0xffc00000 (some "cmpadd.a\t%11-15r, %o"),
  opcode32.mk 1 0x0c000000 0xff400000 (some "or%23'.%23'a\t%16-20r, %11-15r, %o"),
  opcode32.mk 1 0x0d000000 0xff400000 (some "mov%23'.%23'a\t%16-20r, %o"),
  opcode32.mk 1 0x0e000000 0xff400000 (some "andn%23'.%23'a\t%16-20r, %11-15r, %o"),
  opcode32.mk 1 0x0f000000 0xff400000 (some "not%23'.%23'a\t%16-20r, %o"),
  opcode32.mk 1 0x00400000 0xff400000 (some "dand%23'.%23'a\t%16-20r, %11-15r, %o"),
  opcode32.mk 1 0x01400000 0xff400000 (some "dxor%23'.%23'a\t%16-20r, %11-15r, %o"),
  opcode32.mk 1 0x02400000 0xff400000 (some "dsub%23'.%23'a\t%16-20r, %11-15r, %o"),
  opcode32.mk 1 0x03400000 0xff400000 (some "drsub%23'.%23'a\t%16-20r, %11-15r, %o"),
  opcode32.mk 1 0x04400000 0xff400000 (some "dadd%23'.%23'a\t%16-20r, %11-15r, %o"),
  opcode32.mk 1 0x05400000 0xff400000 (some "daddc%23'.%23'a\t%16-20r, %11-15r, %o"),
  opcode32.mk 1 0x06400000 0xff400000 (some "dsubc%23'.%23'a\t%16-20r, %11-15r, %o"),
  opcode32.mk 1 0x07400000 0xff400000 (some "drsubc%23'.%23'a\t%16-20r, %11-15r, %o"),
  opcode32.mk 1 0x08c00000 0xffc00000 (some "dcmpand.a\t%11-15r, %o"),
  opcode32.mk 1 0x09c00000 0xffc00000 (some "dcmpxor.a\t%11-15r, %o"),
  opcode32.mk 1 0x0ac00000 0xffc00000 (some "dcmpsub.a\t%11-15r, %o"),
  opcode32.mk 1 0x0bc00000 0xffc00000 (some "dcmpadd.a\t%11-15r, %o"),
  opcode32.mk 1 0x0c400000 0xff400000 (some "dor%23'.%23'a\t%16-20r, %11-15r, %o"),
  opcode32.mk 1 0x0d400000 0xff400000 (some "dmov%23'.%23'a\t%16-20r, %o"),
  opcode32.mk 1 0x0e400000 0xff400000 (some "dandn%23'.%23'a\t%16-20r, %11-15r, %o"),
  opcode32.mk 1 0x0f400000 0xff400000 (some "dnot%23'.%23'a\t%16-20r, %o"),
  opcode32.mk 1 0x10000000 0xff400000 (some "lsl%23'.%23'a\t%16-20r, %11-15r, %o"),
  opcode32.mk 1 0x11000000 0xff400000 (some "lsr%23'.%23'a\t%16-20r, %11-15r, %o"),
  opcode32.mk 1 0x12000000 0xff400000 (some "asr%23'.%23'a\t%16-20r, %11-15r, %o"),
  opcode32.mk 1 0x10400000 0xff400000 (some "dlsl%23'.%23'a\t%16-20r, %11-15r, %o"),
  opcode32.mk 1 0x11400000 0xff400000 (some "dlsr%23'.%23'a\t%16-20r, %11-15r, %o"),
  opcode32.mk 1 0x12400000 0xff400000 (some "dasr%23'.%23'a\t%16-20r, %11-15r, %o"),
  opcode32.mk 1 0x18000000 0xfc400000 (some "cntl%23?zo\t%16-20r, %11-15r"),
  opcode32.mk 1 0x18400000 0xfc400000 (some "dcntl%23?zo\t%16-20r, %11-15r"),
  opcode32.mk 1 0x1d000000 0xff400000 (some "cmov%12-15c%23'.%23'a\t%16-20r, %o"),
  opcode32.mk 1 0x1d400000 0xff400000 (some "dcmov%12-15c%23'.%23'a\t%16-20r, %o"),
  opcode32.mk 1 0x1f000000 0xff400000 (some "cnot%12-15c%23'.%23'a\t%16-20r, %o"),
  opcode32.mk 1 0x1f400000 0xff400000 (some "dcnot%12-15c%23'.%23'a\t%16-20r, %o"),
  opcode32.mk 1 0x20000000 0xf0000000 (some "mov\t%16-20r, %26?ab%27?fsr"),
  opcode32.mk 1 0x30000000 0xf0000000 (some "mov\t%26?ab%27?fsr, %o"),
  opcode32.mk 1 0x40000000 0xf8400000 (some "mul%23'.%23'a\t%16-20r, %11-15r, %6-10r"),
  opcode32.mk 1 0x48000000 0xf8400000 (some "mula%23'.%23'a\t%16-20r, %11-15r, %6-10r"),
  opcode32.mk 1 0x40400000 0xf8400000 (some "dmul%23'.%23'a\t%16-20r, %11-15r, %6-10r"),
  opcode32.mk 1 0x48400000 0xf8400000 (some "dmula%23'.%23'a\t%16-20r, %11-15r, %6-10r"),
  opcode32.mk 1 0x50000000 0xf8400000 (some "divs%23'.%23'a\t%16-20r, %11-15r, %6-10r"),
  opcode32.mk 1 0x58000000 0xf8400000 (some "divu%23'.%23'a\t%16-20r, %11-15r, %6-10r"),
  opcode32.mk 1 0x50400000 0xf8400000 (some "ddivs%23'.%23'a\t%16-20r, %11-15r, %6-10r"),
  opcode32.mk 1 0x58400000 0xf8400000 (some "ddivu%23'.%23'a\t%16-20r, %11-15r, %6-10r"),
  opcode32.mk 1 0x60000000 0xefc00000 (some "prefetch\t#%16-20x, %a"),
  opcode32.mk 1 0x68000000 0xffe00000 (some "sync\t%y"),
  opcode32.mk 1 0x61000000 0xe3c00000 (some "stb%w\t%16-20r, %a"),
  opcode32.mk 1 0x60800000 0xe3c00000 (some "sth%w\t%16-20r, %a"),
  opcode32.mk 1 0x61800000 0xe3c00000 (some "stw%w\t%16-20r, %a"),
  opcode32.mk 1 0x61400000 0xe3c00000 (some "stsb%w\t%16-20r, %a"),
  opcode32.mk 1 0x60c00000 0xe3c00000 (some "stsh%w\t%16-20r, %a"),
  opcode32.mk 1 0x61c00000 0xe3c00000 (some "stsw%w\t%16-20r, %a"),
  opcode32.mk 1 0x60400000 0xe3c00000 (some "std%w\t%16-20r, %a"),
  opcode32.mk 1 0x63000000 0xe3c00000 (some "ldb%w\t%16-20r, %a"),
  opcode32.mk 1 0x62800000 0xe3c00000 (some "ldh%w\t%16-20r, %a"),
  opcode32.mk 1 0x63800000 0xe3c00000 (some "ldw%w\t%16-20r, %a"),
  opcode32.mk 1 0x63400000 0xe3c00000 (some "ldsb%w\t%16-20r, %a"),
  opcode32.mk 1 0x62c00000 0xe3c00000 (some "ldsh%w\t%16-20r, %a"),
  opcode32.mk 1 0x63c00000 0xe3c00000 (some "ldsw%w\t%16-20r, %a"),
  opcode32.mk 1 0x62400000 0xe3c00000 (some "ldd%w\t%16-20r, %a"),
  opcode32.mk 1 0x80000000 0xe3000000 (some "st%22?dw.%u\t%16-20r, %a"),
  opcode32.mk 1 0x82000000 0xe3000000 (some "ld%22?dw.%u\t%16-20r, %a"),
  opcode32.mk 1 0x81000000 0xe3800000 (some "sc%22?dw%26'.%26'w\t%16-20r, %a"),
  opcode32.mk 1 0x83000000 0xe3800000 (some "ll%22?dw%26'.%26'w\t%16-20r, %a"),
  opcode32.mk 1 0x81a00000 0xffe00000 (some "swapb\t%16-20r, [%11-15r], %6-10r"),
  opcode32.mk 1 0x81800000 0xffe00000 (some "swapw\t%16-20r, [%11-15r], %6-10r"),
  opcode32.mk 1 0x81c00000 0xffe00000 (some "swapd\t%16-20r, [%11-15r], %6-10r"),
  opcode32.mk 1 0xaf400000 0xffe00000 (some "direct\t%16-20r, %I"),
  opcode32.mk 1 0xa0000000 0xf0000000 (some "%C"),
  opcode32.mk 1 0xe0000000 0xf0000000 (some "%C"),
  opcode32.mk 1 0xf0000000 0xf0000000 (some "%C"),
  opcode32.mk 1 0xbe000000 0xff000000 (some "call\t%i"),
  opcode32.mk 1 0xbf000000 0xff000000 (some "call.r\t%11-15r"),
  opcode32.mk 1 0xc2400000 0xffe007ff (some "mff\t%16-20r, %11-15f"),
  opcode32.mk 1 0xc0400000 0xffe007ff (some "mtf\t%16-20r, %11-15f"),
  opcode32.mk 1 0xc6400000 0xffe007ff (some "cff\t%16-20r"),
  opcode32.mk 1 0xc4400000 0xffe007ff (some "ctf\t%16-20r"),
  opcode32.mk 1 0xe0000e20 0xfd003fe0 (some "TSLL.%25?WH\t%14-18f, %19-23f, #%0-4d"),
  opcode32.mk 1 0xe1000e20 0xfd003fe0 (some "TSLL.%25?WH\t%14-18f, %19-23f, %0-4f"),
  opcode32.mk 1 0xe4000e20 0xfd003fe0 (some "TSRL.%25?WH\t%14-18f, %19-23f, #%0-4d"),
  opcode32.mk 1 0xe5000e20 0xfd003fe0 (some "TSRL.%25?WH\t%14-18f, %19-23f, %0-4f"),
  opcode32.mk 1 0xe8000e20 0xfd003fe0 (some "TSRA.%25?WH\t%14-18f, %19-23f, #%0-4d"),
  opcode32.mk 1 0xe9000e20 0xfd003fe0 (some "TSRA.%25?WH\t%14-18f, %19-23f, %0-4f"),
  opcode32.mk 1 0xe0000c00 0xff003fff (some "TMTF\t%14-18r, %19-23f"),
  opcode32.mk 1 0xe1000c00 0xff003fff (some "TMFF\t%14-18r, %19-23f"),
  opcode32.mk 1 0xe2000c00 0xff003fff (some "TCTF\t%14-18r, %19-23S"),
  opcode32.mk 1 0xe3000c00 0xff003fff (some "TCFF\t%14-18r, %19-23S"),
  opcode32.mk 1 0xe0000c20 0xf0003fe0 (some "T%27'SADD%26?SU.%24-25p\t%14-18f, %19-23f, %0-4f"),
  opcode32.mk 1 0xe0000c60 0xf0003fe0 (some "T%27'SSUB%26?SU.%24-25p\t%14-18f, %19-23f, %0-4f"),
  opcode32.mk 1 0xe0000ca0 0xf0003fe0 (some "T%27'SMULL%26?SU.%24-25p\t%14-18f, %19-23f, %0-4f"),
  opcode32.mk 1 0xe0000ce0 0xf0003fe0 (some "T%27'SMULH%26?SU.%24-25p\t%14-18f, %19-23f, %0-4f"),
  opcode32.mk 1 0xe0000d20 0xf0003fe0 (some "TCMP.EQ.%24-25p\t%14-18f, %19-23f, %0-4f"),
  opcode32.mk 1 0xe0000d60 0xf0003fe0 (some "TCMP.GT.%24-25p\t%14-18f, %19-23f, %0-4f"),
  opcode32.mk 1 0xe0000da0 0xf0003fe0 (some "TMAX%26?SU.%24-25p\t%14-18f, %19-23f, %0-4f"),
  opcode32.mk 1 0xe0000de0 0xf0003fe0 (some "TMIN%26?SU.%24-25p\t%14-18f, %19-23f, %0-4f"),
  opcode32.mk 1 0xe0000e60 0xf0003fe0 (some "TMAL.%24-25p\t%14-18f, %19-23f, %0-4f"),
  opcode32.mk 1 0xe0000ea0 0xf0003fe0 (some "TAVG.%24-25p\t%14-18f, %19-23f, %0-4f"),
  opcode32.mk 1 0xe0000ee0 0xf8003fe0 (some "TSHUF.H\t%14-18f, %0-4f, %19-26x"),
  opcode32.mk 1 0xe8000ee0 0xf8003fe0 (some "TSHUFZ.H\t%14-18f, %0-4f, %19-26x"),
  opcode32.mk 1 0xe8000f60 0xf8003fe0 (some "TINSZ.B\t %14-18f, %0-4f, %19-26x"),
  opcode32.mk 1 0xe4000f60 0xff003fe0 (some "TOR\t%14-18f, %19-23f, %0-4f"),
  opcode32.mk 1 0xe5000f60 0xff003fe0 (some "TAND\t%14-18f, %19-23f, %0-4f"),
  opcode32.mk 1 0xe6000f60 0xff003fe0 (some "TXOR\t%14-18f, %19-23f, %0-4f"),
  opcode32.mk 1 0xe7000f60 0xff003fe0 (some "TANDN\t%14-18f, %19-23f, %0-4f"),
  opcode32.mk 1 0xe0000f60 0xff003fe0 (some "TSADU.B\t%14-18f, %19-23f, %0-4f"),
  opcode32.mk 1 0xe0000ee0 0xf0003fe0 (some "TSWAP.W\t%14-18f, %0-4f"),
  opcode32.mk 1 0xe0000f20 0xf0003fe0 (some "T%27'SP2%26?SU.%24-25p\t%14-18f, %19-23f, %0-4f"),
  opcode32.mk 1 0xe0000fa0 0xf0003fe0 (some "TUPH.%24-25p\t%14-18f, %19-23f, %0-4f"),
  opcode32.mk 1 0xe0000fe0 0xf0003fe0 (some "TUPL.%24-25p\t%14-18f, %19-23f, %0-4f"),
  opcode32.mk 1 0xe1001000 0xff003c3f (some "TFMFF\t%14-18r, %19-23f"),
  opcode32.mk 1 0xe3001000 0xff003c3f (some "TFCFF\t%14-18r, %19-23S"),
  opcode32.mk 1 0xe9001000 0xff003c3f (some "TFMFFC.%6-9n\t%14-18r, %19-23f"),
  opcode32.mk 1 0xe0001000 0xff003fff (some "TFMTF\t%14-18r, %19-23f"),
  opcode32.mk 1 0xe2001000 0xff003fff (some "TFCTF\t%14-18r, %19-23S"),
  opcode32.mk 1 0xe40010e0 0xff003fe0 (some "TFSWAP.W\t%14-18f, %0-4f"),
  opcode32.mk 1 0xe0001020 0xff003fe0 (some "TFADD\t%14-18f, %19-23f, %0-4f"),
  opcode32.mk 1 0xe0001060 0xff003fe0 (some "TFSUB\t%14-18f, %19-23f, %0-4f"),
  opcode32.mk 1 0xe0001260 0xff003fe0 (some "TFSUBR\t%14-18f, %19-23f, %0-4f"),
  opcode32.mk 1 0xe0001120 0xff003fe0 (some "TFACC\t%14-18f, %19-23f, %0-4f"),
  opcode32.mk 1 0xe0001360 0xff003fe0 (some "TFNACC\t%14-18f, %19-23f, %0-4f"),
  opcode32.mk 1 0xe0001160 0xff003fe0 (some "TFPNACC\t%14-18f, %19-23f, %0-4f"),
  opcode32.mk 1 0xe00010a0 0xff003fe0 (some "TFMUL\t%14-18f, %19-23f, %0-4f"),
  opcode32.mk 1 0xe40011a0 0xff003fe0 (some "TFSQRT\t%14-18f, %19-23f"),
  opcode32.mk 1 0xe00011e0 0xff003fe0 (some "TFMAX\t%14-18f, %19-23f, %0-4f"),
  opcode32.mk 1 0xe00013e0 0xff003fe0 (some "TFMIN\t%14-18f, %19-23f, %0-4f"),
  opcode32.mk 1 0xec001020 0xff003c20 (some "TFCMP.%6-9n\t%14-18f, %19-23f, %0-4f"),
  opcode32.mk 1 0xe8001120 0xff003fe0 (some "TF2IW\t%14-18f, %0-4f"),
  opcode32.mk 1 0xea001020 0xff003fe0 (some "TI2FW\t%14-18f, %0-4f"),
  opcode32.mk 1 0xe8001320 0xff003fe0 (some "TF2IH\t%14-18f, %0-4f"),
  opcode32.mk 1 0xea001220 0xff003fe0 (some "TI2FH\t%14-18f, %0-4f"),
  opcode32.mk 1 0xc0000015 0xfc00003f (some "FABS.%25-26F\t%16-20f, %6-10f"),
  opcode32.mk 1 0xc0000001 0xfc00003f (some "FADD.%25-26F\t%16-20f, %11-15f, %6-10f"),
  opcode32.mk 1 0xd8000001 0xfc000003 (some "FCMP.%2-5n.%25-26F\t%11-15f, %6-10f"),
  opcode32.mk 1 0xd0000005 0xf800003f (some "FCVT.D.%25-26F\t%16-20f, %6-10f"),
  opcode32.mk 1 0xd0000001 0xf800003f (some "FCVT.S.%25-26F\t%16-20f, %6-10f"),
  opcode32.mk 1 0xd0000011 0xf800003f (some "FCVT.W.%25-26F\t%16-20f, %6-10f"),
  opcode32.mk 1 0xc2000002 0xe2000003 (some "LWF%W\t%16-20f, %A"),
  opcode32.mk 1 0xc0000002 0xe2000003 (some "SWF%W\t%16-20f, %A"),
  opcode32.mk 1 0xc2000003 0xe2000003 (some "LDWF%W\t%16-20f, %A"),
  opcode32.mk 1 0xc0000003 0xe2000003 (some "SDWF%W\t%16-20f, %A"),
  opcode32.mk 1 0xc0000019 0xf800003f (some "FMOV.%25-26F\t%16-20f, %6-10f"),
  opcode32.mk 1 0xc0000009 0xfc00003f (some "FMUL.%25-26F\t%16-20f, %11-15f, %6-10f"),
  opcode32.mk 1 0xc000001d 0xfc00003f (some "FNEG.%25-26F\t%16-20f, %6-10f"),
  opcode32.mk 1 0xc0000005 0xfc00003f (some "FSUB.%25-26F\t%16-20f, %11-15f, %6-10f"),
  opcode32.mk 1 0xc0000011 0xfc00003f (some "FDIV.%25-26F\t%16-20f, %11-15f, %6-10f"),
  opcode32.mk 1 0xc0000025 0xf800083f (some "FMOV.F.%25-26F\t%16-20f, %6-10f"),
  opcode32.mk 1 0xc0000825 0xf800083f (some "FMOV.T.%25-26F\t%16-20f, %6-10f"),
  opcode32.mk 1 0xc2000000 0xfe000003 (some "movc\t%16-20r, p%21-24d.c%11-15d, %X"),
  opcode32.mk 1 0xc0000000 0xfe000003 (some "movc\tp%21-24d.c%16-20d, %11-15r, %X"),
  opcode32.mk 1 0x00000000 0x00000000 (some "undefined instruction %0-31x"),
  opcode32.mk 1 0x00000000 0x00000000 none
]

def unicore64_conditional : List String := [
  "eq", "ne", "ea", "ub", "fs", "ns", "fv", "nv",
  "ua", "eb", "eg", "sl", "sg", "el", "al", "na"]

def unicore64_2D_fmt : List String := ["B", "H", "W", "reserved"]

def unicore64_shift : List String := ["<<", ">>", "|>", "<>"]

/-- An entry of `regnames`: a named register-name set. -/
structure unicore64_regname where
  name : String
  description : String
  reg_names : List String
deriving DecidableEq, Repr

def regnames : List unicore64_regname := [
  ⟨"raw", "Select raw register names",
    ["r0", "r1", "r2", "r3", "r4", "r5", "r6", "r7",
     "r8", "r9", "r10", "r11", "r12", "r13", "r14", "r15",
     "r16", "r17", "r18", "r19", "r20", "r21", "r22", "r23",
     "r24", "r25", "r26", "r27", "r28", "r29", "r30", "r31"]⟩,
  ⟨"gcc", "Select register names used by GCC",
    ["r0", "r1", "r2", "r3", "r4", "r5", "r6", "r7",
     "r8", "r9", "r10", "r11", "r12", "r13", "r14", "r15",
     "r16", "r17", "r18", "r19", "r20", "r21", "r22", "r23",
     "r24", "r25", "sl", "fp", "ip", "sp", "lr", "pc"]⟩,
  ⟨"std", "Select register names used in UNICORE's ISA documentation",
    ["r0", "r1", "r2", "r3", "r4", "r5", "r6", "r7",
     "r8", "r9", "r10", "r11", "r12", "r13", "r14", "r15",
     "r16", "r17", "r18", "r19", "r20", "r21", "r22", "r23",
     "r24", "r25", "r26", "r27", "r28", "sp", "lr", "pc"]⟩]

def unicore64_Ffmt : List String := ["S", "D", "W", "?"]

def unicore64_Fcond : List String := [
  "F", "UN", "EQ", "UEQ", "OLT", "ULT", "OLE", "ULE",
  "SF", "NGLE", "SEQ", "NGL", "LT", "NGE", "LE", "NGT"]

def unicore64_Fregister : List String := [
  "f0", "f1", "f2", "f3", "f4", "f5", "f6", "f7",
  "f8", "f9", "f10", "f11", "f12", "f13", "f14", "f15",
  "f16", "f17", "f18", "f19", "f20", "f21", "f22", "f23",
  "f24", "f25", "f26", "f27", "f28", "f29", "f30", "f31"]

def unicore64_FSregister : List String := [
  "s0", "s1", "s2", "s3", "s4", "s5", "s6", "s7",
  "s8", "s9", "s10", "s11", "s12", "s13", "s14", "s15",
  "s16", "s17", "s18", "s19", "s20", "s21", "s22", "s23",
  "s24", "s25", "s26", "s27", "s28", "s29", "s30", "s31"]

/-- Default to GCC register name set: `regnames[1].reg_names`. -/
def unicore64_regnames : List String :=
  match regnames with
  | _ :: r :: _ => r.reg_names
  | _ => []

/-- The access `tbl[i]` of a name table, printed with `%s`. -/
def lookup (tbl : List String) (i : Nat) : Except Fault (List Out) :=
  match tbl[i]? with
  | some s => .ok (txt s)
  | none => .error .outOfBounds

/-! ## Cursor primitives -/

/-- The character under the cursor, `*ptr`; NUL at the end of the string. -/
def peek (ptr : List Char) : Char := ptr.headD (Char.ofNat 0)

/-- The test `*ptr >= '0' && *ptr <= '9'`. -/
def isDigit (c : Char) : Bool := decide (48 ≤ c.toNat) && decide (c.toNat ≤ 57)

/-- The delimiter character of the all-ones conditional, an apostrophe. -/
def apostrophe : Char := Char.ofNat 39

/-- The delimiter character of the all-zeroes conditional, a backquote. -/
def backquote : Char := Char.ofNat 96

/-! ## `unicore64_decode_bitfield` -/

/-- The loop `for (n = acc; *ptr >= '0' && *ptr <= '9'; ptr++) n = n * 10 + *ptr - '0';`:
the number read and the cursor left on the first non-digit. -/
def scanNumber : Nat → List Char → Nat × List Char
  | acc, [] => (acc, [])
  | acc, c :: cs =>
    if isDigit c then scanNumber (acc * 10 + (c.toNat - 48)) cs else (acc, c :: cs)

/-- The mask `(2ul << bits) - 1` in `unsigned long` arithmetic. -/
def fieldMask (bits : Nat) : Nat := ((2 <<< bits) % 2 ^ 64 + (2 ^ 64 - 1)) % 2 ^ 64

/-- The `do ... while (*ptr++ == ',')` loop of `unicore64_decode_bitfield`, with the
accumulators `value` and `width`; returns `(value, width, ptr - 1)`. -/
def decode_bitfield_loop :
    Nat → List Char → Nat → Nat → Nat → Except Fault (Nat × Nat × List Char)
  | 0, _, _, _, _ => .error .outOfFuel
  | fuel + 1, ptr, insn, value, width =>
    let s := scanNumber 0 ptr
    let e := if peek s.2 = '-' then scanNumber 0 s.2.tail else (s.1, s.2)
    if e.1 < s.1 then .error .abort
    else
      let bits := e.1 - s.1
      let value1 := value ||| ((((insn >>> s.1) &&& fieldMask bits) <<< width) % 2 ^ 64)
      let width1 := width + (bits + 1)
      if peek e.2 = ',' then decode_bitfield_loop fuel e.2.tail insn value1 width1
      else .ok (value1, width1, e.2)

/-- Decode a bitfield of the form matching regexp `(N(-N)?,)*N(-N)?`: the extracted
value, the number of bits extracted, and the cursor on the following character. -/
def unicore64_decode_bitfield (ptr : List Char) (insn : Nat) :
    Except Fault (Nat × Nat × List Char) :=
  decode_bitfield_loop (ptr.length + 1) ptr insn 0 0

/-! ## Output sequencing -/

/-- Run `a`, then `b`: the outputs in order, or the first fault met. -/
def seq (a b : Except Fault (List Out)) : Except Fault (List Out) :=
  match a with
  | .error e => .error e
  | .ok x =>
    match b with
    | .error e => .error e
    | .ok y => .ok (x ++ y)

/-- Plain text written with `func (stream, "...")`. -/
def say (s : String) : Except Fault (List Out) := .ok (txt s)

/-- An integer written with `%d`. -/
def sayInt (x : Int) : Except Fault (List Out) := .ok (chars (fmt_d x))

/-- The call `info->print_address_func (a, info)`. -/
def sayAddr (a : Nat) : Except Fault (List Out) := .ok [Out.addr a]

/-- The sign-extended displacement `((given & (2^n - 1)) ^ 2^(n-1)) - 2^(n-1)`,
written with the literal masks `m` and sign bit `sb` of the source. -/
def signedField (given m sb : Nat) : Int := (((given &&& m) ^^^ sb : Nat) : Int) - (sb : Int)

/-- The branch target `disp * 4 + pc` in `bfd_vma` arithmetic. -/
def branchTarget (disp : Int) (pc : Nat) : Nat := (toU64 (disp * 4) + pc) % 2 ^ 64

/-! ## `unicore64_decode_shift` -/

def unicore64_decode_shift (given : Nat) (print_shift : Bool) : Except Fault (List Out) :=
  seq (lookup unicore64_regnames (given &&& 0x1f))
    (if given &&& 0x3fe0 ≠ 0 then
      if given &&& 0x20 = 0 then
        let amount := (given &&& 0x3e00) >>> 9
        let shift := (given &&& 0xc0) >>> 6
        if amount = 0 ∧ shift = 3 then say "<>#33"
        else
          let amount1 : Nat := if amount = 0 then 32 else amount
          if print_shift then
            seq (say " ") (seq (lookup unicore64_shift shift) (seq (say " #") (sayInt amount1)))
          else seq (say " #") (sayInt amount1)
      else if print_shift then
        seq (say " ") (seq (lookup unicore64_shift ((given &&& 0xc0) >>> 6))
          (seq (say " ") (lookup unicore64_regnames ((given &&& 0x3e00) >>> 9))))
      else seq (say " ") (lookup unicore64_regnames ((given &&& 0x3e00) >>> 9))
    else .ok [])

/-! ## `print_unicore64_address` -/

def print_unicore64_address (pc given : Nat) : Except Fault (List Out) :=
  seq (say "[") (seq (lookup unicore64_regnames ((given >>> 11) &&& 0x1f))
  (seq
    (if given &&& 0xefc00000 = 0x60000000 then
      if given &&& 0x08000000 = 0 then
        if given &&& 0x10000000 = 0 then say "-]" else say "+]"
      else
        if given &&& 0x10000000 ≠ 0 then say "]-" else say "]+"
    else
      if given &&& 0x08000000 ≠ 0 then
        if given &&& 0x10000000 = 0 then say "-]" else say "+]"
      else
        if given &&& 0x10000000 = 0 then say "]-" else say "]+")
    (if given &&& 0x00200000 ≠ 0 then
      let immed : Int := ((given &&& 0x7ff : Nat) : Int)
      seq (say ", #") (seq (sayInt immed) (seq (say "\t")
        (if given &&& 0x0000f800 = 0x0000f800 then
          let immed1 : Int := if given &&& 0x10000000 = 0 then -immed else immed
          let immed2 : Int := toInt32 ((toU64 immed1 + pc) % 2 ^ 64)
          sayAddr (toU64 immed2)
        else .ok [])))
    else seq (say ", ") (lookup unicore64_regnames ((given &&& 0x7c0) >>> 6)))))

/-! ## The directive interpreter of `print_insn_uc64_interal` -/

/-- The sign string `((given & 0x08000000) == 0) ? "-" : "+"` of the `%s` directive. -/
def signText (given : Nat) : String := if given &&& 0x08000000 = 0 then "-" else "+"

/-- The immediate `((given & 0x3e00) >> 4) | (given & 0x1f)` of the `%s` directive. -/
def splitImmediate (given : Nat) : Nat := ((given &&& 0x3e00) >>> 4) ||| (given &&& 0x1f)

/-- The directive `%s`. -/
def directive_s (pc given : Nat) : Except Fault (List Out) :=
  if given &&& 0x04f80000 = 0x04f80000 then
    let offset : Int := (splitImmediate given : Nat)
    let offset1 : Int := if given &&& 0x08000000 = 0 then -offset else offset
    seq (say "[pc], #") (seq (sayInt offset1) (seq (say "\t; ")
      (sayAddr ((toU64 offset1 + pc) % 2 ^ 64))))
  else
    seq (say "[") (seq (lookup unicore64_regnames ((given >>> 19) &&& 0x1f))
      (if given &&& 0x10000000 ≠ 0 then
        if given &&& 0x04000000 = 0x04000000 then
          let offset := splitImmediate given
          if offset ≠ 0 then
            seq (say (signText given)) (seq (say "], #") (sayInt offset))
          else seq (say (signText given)) (say "]")
        else
          seq (say (signText given)) (seq (say "], ")
            (lookup unicore64_regnames (given &&& 0x1f)))
      else
        if given &&& 0x04000000 = 0x04000000 then
          let offset := splitImmediate given
          if offset ≠ 0 then
            seq (say "]") (seq (say (signText given)) (seq (say ", #") (sayInt offset)))
          else say "]"
        else
          seq (say "]") (seq (say (signText given)) (seq (say ", ")
            (lookup unicore64_regnames (given &&& 0x1f))))))

/-- The `#imm24 signed-extended` branch target handed to the address callback. -/
def sayBranch24 (pc given : Nat) : Except Fault (List Out) :=
  sayAddr (branchTarget (signedField given 0xffffff 0x800000) pc)

/-- The directive `%C`. -/
def directive_C (pc given : Nat) : Except Fault (List Out) :=
  if given &&& 0xf0000000 = 0xf0000000 then
    if given &&& 0x0f000000 ≠ 0x0f000000 then
      seq (say "jepriv\t") (sayBranch24 pc given)
    else say "halt"
  else if given &&& 0xf0000000 = 0xe0000000 then
    seq
      (if given &&& 0x0f000000 ≠ 0x0e000000 ∧ given &&& 0x0f000000 ≠ 0x0f000000 then
        seq (say "jepriv") (seq (lookup unicore64_conditional ((given >>> 24) &&& 0xf))
          (say "\t"))
      else if given &&& 0x0f000000 = 0x0e000000 then say "bkpt\t"
      else .ok [])
      (seq (sayBranch24 pc given)
        (if given &&& 0x0f000000 = 0x0f000000 then say "ext" else .ok []))
  else
    if given &&& 0x0f000000 ≠ 0x0f000000 then
      seq (say "b") (seq (lookup unicore64_conditional ((given >>> 24) &&& 0xf))
        (seq (if given &&& 0x10000000 = 0x10000000 then say ".l\t" else say "\t")
          (sayBranch24 pc given)))
    else
      seq
        (if given &&& 0x00c00000 = 0x00000000 then
          seq (say "jump\t") (lookup unicore64_regnames ((given &&& 0x0000f800) >>> 11))
        else .ok [])
        (seq (if given &&& 0x00c00000 = 0x00800000 then say "return " else .ok [])
          (if given &&& 0x00c00000 = 0x00c00000 then say "eret " else .ok []))

/-- The register-list loop `for (reg = 0; reg < 8; reg++)` of the `%M` directive,
from register `reg` on, `n` registers left. -/
def directive_M_loop (list base : Nat) : Nat → Nat → Bool → Except Fault (List Out)
  | 0, _, _ => .ok []
  | n + 1, reg, started =>
    if list &&& (1 <<< reg) ≠ 0 then
      seq (if started then say ", " else .ok [])
        (seq (lookup unicore64_Fregister (base + reg))
          (directive_M_loop list base n (reg + 1) true))
    else directive_M_loop list base n (reg + 1) started

/-- The directive `%M`. -/
def directive_M (given : Nat) : Except Fault (List Out) :=
  let list := given &&& 0x000000ff
  let sel := given &&& 0x00000300
  let base : Nat :=
    if sel = 0x0 then 0 else if sel = 0x100 then 8 else if sel = 0x200 then 16
    else if sel = 0x300 then 24 else 0
  seq (say "(") (seq (directive_M_loop list base 8 0 false) (say ")"))

/-- The directive `%o`. -/
def directive_o (given : Nat) : Except Fault (List Out) :=
  if given &&& 0x00200000 ≠ 0 then
    let immed : Nat :=
      if given &&& 0x000007c0 = 0x00000000 then given &&& 0x3f else given &&& 0x7ff
    seq (say "#") (seq (sayInt immed) (seq (say "\t; 0x") (.ok (chars (fmt_x immed)))))
  else
    if (given >>> 29) &&& 0x7 = 0x1 then
      seq (say " ") (lookup unicore64_regnames ((given >>> 11) &&& 0x1f))
    else
      seq (say " ") (lookup unicore64_regnames ((given &&& 0x7c0) >>> 6))

/-- The directive `%A`. -/
def directive_A (given : Nat) : Except Fault (List Out) :=
  let offset := given &&& 0x7fc
  let sign : String := if given &&& 0x10000000 = 0 then "-" else "+"
  seq (say "[") (seq (lookup unicore64_regnames ((given >>> 11) &&& 0x1f))
    (if given &&& (1 <<< 27) ≠ 0 then
      if offset ≠ 0 then seq (say sign) (seq (say "], #") (sayInt offset))
      else say "]"
    else
      seq (say "]")
        (if offset ≠ 0 then seq (say sign) (seq (say ", #") (sayInt offset)) else .ok [])))

/-- The directive `%B`: the address handed to the callback.  The `int` value
`(-1) ^ 0x00ffffff` is `-1 - 0x00ffffff`, converted to `bfd_vma`. -/
def directive_B_address (pc given : Nat) : Nat :=
  let offset0 : Nat := if given &&& 0x00800000 ≠ 0 then toU64 (-1 - 0x00ffffff) else 0
  let offset1 := (offset0 + (given &&& 0x00ffffff)) % 2 ^ 64
  let offset2 := (offset1 <<< 2) % 2 ^ 64
  let address := (offset2 + pc) % 2 ^ 64
  if given &&& 0x01000000 ≠ 0 then (address + 2) % 2 ^ 64 else address

/-- The directive `%h`. -/
def directive_h (given : Nat) : Except Fault (List Out) :=
  let sel := given &&& 0x01c00000
  if sel = 0x01000000 then say "b"
  else if sel = 0x00800000 then say "h"
  else if sel = 0x01800000 then say "w"
  else if sel = 0x01400000 then say "sb"
  else if sel = 0x00c00000 then say "sh"
  else if sel = 0x01c00000 then say "sw"
  else if sel = 0x00400000 then say "d"
  else .ok []

/-- The directive `%U`; `(int) given & 0xf` keeps the low four bits of the pattern. -/
def directive_U (given : Nat) : Except Fault (List Out) :=
  let sel := given &&& 0xf
  if sel = 0xf then say "sy"
  else if sel = 0x7 then say "un"
  else if sel = 0xe then say "st"
  else if sel = 0x6 then say "unst"
  else seq (say "#") (sayInt ((given &&& 0xf : Nat) : Int))

/-- The cases of `switch (*++c)` other than a digit: the output of the directive
letter `ch`; the cursor stays on the letter. -/
def letter_directive (pc given : Nat) (ch : Char) : Except Fault (List Out) :=
  if ch = '%' then say "%"
  else if ch = 'a' then print_unicore64_address pc given
  else if ch = 'P' then print_unicore64_address pc (given ||| (1 <<< 24))
  else if ch = 's' then directive_s pc given
  else if ch = 'I' then sayAddr (branchTarget (signedField given 0xffff 0x8000) pc)
  else if ch = 'i' then sayBranch24 pc given
  else if ch = 'C' then directive_C pc given
  else if ch = 'u' then
    seq (if given &&& 0x04000000 = 0x04000000 then say "w" else .ok [])
      (if given &&& 0x00800000 = 0x00800000 then say "s" else say "u")
  else if ch = 'X' then seq (say "#") (sayInt (((given &&& 0x3ff) >>> 2 : Nat) : Int))
  else if ch = 'q' then unicore64_decode_shift given false
  else if ch = 'M' then directive_M given
  else if ch = 'o' then directive_o given
  else if ch = 'y' then
    let immed := (given &&& 0x008f0000) >>> 16
    seq (say "#") (seq (sayInt immed) (seq (say "\t; 0x") (.ok (chars (fmt_x immed)))))
  else if ch = 'p' then
    (if given &&& 0x0000f000 = 0x0000f000 then say "p" else .ok [])
  else if ch = 'A' then directive_A given
  else if ch = 'B' then sayAddr (directive_B_address pc given)
  else if ch = 't' then
    (if given &&& 0x12000000 = 0x02000000 then say ".u" else .ok [])
  else if ch = 'w' then
    (if given &&& 0x04000000 = 0x04000000 then say ".w" else .ok [])
  else if ch = 'W' then
    (if given &&& 0x04000000 = 0x04000000 then say ".W" else .ok [])
  else if ch = 'h' then directive_h given
  else if ch = 'U' then directive_U given
  else .error .abort

/-- The comparison value `(1ul << width) - 1` in `unsigned long` arithmetic. -/
def allOnes (width : Nat) : Nat := ((1 <<< width) % 2 ^ 64 + (2 ^ 64 - 1)) % 2 ^ 64

/-- The read `c[k]` relative to a cursor: NUL on the terminator, a fault outside
the string. -/
def charAt (c : List Char) (k : Int) : Except Fault Char :=
  if k < 0 then .error .outOfBounds
  else if k.toNat < c.length then .ok (c.getD k.toNat (Char.ofNat 0))
  else if k.toNat = c.length then .ok (Char.ofNat 0)
  else .error .outOfBounds

/-- The `switch (*c)` on the delimiter after a bitfield: `c` is the cursor on the
delimiter; returns the output and the cursor where the case leaves it. -/
def delimiter_directive (given value width : Nat) (c : List Char) :
    Except Fault (List Out × List Char) :=
  let stay (r : Except Fault (List Out)) : Except Fault (List Out × List Char) :=
    match r with
    | .error e => .error e
    | .ok o => .ok (o, c)
  let d := peek c
  if d = 'r' then stay (lookup unicore64_regnames value)
  else if d = 'f' then stay (lookup unicore64_Fregister value)
  else if d = 'S' then stay (lookup unicore64_FSregister value)
  else if d = 'F' then stay (lookup unicore64_Ffmt value)
  else if d = 'n' then stay (lookup unicore64_Fcond value)
  else if d = 'c' then stay (lookup unicore64_conditional value)
  else if d = 'p' then stay (lookup unicore64_2D_fmt value)
  else if d = 'd' then stay (sayInt (toLong value))
  else if d = 'b' then stay (sayInt (toLong ((value * 8) % 2 ^ 64)))
  else if d = 'W' then stay (sayInt (toLong ((value + 1) % 2 ^ 64)))
  else if d = 'x' then
    stay (seq (say "0x") (seq (.ok (chars (pad0 8 (fmt_x value))))
      (if given &&& 0x0fffffff = 0x0FF00000 then say "\t; IMB"
       else if given &&& 0x0fffffff = 0x0FF00001 then say "\t; IMBRange"
       else .ok [])))
  else if d = 'X' then stay (.ok (chars (fmt_x (value &&& 0xf))))
  else if d = backquote then
    .ok (if value = 0 then [Out.chr (peek c.tail)] else [], c.tail)
  else if d = apostrophe then
    .ok (if value = allOnes width then [Out.chr (peek c.tail)] else [], c.tail)
  else if d = '?' then
    match charAt c ((2 ^ width : Nat) - toInt32 value) with
    | .error e => .error e
    | .ok ch =>
      if 2 ^ width ≤ c.length then .ok ([Out.chr ch], c.drop (2 ^ width))
      else .error .outOfBounds
  else .error .abort

/-- The body of `switch (*++c)`: `c` is the cursor after the increment, on the
directive character; returns the output and the cursor at the closing `break`. -/
def directive (pc given : Nat) (c : List Char) : Except Fault (List Out × List Char) :=
  if isDigit (peek c) then
    match unicore64_decode_bitfield c given with
    | .error e => .error e
    | .ok (value, width, c1) => delimiter_directive given value width c1
  else
    match letter_directive pc given (peek c) with
    | .error e => .error e
    | .ok o => .ok (o, c)

/-- The loop `for (c = insn->assembler; *c; c++)` from cursor `c` on, `out` being
the output so far. -/
def template_loop (pc given : Nat) : Nat → List Char → List Out → Except Fault (List Out)
  | 0, _, _ => .error .outOfFuel
  | _ + 1, [], out => .ok out
  | fuel + 1, ch :: cs, out =>
    if ch = '%' then
      match directive pc given cs with
      | .error e => .error e
      | .ok (o, c1) =>
        match c1 with
        | [] => .error .outOfBounds
        | _ :: c2 => template_loop pc given fuel c2 (out ++ o)
    else template_loop pc given fuel cs (out ++ [Out.chr ch])

/-- The leading word text `func (stream, "[%08x]   ", (uint32_t) given)`. -/
def word_lead (given : Nat) : List Out :=
  txt "[" ++ chars (pad0 8 (fmt_x (given % 2 ^ 32))) ++ txt "]   "

/-- The body run for the matching entry: the word prefix, then the template. -/
def print_template (pc given : Nat) (assembler : String) : Except Fault (List Out) :=
  template_loop pc given (assembler.length + 1) assembler.toList (word_lead given)

/-- The scan `for (insn = ...; insn->assembler; insn++)` over a table: the template
of the first entry with `(given & insn->mask) == insn->value`; reaching the null
template leaves the loop for the `abort ()` placed after it. -/
def find_insn : List opcode32 → Nat → Except Fault String
  | [], _ => .error .outOfBounds
  | insn :: rest, given =>
    match insn.assembler with
    | none => .error .abort
    | some a => if given &&& insn.mask = insn.value then .ok a else find_insn rest given

/-- The printer over an arbitrary table: the body of the scan loop runs the
template of the entry found and returns. -/
def print_insn_table (tbl : List opcode32) (pc given : Nat) : Except Fault (List Out) :=
  match find_insn tbl given with
  | .error e => .error e
  | .ok a => print_template pc given a

/-- Print one UC64 instruction from PC on INFO->STREAM. -/
def print_insn_uc64_interal (pc given : Nat) : Except Fault (List Out) :=
  print_insn_table unicore64_opcodes pc given

/-! ## Specification vocabulary -/

/-- Zero-padded hexadecimal rendering with exactly `k` lower-case digits. -/
def fixedHex : Nat → Nat → List Char
  | 0, _ => []
  | k + 1, n => fixedHex k (n / 16) ++ [hexDigit (n % 16)]

/-- A decimal digit as the character of the template text. -/
def digitChar (d : Fin 10) : Char := Char.ofNat (48 + d.val)

/-- The text of a digit sequence. -/
def digitsText (ds : List (Fin 10)) : List Char := ds.map digitChar

/-- The number a digit sequence denotes (0 for the empty sequence). -/
def digitsValue (ds : List (Fin 10)) : Nat := ds.foldl (fun acc d => acc * 10 + d.val) 0

/-- A fragment `N` or `N-M` of the range grammar, as written in a template. -/
structure Frag where
  lo : List (Fin 10)
  hi : Option (List (Fin 10))

/-- The start position of a fragment. -/
def Frag.start (f : Frag) : Nat := digitsValue f.lo

/-- The end position of a fragment: that of `M`, or the start for the form `N`. -/
def Frag.stop (f : Frag) : Nat :=
  match f.hi with
  | none => digitsValue f.lo
  | some h => digitsValue h

/-- The text of a fragment. -/
def Frag.text (f : Frag) : List Char :=
  digitsText f.lo ++
    match f.hi with
    | none => []
    | some h => '-' :: digitsText h

/-- A fragment is well formed when `start <= end <= 31`. -/
def Frag.wf (f : Frag) : Prop := f.start ≤ f.stop ∧ f.stop ≤ 31

/-- The text of a comma-separated range list. -/
def rangeText : List Frag → List Char
  | [] => []
  | [f] => f.text
  | f :: g :: fs => f.text ++ ',' :: rangeText (g :: fs)

/-- The number of bits a fragment contributes, `end - start + 1`. -/
def Frag.bits (f : Frag) : Nat := f.stop - f.start + 1

/-- The total width of a range list. -/
def rangeWidth : List Frag → Nat
  | [] => 0
  | f :: fs => f.bits + rangeWidth fs

/-- The bit group `W[start..end]` of a fragment. -/
def bitGroup (insn : Nat) (f : Frag) : Nat := (insn >>> f.start) % 2 ^ f.bits

/-- The bit groups of a range list concatenated low-to-high: each group shifted
left by `off` plus the total width of the groups before it. -/
def concatGroups (insn : Nat) : Nat → List Frag → Nat
  | _, [] => 0
  | off, f :: fs => bitGroup insn f * 2 ^ off + concatGroups insn (off + f.bits) fs

/-- The text after a range list starts with a character that is not a digit, a
comma or a dash (the NUL terminator included). -/
def delimiterStart (rest : List Char) : Prop :=
  isDigit (peek rest) = false ∧ peek rest ≠ ',' ∧ peek rest ≠ '-'

instance (rest : List Char) : Decidable (delimiterStart rest) := by
  unfold delimiterStart; infer_instance

instance (f : Frag) : Decidable f.wf := by
  unfold Frag.wf; infer_instance

/-- The accumulation of `unicore64_decode_bitfield` over the fragments of a range list,
in the arithmetic of the source: `abort` at the first fragment with `end < start`,
else the final `(value, width)`. -/
def decodeFrags (insn : Nat) : Nat → Nat → List Frag → Except Fault (Nat × Nat)
  | value, width, [] => .ok (value, width)
  | value, width, f :: fs =>
    if f.stop < f.start then .error .abort
    else
      decodeFrags insn
        (value ||| ((((insn >>> f.start) &&& fieldMask (f.stop - f.start)) <<< width) % 2 ^ 64))
        (width + (f.stop - f.start + 1)) fs

/-- The range list `0-30,0-30,0-3`: three well-formed fragments, 66 bits in all. -/
def wideRanges : List Frag :=
  [Frag.mk [0] (some [3, 0]), Frag.mk [0] (some [3, 0]), Frag.mk [0] (some [3])]

/-! ## `print_insn_data` and the driver `print_insn_internal` -/

/-- Print data bytes on INFO->STREAM: `bytes_per_chunk` selects the format, `given`
is the 64-bit pattern of the `long long` argument, printed with `%llx`. -/
def print_insn_data (bytes_per_chunk given : Nat) : Except Fault (List Out) :=
  if bytes_per_chunk = 1 then .ok (txt ".byte\t0x" ++ chars (pad0 2 (fmt_x (given % 2 ^ 64))))
  else if bytes_per_chunk = 2 then
    .ok (txt ".short\t0x" ++ chars (pad0 4 (fmt_x (given % 2 ^ 64))))
  else if bytes_per_chunk = 4 then
    .ok (txt ".word\t0x" ++ chars (pad0 8 (fmt_x (given % 2 ^ 64))))
  else if bytes_per_chunk = 8 then .ok (txt ".dword\t0x" ++ chars (fmt_x (given % 2 ^ 64)))
  else .error .abort

/-- The two values of `info->display_endian`. -/
inductive Endian
  | BFD_ENDIAN_LITTLE
  | BFD_ENDIAN_BIG
deriving DecidableEq, Repr

/-- Modelled from the spec: the fields of `struct disassemble_info` (declared in
`dis-asm.h`, which is not among the sources) that `print_insn_internal` reads or
writes.  `read_memory_func memaddr length` gives the status returned by the byte
fetch and the bytes it stored in the buffer. -/
structure disassemble_info where
  read_memory_func : Nat → Nat → Int × List Nat
  flags : Nat
  disassembler_options : Option String
  display_endian : Endian
  bytes_per_line : Nat
  bytes_per_chunk : Nat

/-- What one call of `print_insn_internal` does: the value returned, the stream
output with the address callbacks, the calls `memory_error_func (status, pc, info)`,
and the fields it leaves in `info`. -/
structure DriverResult where
  ret : Int
  out : List Out
  memory_errors : List (Int × Nat)
  display_endian : Endian
  bytes_per_line : Nat
  bytes_per_chunk : Nat
deriving DecidableEq, Repr

/-- The byte `b[i]` of the fetch buffer, an `unsigned char`. -/
def byteAt (b : List Nat) (i : Nat) : Nat := b.getD i 0 % 256

/-- The `long` obtained from an `int` with the 32-bit pattern `w`: sign extension
to 64 bits. -/
def longOfInt32 (w : Nat) : Nat :=
  if w % 2 ^ 32 < 2 ^ 31 then w % 2 ^ 32 else w % 2 ^ 32 + (2 ^ 64 - 2 ^ 32)

/-- The instruction word assembled from the buffer: `b[0] | b[1] << 8 | b[2] << 16 |
b[3] << 24` when `little`, the bytes in the other order otherwise; the `int` result
(two's complement) is stored in the `long given`. -/
def assemble_word (little : Bool) (b : List Nat) : Nat :=
  if little then
    longOfInt32 (byteAt b 0 ||| (byteAt b 1 <<< 8) ||| (byteAt b 2 <<< 16) ||| (byteAt b 3 <<< 24))
  else
    longOfInt32 (byteAt b 3 ||| (byteAt b 2 <<< 8) ||| (byteAt b 1 <<< 16) ||| (byteAt b 0 <<< 24))

/-- The data loop `for (i = size - 1; i >= 0; i--) given_data = b[i] | (given_data << 8)`
over the indices `idx`, in 64-bit arithmetic. -/
def assemble_data (b : List Nat) : List Nat → Nat → Nat
  | [], acc => acc
  | i :: idx, acc => assemble_data b idx ((byteAt b i ||| (acc <<< 8)) % 2 ^ 64)

/-- The driver `print_insn_internal`.  `INSN_HAS_RELOC` is the flag mask of
`dis-asm.h`, taken as a parameter.  The locals `is_data` and `size` are initialised
to `FALSE` and `4` and not assigned before they are tested. -/
def print_insn_internal (INSN_HAS_RELOC pc : Nat) (info : disassemble_info) (little : Bool) :
    Except Fault DriverResult :=
  let is_data : Bool := false
  let size : Nat := 4
  let display_endian := if little then Endian.BFD_ENDIAN_LITTLE else Endian.BFD_ENDIAN_BIG
  let bytes_per_line : Nat := if is_data && decide (size = 8) then 8 else 4
  let bytes_per_chunk : Nat := if is_data then size else 4
  let fetch := if is_data then info.read_memory_func pc size else info.read_memory_func pc 4
  let status := fetch.1
  let b := fetch.2
  let given_data : Nat :=
    if little then assemble_data b (List.range size).reverse 0
    else assemble_data b (List.range size) 0
  let given : Nat := assemble_word little b
  if status ≠ 0 then
    .ok ⟨-1, [], [(status, pc)], display_endian, bytes_per_line, bytes_per_chunk⟩
  else
    let pc1 : Nat := if info.flags &&& INSN_HAS_RELOC ≠ 0 then 0 else pc
    let printed :=
      if is_data then print_insn_data bytes_per_chunk given_data
      else print_insn_uc64_interal pc1 given
    match printed with
    | .error e => .error e
    | .ok out => .ok ⟨size, out, [], display_endian, bytes_per_line, bytes_per_chunk⟩

/-- The public entry point: `print_insn_internal (pc, info, TRUE)`. -/
def print_insn_unicore64 (INSN_HAS_RELOC pc : Nat) (info : disassemble_info) :
    Except Fault DriverResult :=
  print_insn_internal INSN_HAS_RELOC pc info true

/-- A `disassemble_info` whose byte fetch returns `status` and stores `bytes`, with
no flag set. -/
def fetchOf (status : Int) (bytes : List Nat) : disassemble_info :=
  { read_memory_func := fun _ _ => (status, bytes), flags := 0, disassembler_options := none,
    display_endian := Endian.BFD_ENDIAN_LITTLE, bytes_per_line := 0, bytes_per_chunk := 0 }

/-! ## Specification vocabulary for the later claims -/

/-- Two's-complement sign extension of an `n`-bit field `x`. -/
def signExtend (n x : Nat) : Int := if x < 2 ^ (n - 1) then (x : Int) else (x : Int) - 2 ^ n

/-- The address `pc + d` in arithmetic modulo `2 ^ 64`. -/
def addrPlus (pc : Nat) (d : Int) : Nat := (((pc : Int) + d) % 2 ^ 64).toNat

/-- A character that is not a line break. -/
def cleanChar (c : Char) : Bool := decide (c ≠ '\n') && decide (c ≠ '\r')

/-- No character of the output is a line break. -/
def Clean (o : List Out) : Prop := ∀ c, Out.chr c ∈ o → cleanChar c = true

/-- The run ends normally and none of its output characters is a line break. -/
def Good (r : Except Fault (List Out)) : Prop := ∃ o, r = .ok o ∧ Clean o

/-- The directive letters with a `case` in `switch (*++c)`. -/
def knownLetters : List Char :=
  ['%', 'a', 'P', 's', 'I', 'i', 'C', 'u', 'X', 'q', 'M', 'o', 'y', 'p', 'A', 'B', 't', 'w',
   'W', 'h', 'U']

/-- Static check of the delimiter at cursor `c` after a bitfield of `width` bits:
the cursor where the case leaves off, when the case is safe for every value below
`2 ^ width`. -/
def checkDelimiter (width : Nat) (c : List Char) : Option (List Char) :=
  let d := peek c
  if d = 'r' then (if 2 ^ width ≤ unicore64_regnames.length then some c else none)
  else if d = 'f' then (if 2 ^ width ≤ unicore64_Fregister.length then some c else none)
  else if d = 'S' then (if 2 ^ width ≤ unicore64_FSregister.length then some c else none)
  else if d = 'F' then (if 2 ^ width ≤ unicore64_Ffmt.length then some c else none)
  else if d = 'n' then (if 2 ^ width ≤ unicore64_Fcond.length then some c else none)
  else if d = 'c' then (if 2 ^ width ≤ unicore64_conditional.length then some c else none)
  else if d = 'p' then (if 2 ^ width ≤ unicore64_2D_fmt.length then some c else none)
  else if d = 'd' ∨ d = 'b' ∨ d = 'W' ∨ d = 'x' ∨ d = 'X' then some c
  else if d = backquote ∨ d = apostrophe then
    (if width < 64 ∧ c.tail ≠ [] ∧ cleanChar (peek c.tail) = true then some c.tail else none)
  else if d = '?' then
    (if width ≤ 30 ∧ 2 ^ width < c.length ∧ c.all cleanChar = true then some (c.drop (2 ^ width))
     else none)
  else none

/-- Static check of the directive at cursor `c` (after the `%`): the cursor at the
closing `break`, when the directive is safe for every word. -/
def checkDirective (c : List Char) : Option (List Char) :=
  if isDigit (peek c) then
    match unicore64_decode_bitfield c 0 with
    | .ok (_, width, c1) => if width ≤ 64 then checkDelimiter width c1 else none
    | .error _ => none
  else if peek c ∈ knownLetters then some c
  else none

/-- Static check of a template from cursor `c` on, following the cursor moves of
`template_loop`. -/
def checkTemplate : Nat → List Char → Bool
  | 0, _ => false
  | _ + 1, [] => true
  | fuel + 1, ch :: cs =>
    if ch = '%' then
      match checkDirective cs with
      | some (_ :: c2) => checkTemplate fuel c2
      | _ => false
    else cleanChar ch && checkTemplate fuel cs

/-- Every template of a table passes the static check. -/
def checkTable (tbl : List opcode32) : Bool :=
  tbl.all (fun e =>
    match e.assembler with
    | none => true
    | some a => checkTemplate (a.length + 1) a.toList)

/-- The delimiters with a `case` in the `switch (*c)` after a bitfield. -/
def knownDelimiters : List Char :=
  ['r', 'f', 'S', 'F', 'n', 'c', 'p', 'd', 'b', 'W', 'x', 'X', backquote, apostrophe, '?']

/-- Every character of the output satisfies `p`. -/
def CleanBy (p : Char → Bool) (o : List Out) : Prop := ∀ c, Out.chr c ∈ o → p c = true

/-- The run ends normally and every character of its output satisfies `p`. -/
def GoodBy (p : Char → Bool) (r : Except Fault (List Out)) : Prop :=
  ∃ o, r = .ok o ∧ CleanBy p o

/-- A character that occurs in no shift-operator mnemonic `<<`, `>>`, `|>`, `<>`. -/
def noShiftChar (c : Char) : Bool := decide (c ≠ '<') && decide (c ≠ '>') && decide (c ≠ '|')

/-- The sixteen renderings of the barrier type, by code. -/
def barrierText (code : Nat) : String :=
  if code = 0xf then "sy" else if code = 0x7 then "un" else if code = 0xe then "st"
  else if code = 0x6 then "unst" else "#" ++ toString code

/-- A `disassemble_info` whose byte fetch returns `status` and stores `bytes`, with
the flag word `flags`. -/
def fetchWithFlags (status : Int) (bytes : List Nat) (flags : Nat) : disassemble_info :=
  { read_memory_func := fun _ _ => (status, bytes), flags := flags, disassembler_options := none,
    display_endian := Endian.BFD_ENDIAN_LITTLE, bytes_per_line := 0, bytes_per_chunk := 0 }

/-- The index at which the scan `for (insn = unicore64_opcodes; insn->assembler; insn++)`
stops over a table: the position of the first entry with
`(given & insn->mask) == insn->value`, none when the null template is reached. -/
def find_index : List opcode32 → Nat → Option Nat
  | [], _ => none
  | insn :: rest, given =>
    match insn.assembler with
    | none => none
    | some _ =>
      if given &&& insn.mask = insn.value then some 0
      else (find_index rest given).map (fun i => i + 1)

/-- The index `(1 << width) - (int) value` of the `?` case, relative to the cursor, in
`int` arithmetic: there is none when `1 << width` is not representable in an `int`
(a width above 30, where the shift is undefined) or when the difference is not. -/
def select_index (value width : Nat) : Option Int :=
  if width ≤ 30 then
    let k : Int := ((2 ^ width : Nat) : Int) - toInt32 value
    if -(2 ^ 31) ≤ k ∧ k < 2 ^ 31 then some k else none
  else none

/-- The immediate operand in the words of the specification: `#`, the low eleven bits
of the word in decimal, a tab, `; 0x` and the same value in hexadecimal. -/
def immediateText (given : Nat) : List Out :=
  txt "#" ++ (chars (fmt_d ((given &&& 0x7ff : Nat) : Int)) ++
    (txt "\t; 0x" ++ chars (fmt_x (given &&& 0x7ff))))

/-- The direction sign of a memory operand in the words of the specification: `+`
when bit 28 is set and `-` when it is clear. -/
def directionSign (given : Nat) : String := if given &&& 0x10000000 ≠ 0 then "+" else "-"

/-- The bracket and sign of a memory operand: the sign before `]` in the pre-indexed
form, after it in the post-indexed form. -/
def bracketText (pre : Bool) (sign : String) : String :=
  if pre then sign ++ "]" else "]" ++ sign

/-- The characters of a lower-case hexadecimal numeral. -/
def lowerHex : List Char := "0123456789abcdef".toList

/-! ## `target-unicore64/softmmu.c` -/

def SUPERPAGE_SIZE : Nat := 1 <<< 20

def UC64_PAGETABLE_READ : Nat := 1 <<< 7

def UC64_PAGETABLE_WRITE : Nat := 1 <<< 6

def UC64_PAGETABLE_EXEC : Nat := 1 <<< 5

def UC64_PAGETABLE_EXIST : Nat := 1 <<< 2

/-- The constants that `softmmu.c` takes from `cpu.h` and `cpu-all.h`.  The headers
are not part of the sources, so the values are parameters; each stands for a
non-negative `int` constant. -/
structure cpu_h where
  ASR_MODE_SELECT : Nat
  ASR_MODE_PRIV : Nat
  ASR_INTR_SELECT : Nat
  ASR_IDX_PRIV : Nat
  ASR_IDX_USER : Nat
  UC64_EXCP_PRIV : Int
  UC64_EXCP_ITRAP : Int
  UC64_EXCP_DTRAP : Int
  CPU_INTERRUPT_EXITTB : Nat
  PAGE_READ : Nat
  PAGE_WRITE : Nat
  PAGE_EXEC : Nat

/-- The fields of `env->cp0` that `softmmu.c` reads or writes, each a 64-bit value. -/
structure cp0_state where
  c1_sys : Nat
  c2_base : Nat
  c3_ifaultstatus : Nat
  c3_dfaultstatus : Nat
  c4_epc : Nat
  c4_dtrapaddr : Nat
  c9_excpbase : Nat

/-- The fields of `CPUUniCore64State` that `softmmu.c` reads or writes.  The register
file and the banked arrays are maps from the index to the 64-bit value held. -/
structure CPUUniCore64State where
  regs : Nat → Nat
  uncached_asr : Nat
  uncached_afr : Nat
  banked_r29 : Nat → Nat
  banked_r30 : Nat → Nat
  banked_bsr : Nat → Nat
  banked_bfr : Nat → Nat
  cp0 : cp0_state
  exception_index : Int
  interrupt_request : Nat

/-- The index of a mode: `(mode == ASR_MODE_PRIV) ? ASR_IDX_PRIV : ASR_IDX_USER`. -/
def mode_index (k : cpu_h) (mode : Int) : Nat :=
  if mode = (k.ASR_MODE_PRIV : Int) then k.ASR_IDX_PRIV else k.ASR_IDX_USER

/-- The function `switch_mode`: banks `regs[29]`, `regs[30]`, `uncached_asr` and
`uncached_afr` of the old mode and loads those of the new one, unless both modes have
the same index. -/
def switch_mode (k : cpu_h) (env : CPUUniCore64State) (mode : Int) : CPUUniCore64State :=
  let old_mode : Int := toInt32 (env.uncached_asr &&& k.ASR_MODE_SELECT)
  let old_mode_idx := mode_index k old_mode
  let mode_idx := mode_index k mode
  if mode_idx = old_mode_idx then env
  else
    let e1 : CPUUniCore64State :=
      { env with
        banked_r29 := Function.update env.banked_r29 old_mode_idx (env.regs 29)
        banked_r30 := Function.update env.banked_r30 old_mode_idx (env.regs 30)
        banked_bsr := Function.update env.banked_bsr old_mode_idx env.uncached_asr
        banked_bfr := Function.update env.banked_bfr old_mode_idx env.uncached_afr }
    { e1 with
      regs := Function.update (Function.update e1.regs 29 (e1.banked_r29 mode_idx)) 30
        (e1.banked_r30 mode_idx)
      uncached_asr := e1.banked_bsr mode_idx
      uncached_afr := e1.banked_bfr mode_idx }

/-- The function `do_interrupt`: `cpu_abort` for an exception other than the three
handled ones; otherwise the switch to privileged mode and the jump to the vector. -/
def do_interrupt (k : cpu_h) (env : CPUUniCore64State) : Except Fault CPUUniCore64State :=
  let vector : Except Fault Int :=
    if env.exception_index = k.UC64_EXCP_PRIV then .ok k.UC64_EXCP_PRIV
    else if env.exception_index = k.UC64_EXCP_ITRAP then .ok k.UC64_EXCP_ITRAP
    else if env.exception_index = k.UC64_EXCP_DTRAP then .ok k.UC64_EXCP_DTRAP
    else .error .abort
  match vector with
  | .error e => .error e
  | .ok v =>
    let addr : Nat := (toU64 v + env.cp0.c9_excpbase) % 2 ^ 64
    let e1 := switch_mode k env (k.ASR_MODE_PRIV : Int)
    let e2 : CPUUniCore64State :=
      { e1 with uncached_asr :=
          (e1.uncached_asr &&& (2 ^ 64 - 1 - k.ASR_MODE_SELECT)) ||| k.ASR_MODE_PRIV }
    let e3 : CPUUniCore64State :=
      { e2 with uncached_asr := e2.uncached_asr ||| k.ASR_INTR_SELECT }
    let e4 : CPUUniCore64State := { e3 with cp0 := { e3.cp0 with c4_epc := e3.regs 31 } }
    let e5 : CPUUniCore64State := { e4 with regs := Function.update e4.regs 31 addr }
    .ok { e5 with interrupt_request := e5.interrupt_request ||| k.CPU_INTERRUPT_EXITTB }

/-- The result of `get_phys_addr`: the returned code, the CPU state, and the values
left in `*phys_ptr`, `*prot` and `*page_size`. -/
structure phys_result where
  code : Nat
  env : CPUUniCore64State
  phys_ptr : Nat
  prot : Nat
  page_size : Nat

/-- The label `do_fault` of `get_phys_addr`: a non-zero code is recorded in the CPU
state, as an instruction trap for access type 2 and as a data trap otherwise. -/
def do_fault (k : cpu_h) (env : CPUUniCore64State) (address : Nat) (access_type : Int)
    (code : Nat) : CPUUniCore64State :=
  if code ≠ 0 then
    let e1 : CPUUniCore64State := { env with cp0 := { env.cp0 with c4_epc := address } }
    if access_type = 2 then
      { e1 with
        cp0 := { e1.cp0 with c3_ifaultstatus := code }
        exception_index := k.UC64_EXCP_ITRAP }
    else
      { e1 with
        cp0 := { e1.cp0 with c3_dfaultstatus := code, c4_dtrapaddr := address }
        exception_index := k.UC64_EXCP_DTRAP }
  else env

/-- The level-1 descriptor of the walk: `ldl_phys` at the table address made of
`c2_base` and bits 30..38 of the address. -/
def l1_descriptor (ldl_phys : Nat → Nat) (env : CPUUniCore64State) (address : Nat) : Nat :=
  let table : Nat := (env.cp0.c2_base &&& 0xffffff000) ||| ((address >>> 27) &&& 0xff8)
  ldl_phys table % 2 ^ 64

/-- The level-2 descriptor of the walk: `ldl_phys` at the table address made of the
level-1 descriptor and bits 21..29 of the address. -/
def l2_descriptor (ldl_phys : Nat → Nat) (env : CPUUniCore64State) (address : Nat) : Nat :=
  let table : Nat :=
    (l1_descriptor ldl_phys env address &&& 0xffffff000) ||| ((address >>> 18) &&& 0xff8)
  ldl_phys table % 2 ^ 64

/-- The function `get_phys_addr`: the two-level page-table walk and the permission
check.  The physical memory read `ldl_phys` is a parameter; `phys_ptr`, `prot` and
`page_size` are the values the three output locations hold on entry.  Every path
that returns ends at `do_fault`, which records the code when it is not 0. -/
def get_phys_addr (k : cpu_h) (ldl_phys : Nat → Nat) (env : CPUUniCore64State) (address : Nat)
    (access_type is_user : Int) (phys_ptr prot page_size : Nat) : Except Fault phys_result :=
  let desc1 : Nat := l1_descriptor ldl_phys env address
  if desc1 &&& UC64_PAGETABLE_EXIST = 0 then
    .ok ⟨0x02, do_fault k env address access_type 0x02, phys_ptr, prot, page_size⟩
  else
    let desc : Nat := l2_descriptor ldl_phys env address
    if desc &&& 1 = 1 then
      if desc &&& UC64_PAGETABLE_EXIST = 0 then
        .ok ⟨0x05, do_fault k env address access_type 0x05, phys_ptr, prot, page_size⟩
      else
        let phys_addr : Nat := (desc &&& 0xfffe00000) ||| (address &&& 0x1fffff)
        let leave (code prot1 : Nat) : Except Fault phys_result :=
          .ok ⟨code, do_fault k env address access_type code, phys_addr, prot1, SUPERPAGE_SIZE⟩
        let exec_check (prot1 : Nat) : Except Fault phys_result :=
          if desc &&& UC64_PAGETABLE_EXEC ≠ 0 then leave 0 (prot1 ||| k.PAGE_EXEC)
          else if is_user ≠ 0 ∧ access_type = 2 then leave 0x6 prot1
          else leave 0 prot1
        let write_check (prot1 : Nat) : Except Fault phys_result :=
          if desc &&& UC64_PAGETABLE_WRITE ≠ 0 then exec_check (prot1 ||| k.PAGE_WRITE)
          else if is_user ≠ 0 ∧ access_type = 1 then leave 0x7 prot1
          else exec_check prot1
        if desc &&& UC64_PAGETABLE_READ ≠ 0 then write_check (0 ||| k.PAGE_READ)
        else if is_user ≠ 0 ∧ access_type = 0 then leave 0x6 0
        else write_check 0
    else .error .abort

/-- A sample assignment of the header constants, for evaluating the model. -/
def sample_cpu_h : cpu_h :=
  { ASR_MODE_SELECT := 0x3, ASR_MODE_PRIV := 0x2, ASR_INTR_SELECT := 0x20, ASR_IDX_PRIV := 1,
    ASR_IDX_USER := 0, UC64_EXCP_PRIV := 0x08, UC64_EXCP_ITRAP := 0x0c, UC64_EXCP_DTRAP := 0x10,
    CPU_INTERRUPT_EXITTB := 0x4, PAGE_READ := 1, PAGE_WRITE := 2, PAGE_EXEC := 4 }

/-- A sample CPU state in user mode with a pending data trap. -/
def sample_env : CPUUniCore64State :=
  { regs := fun i => 0x1000 + i, uncached_asr := 0x1, uncached_afr := 0,
    banked_r29 := fun _ => 0x7000, banked_r30 := fun _ => 0x8000,
    banked_bsr := fun _ => 0x1, banked_bfr := fun _ => 0,
    cp0 := { c1_sys := 1, c2_base := 0x4000, c3_ifaultstatus := 0, c3_dfaultstatus := 0,
             c4_epc := 0, c4_dtrapaddr := 0, c9_excpbase := 0xffffff8000000000 },
    exception_index := 0x10, interrupt_request := 0 }

/-- A sample physical memory: the level-1 descriptor at `0x4000` points to the table
at `0x5000`, whose entry 0 maps a superpage that a user may read and execute but not
write. -/
def sample_memory (a : Nat) : Nat :=
  if a = 0x4000 then 0x5004 else if a = 0x5000 then 0x002000a5 else 0

end UC64

namespace UC64

set_option maxRecDepth 100000

/-! ## The opcode scan -/

theorem find_insn_first (tbl : List opcode32) (given : Nat) :
    ∀ (i : Nat) (insn : opcode32) (a : String), tbl[i]? = some insn →
      insn.assembler = some a → given &&& insn.mask = insn.value →
      (∀ j < i, ∀ e, tbl[j]? = some e → e.assembler ≠ none ∧ given &&& e.mask ≠ e.value) →
      find_insn tbl given = .ok a := by
  induction tbl with
  | nil => intro i insn a h; simp at h
  | cons x xs ih =>
    intro i insn a hi ha hm hfirst
    cases i with
    | zero =>
      simp at hi
      subst hi
      simp [find_insn, ha, hm]
    | succ k =>
      have h0 := hfirst 0 (Nat.succ_pos k) x (by simp)
      obtain ⟨b, hb⟩ := Option.ne_none_iff_exists'.mp h0.1
      have hrec := ih k insn a (by simpa using hi) ha hm
        (fun j hj e he => hfirst (j + 1) (Nat.succ_lt_succ hj) e (by simpa using he))
      simp [find_insn, hb, h0.2, hrec]

theorem opcodes_assembler_isSome :
    ∀ j < 161, ((unicore64_opcodes[j]?).bind (fun e => e.assembler)).isSome = true := by
  decide

theorem opcodes_assembler_ne_none (j : Nat) (e : opcode32) (hj : j < 161)
    (he : unicore64_opcodes[j]? = some e) : e.assembler ≠ none := by
  have h := opcodes_assembler_isSome j hj
  rw [he] at h
  intro hn
  simp [hn] at h

theorem catch_all_entry :
    unicore64_opcodes[160]? = some (opcode32.mk 1 0 0 (some "undefined instruction %0-31x")) := by
  decide

theorem print_insn_of_first (pc given i : Nat) (insn : opcode32) (a : String)
    (hi : unicore64_opcodes[i]? = some insn) (ha : insn.assembler = some a)
    (hm : given &&& insn.mask = insn.value)
    (hfirst : ∀ j < i, ∀ e, unicore64_opcodes[j]? = some e → given &&& e.mask ≠ e.value) :
    find_insn unicore64_opcodes given = .ok a ∧
      print_insn_uc64_interal pc given = print_template pc given a := by
  have hlen : i < 161 := by
    by_contra hge
    have hlt : i < unicore64_opcodes.length := by
      by_contra hnot
      rw [List.getElem?_eq_none (Nat.le_of_not_lt hnot)] at hi
      exact Option.noConfusion hi
    have h162 : unicore64_opcodes.length = 162 := by decide
    have h161 : i = 161 := by omega
    subst h161
    have hs : unicore64_opcodes[161]? = some (opcode32.mk 1 0 0 none) := by decide
    rw [hs] at hi
    cases hi
    exact Option.noConfusion ha
  have hfind : find_insn unicore64_opcodes given = .ok a :=
    find_insn_first unicore64_opcodes given i insn a hi ha hm
      (fun j hj e he => ⟨opcodes_assembler_ne_none j e (Nat.lt_trans hj hlen) he, hfirst j hj e he⟩)
  exact ⟨hfind, by simp [print_insn_uc64_interal, print_insn_table, hfind]⟩

theorem exists_first_match (given : Nat) :
    ∃ i insn a, i < 161 ∧ unicore64_opcodes[i]? = some insn ∧ insn.assembler = some a ∧
      given &&& insn.mask = insn.value ∧
      (∀ j < i, ∀ e, unicore64_opcodes[j]? = some e → given &&& e.mask ≠ e.value) := by
  classical
  have hex : ∃ i, ∃ e : opcode32, unicore64_opcodes[i]? = some e ∧ given &&& e.mask = e.value :=
    ⟨160, _, catch_all_entry, by simp⟩
  obtain ⟨e, he, hm⟩ := Nat.find_spec hex
  have hle : Nat.find hex ≤ 160 := Nat.find_min' hex ⟨_, catch_all_entry, by simp⟩
  have hlt : Nat.find hex < 161 := Nat.lt_succ_of_le hle
  obtain ⟨a, ha⟩ := Option.ne_none_iff_exists'.mp (opcodes_assembler_ne_none _ e hlt he)
  refine ⟨Nat.find hex, e, a, hlt, he, ha, hm, ?_⟩
  intro j hj e1 he1 hm1
  exact Nat.find_min hex hj ⟨e1, he1, hm1⟩

/-! ## Claims about the opcode scan -/

/-- C1: for every word, `print_insn_uc64_interal` renders the template of the
lowest-index entry of `unicore64_opcodes` with `(W & mask) == value`, whatever later
entries match; the word 0 renders the `nop` entry although the `and` entry that
follows it matches as well. -/
theorem first_match_wins :
    (∀ (pc given i : Nat) (insn : opcode32) (a : String),
      unicore64_opcodes[i]? = some insn → insn.assembler = some a →
      given &&& insn.mask = insn.value →
      (∀ j < i, ∀ e, unicore64_opcodes[j]? = some e → given &&& e.mask ≠ e.value) →
      print_insn_uc64_interal pc given = print_template pc given a) ∧
    (unicore64_opcodes[1]? =
        some (opcode32.mk 1 0 0xff400000 (some "and%23'.%23'a\t%16-20r, %11-15r, %o")) ∧
      0 &&& 0xff400000 = 0 ∧
      ∀ pc, print_insn_uc64_interal pc 0 = .ok (txt "[00000000]   nop\t\t\t(mov r0,r0)") ∧
        print_template pc 0 "and%23'.%23'a\t%16-20r, %11-15r, %o" =
          .ok (txt "[00000000]   and\tr0, r0,  r0")) := by
  refine ⟨fun pc given i insn a hi ha hm hfirst =>
    (print_insn_of_first pc given i insn a hi ha hm hfirst).2, by decide, by decide, ?_⟩
  intro pc
  exact ⟨rfl, rfl⟩

/-- Witness for C1: the entry `call` at index 82 is the first match of `0xbe000000`. -/
theorem first_match_wins_witness :
    print_insn_uc64_interal 0x1000 0xbe000000 = print_template 0x1000 0xbe000000 "call\t%i" :=
  first_match_wins.1 0x1000 0xbe000000 82 (opcode32.mk 1 0xbe000000 0xff000000 (some "call\t%i"))
    "call\t%i" (by decide) rfl (by decide) (by decide)


theorem fixedHex_pad (k : Nat) : ∀ (fuel n : Nat), 0 < k → k ≤ fuel → n < 16 ^ k →
    pad0 k (natDigits 16 fuel n) = fixedHex k n ∧ (natDigits 16 fuel n).length ≤ k := by
  induction k with
  | zero => intro fuel n h; omega
  | succ k ih =>
    intro fuel n _ hf hn
    obtain ⟨f, rfl⟩ : ∃ f, fuel = f + 1 := ⟨fuel - 1, by omega⟩
    by_cases hlt : n < 16
    · have hz : ∀ j, fixedHex j 0 = List.replicate j '0' := by
        intro j
        induction j with
        | zero => rfl
        | succ j ihj =>
          simp only [fixedHex, Nat.zero_div, ihj, Nat.zero_mod]
          rw [List.replicate_succ']
          rfl
      simp only [natDigits, hlt, if_true, pad0, List.length_singleton, fixedHex]
      rw [Nat.div_eq_of_lt hlt, hz, Nat.mod_eq_of_lt hlt]
      simp
    · have hk : 0 < k := by
        rcases k with _ | k
        · simp at hn; omega
        · omega
      have hdiv : n / 16 < 16 ^ k := by
        rw [Nat.div_lt_iff_lt_mul (by norm_num)]
        rw [pow_succ] at hn
        exact hn
      obtain ⟨h1, h2⟩ := ih f (n / 16) hk (by omega) hdiv
      simp only [natDigits, hlt, if_false, pad0, List.length_append, List.length_singleton,
        fixedHex]
      constructor
      · rw [← h1, pad0, List.append_assoc]
        congr 2
        omega
      · omega

theorem fieldMask_31 : fieldMask 31 = 2 ^ 32 - 1 := by decide

theorem undefined_template (pc given : Nat) :
    print_template pc given "undefined instruction %0-31x" =
      .ok (word_lead given ++ txt "undefined instruction 0x" ++
        chars (fixedHex 8 (given % 2 ^ 32)) ++
        (if given &&& 0x0fffffff = 0x0FF00000 then txt "\t; IMB"
         else if given &&& 0x0fffffff = 0x0FF00001 then txt "\t; IMBRange"
         else [])) := by
  have ht : "undefined instruction %0-31x".toList =
      ['u','n','d','e','f','i','n','e','d',' ','i','n','s','t','r','u','c','t','i','o','n',' ',
       '%','0','-','3','1','x'] := by decide
  have hl : "undefined instruction %0-31x".length = 28 := by decide
  have hv : (given &&& 4294967295) % 18446744073709551616 = given % 4294967296 := by
    have h := Nat.and_pow_two_sub_one_eq_mod given 32
    norm_num at h
    rw [h]
    omega
  have hpad := (fixedHex_pad 8 16 (given % 2 ^ 32) (by norm_num) (by norm_num)
    (by have := Nat.mod_lt given (show 0 < 2 ^ 32 by norm_num); omega)).1
  norm_num at hpad
  unfold print_template
  rw [ht, hl]
  simp [template_loop, directive, peek, isDigit, unicore64_decode_bitfield, decode_bitfield_loop,
    scanNumber, delimiter_directive, fieldMask_31, seq, say, fmt_x, hv, hpad]
  split_ifs <;> simp [template_loop, txt, chars]


theorem no_match_before (given k : Nat)
    (h : (unicore64_opcodes.take k).all (fun e => decide (given &&& e.mask ≠ e.value)) = true) :
    ∀ j < k, ∀ e, unicore64_opcodes[j]? = some e → given &&& e.mask ≠ e.value := by
  intro j hj e he
  have hmem : e ∈ unicore64_opcodes.take k := by
    apply List.getElem?_mem (n := j)
    rw [List.getElem?_take_of_lt hj]
    exact he
  exact of_decide_eq_true (List.all_eq_true.mp h e hmem)

/-- C2: for every word the scan of `unicore64_opcodes` stops at a matching entry
with a template, at an index before the null-template sentinel (index 161), so the
`abort ()` placed after the scan loop is not reached. -/
theorem scan_never_exhausted (pc given : Nat) :
    unicore64_opcodes[161]? = some (opcode32.mk 1 0 0 none) ∧
    find_insn unicore64_opcodes given ≠ .error .abort ∧
    ∃ i insn a, i < 161 ∧ unicore64_opcodes[i]? = some insn ∧ insn.assembler = some a ∧
      given &&& insn.mask = insn.value ∧ find_insn unicore64_opcodes given = .ok a ∧
      print_insn_uc64_interal pc given = print_template pc given a := by
  obtain ⟨i, insn, a, hlt, hi, ha, hm, hfirst⟩ := exists_first_match given
  obtain ⟨hfind, hprint⟩ := print_insn_of_first pc given i insn a hi ha hm hfirst
  refine ⟨by decide, ?_, i, insn, a, hlt, hi, ha, hm, hfind, hprint⟩
  rw [hfind]
  exact fun h => Except.noConfusion h

/-- C3, as stated, fails: for `W = 0xFFFFFFFF` it is not the case that no entry
before the catch-all matches and the output is the `undefined instruction` message. -/
theorem all_ones_word_counterexample :
    ¬ ∃ pc, (∀ j < 160, ∀ e, unicore64_opcodes[j]? = some e → 0xFFFFFFFF &&& e.mask ≠ e.value) ∧
      print_insn_uc64_interal pc 0xFFFFFFFF =
        .ok (word_lead 0xFFFFFFFF ++ txt "undefined instruction 0xffffffff") := by
  rintro ⟨pc, h, _⟩
  exact h 81 (by decide) (opcode32.mk 1 0xf0000000 0xf0000000 (some "%C")) (by decide) (by decide)

/-- C3, amended: for `W = 0xFFFFFFFF` the first matching entry is the specific entry
`(value 0xf0000000, mask 0xf0000000, "%C")` at index 81, and the output is the word
prefix followed by `halt` (also for the sign-extended `long` of that word); the
`undefined instruction` message with the word in hex is the output for a word that no
specific entry matches, such as `0x9FFFFFFF`. -/
theorem all_ones_word_renders_halt :
    unicore64_opcodes[81]? = some (opcode32.mk 1 0xf0000000 0xf0000000 (some "%C")) ∧
    0xFFFFFFFF &&& 0xf0000000 = 0xf0000000 ∧
    (∀ j < 81, ∀ e, unicore64_opcodes[j]? = some e → 0xFFFFFFFF &&& e.mask ≠ e.value) ∧
    (∀ pc, print_insn_uc64_interal pc 0xFFFFFFFF = .ok (txt "[ffffffff]   halt")) ∧
    (∀ pc, print_insn_uc64_interal pc 0xFFFFFFFFFFFFFFFF = .ok (txt "[ffffffff]   halt")) ∧
    (∀ j < 160, ∀ e, unicore64_opcodes[j]? = some e → 0x9FFFFFFF &&& e.mask ≠ e.value) ∧
    (∀ pc, print_insn_uc64_interal pc 0x9FFFFFFF =
      .ok (txt "[9fffffff]   undefined instruction 0x9fffffff")) :=
  ⟨by decide, by decide, no_match_before _ _ (by decide), fun _ => rfl, fun _ => rfl,
    no_match_before _ _ (by decide), fun _ => rfl⟩

/-- C4, as stated, fails: no entry before the catch-all matches `0x8FF00000`, and the
text rendered from the catch-all template is the message and the eight hex digits
followed by the annotation `\t; IMB`, not by nothing. -/
theorem catch_all_text_counterexample :
    (∀ j < 160, ∀ e, unicore64_opcodes[j]? = some e → 0x8FF00000 &&& e.mask ≠ e.value) ∧
    print_insn_uc64_interal 0 0x8FF00000 =
      .ok (word_lead 0x8FF00000 ++ txt "undefined instruction 0x" ++
        chars (fixedHex 8 0x8FF00000) ++ txt "\t; IMB") ∧
    print_insn_uc64_interal 0 0x8FF00000 ≠
      .ok (word_lead 0x8FF00000 ++ txt "undefined instruction 0x" ++
        chars (fixedHex 8 0x8FF00000)) :=
  ⟨no_match_before _ _ (by decide), by decide, by decide⟩

/-- C4, amended: for every word `W` that no entry before the catch-all matches, the
output is the word prefix, then `undefined instruction 0x` followed by the low 32
bits of `W` as 8 lower-case zero-padded hex digits, followed by `\t; IMB` when
`(W & 0x0fffffff) == 0x0FF00000`, by `\t; IMBRange` when
`(W & 0x0fffffff) == 0x0FF00001`, and by nothing otherwise. -/
theorem catch_all_text (pc given : Nat)
    (hnone : ∀ j < 160, ∀ e, unicore64_opcodes[j]? = some e → given &&& e.mask ≠ e.value) :
    print_insn_uc64_interal pc given =
      .ok (word_lead given ++ txt "undefined instruction 0x" ++
        chars (fixedHex 8 (given % 2 ^ 32)) ++
        (if given &&& 0x0fffffff = 0x0FF00000 then txt "\t; IMB"
         else if given &&& 0x0fffffff = 0x0FF00001 then txt "\t; IMBRange"
         else [])) := by
  rw [(print_insn_of_first pc given 160 _ _ catch_all_entry rfl (by simp) hnone).2]
  exact undefined_template pc given

/-- Witness for C4: no specific entry matches `0x08000000`, and it renders the plain
message. -/
theorem catch_all_text_witness :
    print_insn_uc64_interal 0x1000 0x08000000 =
      .ok (txt "[08000000]   undefined instruction 0x08000000") :=
  (catch_all_text 0x1000 0x08000000 (no_match_before _ _ (by decide))).trans (by decide)

/-! ## The bitfield decoder on range lists -/

theorem digitChar_facts : ∀ d : Fin 10,
    isDigit (digitChar d) = true ∧ (digitChar d).toNat - 48 = d.val := by
  decide

theorem scanNumber_digits (ds : List (Fin 10)) : ∀ (acc : Nat) (tail : List Char),
    isDigit (peek tail) = false →
    scanNumber acc (digitsText ds ++ tail) =
      (ds.foldl (fun a d => a * 10 + d.val) acc, tail) := by
  induction ds with
  | nil =>
    intro acc tail h
    cases tail with
    | nil => rfl
    | cons c cs =>
      have hc : isDigit c = false := h
      simp [digitsText, scanNumber, hc]
  | cons d ds ih =>
    intro acc tail h
    have hd := digitChar_facts d
    have := ih (acc * 10 + d.val) tail h
    simp only [digitsText, List.map_cons, List.cons_append, scanNumber, hd.1, hd.2, if_true,
      List.foldl_cons] at this ⊢
    exact this

theorem decode_bitfield_step (fuel insn value width : Nat) (f : Frag) (tail : List Char)
    (h1 : isDigit (peek tail) = false) (h2 : peek tail ≠ '-') :
    decode_bitfield_loop (fuel + 1) (f.text ++ tail) insn value width =
      if f.stop < f.start then .error .abort
      else if peek tail = ',' then
        decode_bitfield_loop fuel tail.tail insn
          (value ||| ((((insn >>> f.start) &&& fieldMask (f.stop - f.start)) <<< width) % 2 ^ 64))
          (width + (f.stop - f.start + 1))
      else
        .ok (value ||| ((((insn >>> f.start) &&& fieldMask (f.stop - f.start)) <<< width) % 2 ^ 64),
          width + (f.stop - f.start + 1), tail) := by
  obtain ⟨lo, hi⟩ := f
  cases hi with
  | none =>
    have hs : scanNumber 0 (digitsText lo ++ tail) = (digitsValue lo, tail) :=
      scanNumber_digits lo 0 tail h1
    simp only [decode_bitfield_loop, Frag.text, Frag.start, Frag.stop, List.append_nil, hs, h2,
      if_false]
  | some h =>
    have hdash : isDigit (peek ('-' :: (digitsText h ++ tail))) = false := rfl
    have hs : scanNumber 0 (digitsText lo ++ ('-' :: (digitsText h ++ tail))) =
        (digitsValue lo, '-' :: (digitsText h ++ tail)) :=
      scanNumber_digits lo 0 _ hdash
    have he : scanNumber 0 (digitsText h ++ tail) = (digitsValue h, tail) :=
      scanNumber_digits h 0 tail h1
    have hp : peek ('-' :: (digitsText h ++ tail)) = '-' := rfl
    simp only [decode_bitfield_loop, Frag.text, Frag.start, Frag.stop, List.append_assoc,
      List.cons_append, hs, hp, if_true, List.tail_cons, he]

theorem decode_bitfield_frags (insn : Nat) (rest : List Char) (hrest : delimiterStart rest) :
    ∀ (frags : List Frag) (fuel value width : Nat), frags ≠ [] → frags.length ≤ fuel →
      decode_bitfield_loop fuel (rangeText frags ++ rest) insn value width =
        match decodeFrags insn value width frags with
        | .ok (v, w) => .ok (v, w, rest)
        | .error e => .error e := by
  intro frags
  induction frags with
  | nil => intro fuel value width h; exact absurd rfl h
  | cons f fs ih =>
    intro fuel value width _ hfuel
    obtain ⟨k, rfl⟩ : ∃ k, fuel = k + 1 := ⟨fuel - 1, by simp at hfuel; omega⟩
    cases fs with
    | nil =>
      have hne : peek rest ≠ ',' := hrest.2.1
      rw [show rangeText [f] = f.text from rfl, decode_bitfield_step k insn value width f rest
        hrest.1 hrest.2.2]
      by_cases hbad : f.stop < f.start
      · simp [decodeFrags, hbad]
      · simp [decodeFrags, hbad, hne]
    | cons g gs =>
      have htxt : rangeText (f :: g :: gs) ++ rest = f.text ++ (',' :: (rangeText (g :: gs) ++ rest)) := by
        simp [rangeText]
      rw [htxt, decode_bitfield_step k insn value width f (',' :: (rangeText (g :: gs) ++ rest)) rfl
        (by simp [peek])]
      by_cases hbad : f.stop < f.start
      · simp [decodeFrags, hbad]
      · have hrec := ih k
          (value ||| ((((insn >>> f.start) &&& fieldMask (f.stop - f.start)) <<< width) % 2 ^ 64))
          (width + (f.stop - f.start + 1)) (by simp) (by simp at hfuel ⊢; omega)
        simp only [hbad, if_false, peek, List.headD_cons, if_true, List.tail_cons, hrec]
        conv_rhs => rw [decodeFrags, if_neg hbad]

theorem fieldMask_eq (bits : Nat) (h : bits < 64) : fieldMask bits = 2 ^ (bits + 1) - 1 := by
  have hpos : 0 < 2 ^ (bits + 1) := Nat.two_pow_pos _
  have hle : 2 ^ (bits + 1) ≤ 2 ^ 64 := Nat.pow_le_pow_right (by norm_num) (by omega)
  have hs : 2 <<< bits = 2 ^ (bits + 1) := by
    rw [Nat.shiftLeft_eq, Nat.pow_succ, Nat.mul_comm]
  unfold fieldMask
  rw [hs]
  generalize 2 ^ (bits + 1) = x at *
  norm_num at hle ⊢
  omega

theorem decodeFrags_value (insn : Nat) : ∀ (frags : List Frag) (value width : Nat),
    (∀ f ∈ frags, f.start ≤ f.stop) → value < 2 ^ width → width + rangeWidth frags ≤ 64 →
    decodeFrags insn value width frags =
      .ok (value + concatGroups insn width frags, width + rangeWidth frags) := by
  intro frags
  induction frags with
  | nil => intro value width _ _ _; simp [decodeFrags, concatGroups, rangeWidth]
  | cons f fs ih =>
    intro value width hwf hv hw
    have hf : f.start ≤ f.stop := hwf f (List.mem_cons_self f fs)
    have hbits : f.bits = f.stop - f.start + 1 := rfl
    simp only [rangeWidth] at hw
    have hmask : fieldMask (f.stop - f.start) = 2 ^ f.bits - 1 := by
      rw [fieldMask_eq _ (by omega), hbits]
    have hg : (insn >>> f.start) &&& fieldMask (f.stop - f.start) = bitGroup insn f := by
      rw [hmask, Nat.and_pow_two_sub_one_eq_mod, bitGroup]
    have hglt : bitGroup insn f < 2 ^ f.bits := Nat.mod_lt _ (Nat.two_pow_pos _)
    have hprod : bitGroup insn f * 2 ^ width + value < 2 ^ (width + f.bits) := by
      have h1 : (bitGroup insn f + 1) * 2 ^ width ≤ 2 ^ f.bits * 2 ^ width :=
        Nat.mul_le_mul_right _ hglt
      rw [Nat.pow_add, Nat.mul_comm (2 ^ width)]
      calc bitGroup insn f * 2 ^ width + value
          < bitGroup insn f * 2 ^ width + 2 ^ width := Nat.add_lt_add_left hv _
        _ = (bitGroup insn f + 1) * 2 ^ width := by ring
        _ ≤ 2 ^ f.bits * 2 ^ width := h1
    have h64 : 2 ^ (width + f.bits) ≤ 2 ^ 64 := Nat.pow_le_pow_right (by norm_num) (by omega)
    have hshift : ((bitGroup insn f) <<< width) % 2 ^ 64 = bitGroup insn f * 2 ^ width := by
      rw [Nat.shiftLeft_eq]
      apply Nat.mod_eq_of_lt
      omega
    have hor : value ||| bitGroup insn f * 2 ^ width = value + bitGroup insn f * 2 ^ width := by
      rw [Nat.or_comm, Nat.mul_comm, ← Nat.mul_add_lt_is_or hv, Nat.add_comm]
    have hrec := ih (value + bitGroup insn f * 2 ^ width) (width + f.bits)
      (fun g hgm => hwf g (List.mem_cons_of_mem f hgm)) (by omega) (by omega)
    rw [decodeFrags, if_neg (by omega), hg, hshift, hor, ← hbits, hrec]
    simp only [concatGroups, rangeWidth]
    rw [Nat.add_assoc, Nat.add_assoc]

theorem decodeFrags_abort (insn : Nat) : ∀ (frags : List Frag) (value width : Nat),
    (decodeFrags insn value width frags = .error .abort ↔ ∃ f ∈ frags, f.stop < f.start) ∧
    ((∀ f ∈ frags, f.start ≤ f.stop) → ∃ v w, decodeFrags insn value width frags = .ok (v, w)) := by
  intro frags
  induction frags with
  | nil => intro value width; simp [decodeFrags]
  | cons f fs ih =>
    intro value width
    by_cases hbad : f.stop < f.start
    · refine ⟨by simp [decodeFrags, hbad], fun h => ?_⟩
      have := h f (List.mem_cons_self f fs)
      omega
    · obtain ⟨h1, h2⟩ := ih
        (value ||| ((((insn >>> f.start) &&& fieldMask (f.stop - f.start)) <<< width) % 2 ^ 64))
        (width + (f.stop - f.start + 1))
      rw [decodeFrags, if_neg hbad]
      constructor
      · rw [h1]
        constructor
        · rintro ⟨g, hg, hlt⟩
          exact ⟨g, List.mem_cons_of_mem f hg, hlt⟩
        · rintro ⟨g, hg, hlt⟩
          rcases List.mem_cons.mp hg with rfl | hg
          · exact absurd hlt hbad
          · exact ⟨g, hg, hlt⟩
      · intro h
        exact h2 (fun g hg => h g (List.mem_cons_of_mem f hg))

theorem rangeText_length : ∀ frags : List Frag, frags.length ≤ (rangeText frags).length + 1 := by
  intro frags
  induction frags with
  | nil => simp
  | cons f fs ih =>
    cases fs with
    | nil => simp
    | cons g gs =>
      simp only [rangeText, List.length_cons, List.length_append] at ih ⊢
      omega

theorem decode_bitfield_on_ranges (insn : Nat) (frags : List Frag) (rest : List Char)
    (hne : frags ≠ []) (hrest : delimiterStart rest) :
    unicore64_decode_bitfield (rangeText frags ++ rest) insn =
      match decodeFrags insn 0 0 frags with
      | .ok (v, w) => .ok (v, w, rest)
      | .error e => .error e := by
  unfold unicore64_decode_bitfield
  apply decode_bitfield_frags insn rest hrest frags _ 0 0 hne
  have := rangeText_length frags
  simp only [List.length_append]
  omega

/-! ## Claims about `unicore64_decode_bitfield` -/

/-- C5, as stated, fails: the range list `0-30,0-30,0-3` is well formed, yet over the
word `0xF` the decoder returns the 64-bit value `0xC00000078000000F`, not the
concatenation `0xF | 0xF << 31 | 0xF << 62` of its three bit groups. -/
theorem bitfield_concat_counterexample :
    (∀ f ∈ wideRanges, f.wf) ∧ rangeText wideRanges = "0-30,0-30,0-3".toList ∧
    unicore64_decode_bitfield (rangeText wideRanges) 0xF = .ok (0xC00000078000000F, 66, []) ∧
    concatGroups 0xF 0 wideRanges = 0xF + 0xF * 2 ^ 31 + 0xF * 2 ^ 62 ∧
    unicore64_decode_bitfield (rangeText wideRanges) 0xF ≠
      .ok (concatGroups 0xF 0 wideRanges, rangeWidth wideRanges, []) := by
  refine ⟨by decide, by decide, by decide, by decide, by decide⟩

/-- C5, amended: for every word and every well-formed range list (`s_i <= e_i <= 31`)
of total width at most 64, `unicore64_decode_bitfield` returns width = the sum of
`e_i - s_i + 1` and value = the bit groups `W[s_i..e_i]` concatenated low-to-high,
the i-th group shifted left by the total width of the groups before it; `4-7,0-1`
over a word with low byte `0xB6` gives value `0x2B` and width 6. -/
theorem bitfield_value_width :
    (∀ (insn : Nat) (frags : List Frag) (rest : List Char), frags ≠ [] →
      (∀ f ∈ frags, f.wf) → delimiterStart rest → rangeWidth frags ≤ 64 →
      unicore64_decode_bitfield (rangeText frags ++ rest) insn =
        .ok (concatGroups insn 0 frags, rangeWidth frags, rest)) ∧
    (∀ (insn : Nat) (rest : List Char), insn % 256 = 0xB6 → delimiterStart rest →
      unicore64_decode_bitfield ("4-7,0-1".toList ++ rest) insn = .ok (0x2B, 6, rest)) := by
  have main : ∀ (insn : Nat) (frags : List Frag) (rest : List Char), frags ≠ [] →
      (∀ f ∈ frags, f.wf) → delimiterStart rest → rangeWidth frags ≤ 64 →
      unicore64_decode_bitfield (rangeText frags ++ rest) insn =
        .ok (concatGroups insn 0 frags, rangeWidth frags, rest) := by
    intro insn frags rest hne hwf hrest hw
    rw [decode_bitfield_on_ranges insn frags rest hne hrest,
      decodeFrags_value insn frags 0 0 (fun f hf => (hwf f hf).1) (by norm_num) (by omega)]
    simp
  refine ⟨main, ?_⟩
  intro insn rest hbyte hrest
  have h := main insn [Frag.mk [4] (some [7]), Frag.mk [0] (some [1])] rest (by simp)
    (by decide) hrest (by decide)
  have htxt : rangeText [Frag.mk [4] (some [7]), Frag.mk [0] (some [1])] = "4-7,0-1".toList := by
    decide
  rw [htxt] at h
  rw [h]
  have hv : concatGroups insn 0 [Frag.mk [4] (some [7]), Frag.mk [0] (some [1])] = 0x2B := by
    have h4 : Frag.start (Frag.mk [4] (some [7])) = 4 := by decide
    have h7 : Frag.bits (Frag.mk [4] (some [7])) = 4 := by decide
    have h0 : Frag.start (Frag.mk [0] (some [1])) = 0 := by decide
    have h1 : Frag.bits (Frag.mk [0] (some [1])) = 2 := by decide
    simp only [concatGroups, bitGroup, h4, h7, h0, h1, Nat.shiftRight_eq_div_pow]
    norm_num
    omega
  have hw : rangeWidth [Frag.mk [4] (some [7]), Frag.mk [0] (some [1])] = 6 := by decide
  rw [hv, hw]

/-- Witness for C5: the range list `16-20` followed by the delimiter `r`. -/
theorem bitfield_value_width_witness :
    unicore64_decode_bitfield "16-20r".toList 0x00150000 = .ok (0x15, 5, ['r']) :=
  (bitfield_value_width.1 0x00150000 [Frag.mk [1, 6] (some [2, 0])] ['r'] (by simp) (by decide)
    (by decide) (by decide)).trans (by decide)

/-- C6: for a template text `<ranges><rest>` whose ranges are well formed and whose
rest starts with a character that is not a digit, a comma or a dash,
`unicore64_decode_bitfield` returns the cursor on the first character of `<rest>`. -/
theorem bitfield_cursor_at_delimiter (insn : Nat) (frags : List Frag) (rest : List Char)
    (hne : frags ≠ []) (hwf : ∀ f ∈ frags, f.wf) (hrest : delimiterStart rest) :
    ∃ value width,
      unicore64_decode_bitfield (rangeText frags ++ rest) insn = .ok (value, width, rest) := by
  obtain ⟨v, w, h⟩ := (decodeFrags_abort insn frags 0 0).2 (fun f hf => (hwf f hf).1)
  exact ⟨v, w, by rw [decode_bitfield_on_ranges insn frags rest hne hrest, h]⟩

/-- Witness for C6: `%11-15r, %o` leaves the cursor on the delimiter `r`. -/
theorem bitfield_cursor_at_delimiter_witness :
    ∃ value width, unicore64_decode_bitfield "11-15r, %o".toList 0x12345678 =
      .ok (value, width, "r, %o".toList) :=
  bitfield_cursor_at_delimiter 0x12345678 [Frag.mk [1, 1] (some [1, 5])] "r, %o".toList (by simp)
    (by decide) (by decide)

/-- C7: on a range list followed by a delimiter, `unicore64_decode_bitfield` aborts
if and only if some fragment has `end < start`; when every fragment has
`end >= start` it returns normally. -/
theorem bitfield_abort_iff (insn : Nat) (frags : List Frag) (rest : List Char)
    (hne : frags ≠ []) (hrest : delimiterStart rest) :
    (unicore64_decode_bitfield (rangeText frags ++ rest) insn = .error .abort ↔
      ∃ f ∈ frags, f.stop < f.start) ∧
    ((∀ f ∈ frags, f.start ≤ f.stop) → ∃ value width,
      unicore64_decode_bitfield (rangeText frags ++ rest) insn = .ok (value, width, rest)) := by
  rw [decode_bitfield_on_ranges insn frags rest hne hrest]
  obtain ⟨h1, h2⟩ := decodeFrags_abort insn frags 0 0
  constructor
  · rw [← h1]
    cases hd : decodeFrags insn 0 0 frags with
    | error e => simp
    | ok p => simp
  · intro hall
    obtain ⟨v, w, h⟩ := h2 hall
    exact ⟨v, w, by rw [h]⟩

/-- Witness for C7: the range list `0-3,5-4` aborts at its second fragment. -/
theorem bitfield_abort_iff_witness :
    unicore64_decode_bitfield "0-3,5-4d".toList 0x12345678 = .error .abort :=
  (bitfield_abort_iff 0x12345678 [Frag.mk [0] (some [3]), Frag.mk [5] (some [4])] ['d'] (by simp)
    (by decide)).1.mpr ⟨Frag.mk [5] (some [4]), by simp, by decide⟩

/-! ## Claims about the conditional and selecting delimiters -/

theorem allOnes_eq (width : Nat) (h : width < 64) : allOnes width = 2 ^ width - 1 := by
  have hpos : 0 < 2 ^ width := Nat.two_pow_pos _
  have hlt : 2 ^ width < 2 ^ 64 := Nat.pow_lt_pow_right (by norm_num) h
  unfold allOnes
  rw [Nat.one_shiftLeft]
  generalize 2 ^ width = x at *
  norm_num at hlt ⊢
  omega

theorem concatGroups_bound (insn : Nat) : ∀ (frags : List Frag) (off : Nat),
    concatGroups insn off frags + 2 ^ off ≤ 2 ^ (off + rangeWidth frags) := by
  intro frags
  induction frags with
  | nil => intro off; simp [concatGroups, rangeWidth]
  | cons f fs ih =>
    intro off
    have hg : bitGroup insn f + 1 ≤ 2 ^ f.bits := Nat.mod_lt _ (Nat.two_pow_pos _)
    have h1 : (bitGroup insn f + 1) * 2 ^ off ≤ 2 ^ f.bits * 2 ^ off := Nat.mul_le_mul_right _ hg
    have h2 := ih (off + f.bits)
    have h3 : 2 ^ (off + f.bits) = 2 ^ f.bits * 2 ^ off := by rw [Nat.pow_add, Nat.mul_comm]
    have h4 : (bitGroup insn f + 1) * 2 ^ off = bitGroup insn f * 2 ^ off + 2 ^ off := by ring
    simp only [concatGroups, rangeWidth]
    rw [← Nat.add_assoc]
    omega

theorem peek_rangeText_append (frags : List Frag) (tail : List Char)
    (h : isDigit (peek (rangeText frags)) = true) :
    peek (rangeText frags ++ tail) = peek (rangeText frags) := by
  cases hr : rangeText frags with
  | nil => rw [hr] at h; exact absurd h (by decide)
  | cons c cs => rfl

theorem rangeText_ne_nil (frags : List Frag) (h : isDigit (peek (rangeText frags)) = true) :
    frags ≠ [] := by
  rintro rfl
  exact absurd h (by decide)

theorem directive_on_ranges (pc given : Nat) (frags : List Frag) (tail : List Char)
    (hd : isDigit (peek (rangeText frags)) = true) (hwf : ∀ f ∈ frags, f.wf)
    (htail : delimiterStart tail) (hw : rangeWidth frags ≤ 64) :
    directive pc given (rangeText frags ++ tail) =
      delimiter_directive given (concatGroups given 0 frags) (rangeWidth frags) tail := by
  have hdec := decode_bitfield_on_ranges given frags tail (rangeText_ne_nil frags hd) htail
  rw [decodeFrags_value given frags 0 0 (fun f hf => (hwf f hf).1) (by norm_num) (by omega)] at hdec
  simp only [Nat.zero_add] at hdec
  unfold directive
  rw [peek_rangeText_append frags tail hd, hd, if_pos rfl, hdec]

theorem directive_on_frags (pc given : Nat) (frags : List Frag) (tail : List Char)
    (hd : isDigit (peek (rangeText frags)) = true) (htail : delimiterStart tail) :
    directive pc given (rangeText frags ++ tail) =
      match decodeFrags given 0 0 frags with
      | .ok (v, w) => delimiter_directive given v w tail
      | .error e => .error e := by
  have hdec := decode_bitfield_on_ranges given frags tail (rangeText_ne_nil frags hd) htail
  unfold directive
  rw [peek_rangeText_append frags tail hd, hd, if_pos rfl, hdec]
  cases decodeFrags given 0 0 frags with
  | error e => rfl
  | ok p => rfl

theorem delimiterStart_cons (d : Char) (rest : List Char) (h : delimiterStart [d]) :
    delimiterStart (d :: rest) := h

theorem delimiter_apostrophe (given value width : Nat) (c : Char) (rest : List Char) :
    delimiter_directive given value width (apostrophe :: c :: rest) =
      .ok (if value = allOnes width then [Out.chr c] else [], c :: rest) := by
  simp [delimiter_directive, peek, apostrophe, backquote]

theorem delimiter_backquote (given value width : Nat) (c : Char) (rest : List Char) :
    delimiter_directive given value width (backquote :: c :: rest) =
      .ok (if value = 0 then [Out.chr c] else [], c :: rest) := by
  simp [delimiter_directive, peek, apostrophe, backquote]

/-- C8: a digit directive with delimiter apostrophe followed by a character `c`
emits `c` exactly when the extracted bitfield is all ones (`value == 2^width - 1`,
for a field of fewer than 64 bits), and in both cases interpretation resumes after
`c`; `and%23'.%23'a` renders `and.a` when bit 23 is set and `and` when it is clear. -/
theorem all_ones_conditional :
    (∀ (pc given : Nat) (frags : List Frag) (c : Char) (rest : List Char) (fuel : Nat)
      (out : List Out), isDigit (peek (rangeText frags)) = true → (∀ f ∈ frags, f.wf) →
      rangeWidth frags < 64 →
      template_loop pc given (fuel + 1) ('%' :: (rangeText frags ++ apostrophe :: c :: rest)) out =
        template_loop pc given fuel rest
          (out ++ if concatGroups given 0 frags = 2 ^ rangeWidth frags - 1 then [Out.chr c]
            else [])) ∧
    (∀ pc given : Nat, template_loop pc given 14 "and%23'.%23'a".toList [] =
      .ok (txt (if (given >>> 23) % 2 = 1 then "and.a" else "and"))) := by
  have main : ∀ (pc given : Nat) (frags : List Frag) (c : Char) (rest : List Char) (fuel : Nat)
      (out : List Out), isDigit (peek (rangeText frags)) = true → (∀ f ∈ frags, f.wf) →
      rangeWidth frags < 64 →
      template_loop pc given (fuel + 1) ('%' :: (rangeText frags ++ apostrophe :: c :: rest)) out =
        template_loop pc given fuel rest
          (out ++ if concatGroups given 0 frags = 2 ^ rangeWidth frags - 1 then [Out.chr c]
            else []) := by
    intro pc given frags c rest fuel out hd hwf hw
    rw [template_loop, if_pos rfl,
      directive_on_ranges pc given frags _ hd hwf (delimiterStart_cons _ _ (by decide))
        (Nat.le_of_lt hw),
      delimiter_apostrophe, allOnes_eq _ hw]
  refine ⟨main, ?_⟩
  intro pc given
  have ht : "and%23'.%23'a".toList =
      ['a', 'n', 'd', '%', '2', '3', apostrophe, '.', '%', '2', '3', apostrophe, 'a'] := by decide
  have hm : fieldMask 0 = 1 := by decide
  have ha : allOnes 1 = 1 := by decide
  rw [ht]
  simp [template_loop, directive, peek, isDigit, unicore64_decode_bitfield, decode_bitfield_loop,
    scanNumber, delimiter_directive, apostrophe, backquote, hm, ha]
  have hmod : given >>> 23 % 2 % 18446744073709551616 = given >>> 23 % 2 := by omega
  rw [hmod]
  by_cases hbit : given >>> 23 % 2 = 1
  · simp only [hbit, if_true]
    rfl
  · simp only [hbit, if_false]
    rfl

/-- Witness for C8: the directive `%26'.` of the `sc`/`ll` templates on a word with
bit 26 set. -/
theorem all_ones_conditional_witness :
    template_loop 0 0x04000000 5 "%26'.w".toList [] = template_loop 0 0x04000000 4 ['w'] [Out.chr '.'] :=
  all_ones_conditional.1 0 0x04000000 [Frag.mk [2, 6] none] '.' ['w'] 4 [] (by decide) (by decide)
    (by decide)

/-- C9: a digit directive with delimiter backquote followed by a character `c` emits
`c` exactly when the extracted bitfield value is 0, and in both cases interpretation
resumes after `c`: the loop continues on the text after `c` with the output so far
extended by `c` or by nothing, and when the template ends with `c` the whole output
is the output so far followed by `c` or by nothing.  The value is the one
`unicore64_decode_bitfield` returns, the concatenated bit groups for a field of at
most 64 bits.  The template `%23` with the delimiter backquote followed by `z!`
renders `z!` when bit 23 is clear and `!` when it is set. -/
theorem all_zeroes_conditional :
    (∀ (pc given : Nat) (frags : List Frag) (c : Char) (rest : List Char) (fuel : Nat)
      (out : List Out), isDigit (peek (rangeText frags)) = true → (∀ f ∈ frags, f.wf) →
      ∃ value width,
        unicore64_decode_bitfield (rangeText frags ++ backquote :: c :: rest) given =
          .ok (value, width, backquote :: c :: rest) ∧
        (rangeWidth frags ≤ 64 → value = concatGroups given 0 frags) ∧
        template_loop pc given (fuel + 1) ('%' :: (rangeText frags ++ backquote :: c :: rest))
            out =
          template_loop pc given fuel rest (out ++ if value = 0 then [Out.chr c] else []) ∧
        (rest = [] →
          template_loop pc given (fuel + 2) ('%' :: (rangeText frags ++ backquote :: c :: rest))
              out =
            .ok (out ++ if value = 0 then [Out.chr c] else []))) ∧
    (∀ pc given : Nat,
      template_loop pc given 7 ('%' :: '2' :: '3' :: backquote :: 'z' :: ['!']) [] =
        .ok (txt (if (given >>> 23) % 2 = 0 then "z!" else "!"))) := by
  constructor
  · intro pc given frags c rest fuel out hd hwf
    have hstart : delimiterStart (backquote :: c :: rest) := delimiterStart_cons _ _ (by decide)
    obtain ⟨v, w, hvw⟩ := (decodeFrags_abort given frags 0 0).2 (fun f hf => (hwf f hf).1)
    have hstep : ∀ n, template_loop pc given (n + 1)
        ('%' :: (rangeText frags ++ backquote :: c :: rest)) out =
        template_loop pc given n rest (out ++ if v = 0 then [Out.chr c] else []) := by
      intro n
      rw [template_loop, if_pos rfl, directive_on_frags pc given frags _ hd hstart, hvw]
      simp only [delimiter_backquote]
    refine ⟨v, w, ?_, ?_, hstep fuel, ?_⟩
    · rw [decode_bitfield_on_ranges given frags _ (rangeText_ne_nil frags hd) hstart, hvw]
    · intro hw
      have h := decodeFrags_value given frags 0 0 (fun f hf => (hwf f hf).1) (by norm_num)
        (by omega)
      rw [hvw] at h
      simp only [Nat.zero_add, Except.ok.injEq, Prod.mk.injEq] at h
      exact h.1
    · intro hrest
      rw [hstep (fuel + 1), hrest, template_loop]
  · intro pc given
    have hm : fieldMask 0 = 1 := by decide
    simp [template_loop, directive, peek, isDigit, unicore64_decode_bitfield,
      decode_bitfield_loop, scanNumber, delimiter_directive, apostrophe, backquote, hm]
    have hmod : given >>> 23 % 2 % 18446744073709551616 = given >>> 23 % 2 := by omega
    rw [hmod]
    by_cases hbit : given >>> 23 % 2 = 0
    · simp only [hbit, if_true]
      rfl
    · simp only [hbit, if_false]
      rfl

/-- Witness for C9: on a word with bit 23 clear the template `%23`, backquote, `z`
renders `z`; on a word with bit 23 set, nothing. -/
theorem all_zeroes_conditional_witness :
    template_loop 0 0 3 ('%' :: '2' :: '3' :: backquote :: ['z']) [] = .ok [Out.chr 'z'] ∧
    template_loop 0 0x00800000 3 ('%' :: '2' :: '3' :: backquote :: ['z']) [] = .ok [] := by
  obtain ⟨v0, w0, _, hv0, _, ht0⟩ :=
    all_zeroes_conditional.1 0 0 [Frag.mk [2, 3] none] 'z' [] 1 [] (by decide) (by decide)
  obtain ⟨v1, w1, _, hv1, _, ht1⟩ :=
    all_zeroes_conditional.1 0 0x00800000 [Frag.mk [2, 3] none] 'z' [] 1 [] (by decide)
      (by decide)
  have e0 : v0 = 0 := (hv0 (by decide)).trans (by decide)
  have e1 : v1 = 1 := (hv1 (by decide)).trans (by decide)
  subst e0
  subst e1
  exact ⟨ht0 rfl, ht1 rfl⟩

theorem toInt32_small (v : Nat) (h : v < 2 ^ 31) : toInt32 v = (v : Int) := by
  have h1 : v % 2 ^ 32 = v := Nat.mod_eq_of_lt (by omega)
  unfold toInt32
  rw [h1, if_pos h]

theorem delimiter_question (given value width : Nat) (a rest : List Char)
    (hw : width ≤ 30) (hv : value < 2 ^ width) (ha : a.length = 2 ^ width) :
    ∃ x, delimiter_directive given value width ('?' :: (a ++ rest)) =
      .ok ([Out.chr (a.getD (2 ^ width - 1 - value) (Char.ofNat 0))], x :: rest) := by
  have hpow : 2 ^ width ≤ 2 ^ 30 := Nat.pow_le_pow_right (by norm_num) hw
  have hpos : 0 < 2 ^ width := Nat.two_pow_pos _
  have hti : toInt32 value = (value : Int) := toInt32_small value (by omega)
  have hk : ((2 ^ width : Nat) : Int) - toInt32 value = ((2 ^ width - 1 - value + 1 : Nat) : Int) := by
    rw [hti]
    omega
  have hchar : charAt ('?' :: (a ++ rest)) (((2 ^ width : Nat) : Int) - toInt32 value) =
      .ok (a.getD (2 ^ width - 1 - value) (Char.ofNat 0)) := by
    rw [hk]
    unfold charAt
    have hlen : 2 ^ width - 1 - value + 1 < ('?' :: (a ++ rest)).length := by
      simp only [List.length_cons, List.length_append, ha]
      omega
    have hidx : 2 ^ width - 1 - value < a.length := by omega
    rw [if_neg (by omega), Int.toNat_ofNat, if_pos hlen, List.getD_cons_succ,
      List.getD_append _ _ _ _ hidx]
  obtain ⟨init, x, hax⟩ : ∃ init x, a = init ++ [x] := by
    rcases List.eq_nil_or_concat a with h | ⟨init, x, h⟩
    · rw [h] at ha
      simp at ha
      omega
    · exact ⟨init, x, by rw [h, List.concat_eq_append]⟩
  have hinit : init.length + 1 = 2 ^ width := by
    rw [← ha, hax]
    simp
  have hdrop : ('?' :: (a ++ rest)).drop (2 ^ width) = x :: rest := by
    rw [← hinit, List.drop_succ_cons, hax, List.append_assoc, List.drop_left]
    rfl
  have hle : 2 ^ width ≤ ('?' :: (a ++ rest)).length := by
    simp only [List.length_cons, List.length_append, ha]
    omega
  refine ⟨x, ?_⟩
  have hq : peek ('?' :: (a ++ rest)) = '?' := rfl
  unfold delimiter_directive
  simp only [hq, hchar, if_pos hle, hdrop]
  simp [apostrophe, backquote]

/-- C10: a digit directive with delimiter `?` followed by an inline array `a` of
`2^width` characters (for a field of at most 30 bits, where `1 << width` is an `int`)
emits exactly the character `a[2^width - 1 - value]` and resumes after the whole
array; `cntl%23?zo` renders `cntlz` when bit 23 is set and `cntlo` when it is clear. -/
theorem select_from_array :
    (∀ (pc given : Nat) (frags : List Frag) (a rest : List Char) (fuel : Nat)
      (out : List Out), isDigit (peek (rangeText frags)) = true → (∀ f ∈ frags, f.wf) →
      rangeWidth frags ≤ 30 → a.length = 2 ^ rangeWidth frags →
      concatGroups given 0 frags < 2 ^ rangeWidth frags ∧
      template_loop pc given (fuel + 1) ('%' :: (rangeText frags ++ '?' :: (a ++ rest))) out =
        template_loop pc given fuel rest
          (out ++ [Out.chr (a.getD (2 ^ rangeWidth frags - 1 - concatGroups given 0 frags)
            (Char.ofNat 0))])) ∧
    (∀ pc given : Nat, template_loop pc given 11 "cntl%23?zo".toList [] =
      .ok (txt (if (given >>> 23) % 2 = 1 then "cntlz" else "cntlo"))) := by
  constructor
  · intro pc given frags a rest fuel out hd hwf hw ha
    have hb := concatGroups_bound given frags 0
    simp only [Nat.zero_add, Nat.pow_zero] at hb
    have hv : concatGroups given 0 frags < 2 ^ rangeWidth frags := by omega
    obtain ⟨x, hx⟩ := delimiter_question given _ _ a rest hw hv ha
    refine ⟨hv, ?_⟩
    rw [template_loop, if_pos rfl,
      directive_on_ranges pc given frags _ hd hwf (delimiterStart_cons _ _ (by decide))
        (by omega), hx]
  · intro pc given
    have ht : "cntl%23?zo".toList = ['c', 'n', 't', 'l', '%', '2', '3', '?', 'z', 'o'] := by
      decide
    have hm : fieldMask 0 = 1 := by decide
    rw [ht]
    rcases Nat.mod_two_eq_zero_or_one (given >>> 23) with hbit | hbit
    · simp [template_loop, directive, peek, isDigit, unicore64_decode_bitfield,
        decode_bitfield_loop, scanNumber, delimiter_directive, apostrophe, backquote, hm, charAt,
        hbit, toInt32]
      rfl
    · simp [template_loop, directive, peek, isDigit, unicore64_decode_bitfield,
        decode_bitfield_loop, scanNumber, delimiter_directive, apostrophe, backquote, hm, charAt,
        hbit, toInt32]
      rfl

/-- Witness for C10: the directive `%23?zo` of the `cntl` templates on a word with
bit 23 set selects `z`. -/
theorem select_from_array_witness :
    template_loop 0 0x18800000 3 "%23?zo".toList [] = .ok [Out.chr 'z'] :=
  ((select_from_array.1 0 0x18800000 [Frag.mk [2, 3] none] ['z', 'o'] [] 2 [] (by decide)
    (by decide) (by decide) (by decide)).2).trans (by decide)

/-! ## Output without line breaks -/

theorem hexDigit_clean : ∀ d < 16, cleanChar (hexDigit d) = true := by decide

theorem natDigits_clean (b : Nat) (hb : 0 < b) (hb16 : b ≤ 16) :
    ∀ (fuel n : Nat), ∀ c ∈ natDigits b fuel n, cleanChar c = true := by
  intro fuel
  induction fuel with
  | zero => intro n c hc; simp [natDigits] at hc
  | succ k ih =>
    intro n c hc
    unfold natDigits at hc
    by_cases hlt : n < b
    · rw [if_pos hlt] at hc
      rw [List.mem_singleton] at hc
      subst hc
      exact hexDigit_clean n (by omega)
    · rw [if_neg hlt, List.mem_append, List.mem_singleton] at hc
      rcases hc with hc | hc
      · exact ih _ c hc
      · subst hc
        exact hexDigit_clean _ (Nat.lt_of_lt_of_le (Nat.mod_lt n hb) hb16)

theorem fmt_x_clean (n : Nat) : ∀ c ∈ fmt_x n, cleanChar c = true :=
  natDigits_clean 16 (by norm_num) (by norm_num) 16 n

theorem fmt_d_clean (x : Int) : ∀ c ∈ fmt_d x, cleanChar c = true := by
  intro c hc
  unfold fmt_d at hc
  split at hc
  · rcases List.mem_cons.mp hc with h | h
    · subst h; decide
    · exact natDigits_clean 10 (by norm_num) (by norm_num) 20 _ c h
  · exact natDigits_clean 10 (by norm_num) (by norm_num) 20 _ c hc

theorem pad0_clean (w : Nat) (s : List Char) (h : ∀ c ∈ s, cleanChar c = true) :
    ∀ c ∈ pad0 w s, cleanChar c = true := by
  intro c hc
  unfold pad0 at hc
  rcases List.mem_append.mp hc with h1 | h1
  · rw [(List.mem_replicate.mp h1).2]; decide
  · exact h c h1

theorem clean_nil : Clean [] := by
  intro c hc; simp at hc

theorem clean_append {a b : List Out} (ha : Clean a) (hb : Clean b) : Clean (a ++ b) := by
  intro c hc
  rcases List.mem_append.mp hc with h | h
  · exact ha c h
  · exact hb c h

theorem clean_chars (l : List Char) (h : ∀ c ∈ l, cleanChar c = true) : Clean (chars l) := by
  intro c hc
  unfold chars at hc
  obtain ⟨x, hx, hxc⟩ := List.mem_map.mp hc
  cases hxc
  exact h c hx

theorem clean_txt (s : String) (h : s.toList.all cleanChar = true) : Clean (txt s) :=
  clean_chars s.toList (fun c hc => List.all_eq_true.mp h c hc)

theorem clean_addr (a : Nat) : Clean [Out.addr a] := by
  intro c hc; simp at hc

theorem clean_chr (c : Char) (h : cleanChar c = true) : Clean [Out.chr c] := by
  intro x hx
  simp at hx
  subst hx
  exact h

theorem good_ok (o : List Out) (h : Clean o) : Good (.ok o) := ⟨o, rfl, h⟩

theorem good_seq {a b : Except Fault (List Out)} (ha : Good a) (hb : Good b) :
    Good (seq a b) := by
  obtain ⟨x, rfl, hx⟩ := ha
  obtain ⟨y, rfl, hy⟩ := hb
  exact ⟨x ++ y, rfl, clean_append hx hy⟩

theorem good_ite {p : Prop} [Decidable p] {a b : Except Fault (List Out)} (ha : Good a)
    (hb : Good b) : Good (if p then a else b) := by
  split
  · exact ha
  · exact hb

theorem good_say (s : String) (h : s.toList.all cleanChar = true) : Good (say s) :=
  good_ok _ (clean_txt s h)

theorem good_say_ite {p : Prop} [Decidable p] (s t : String)
    (hs : s.toList.all cleanChar = true) (ht : t.toList.all cleanChar = true) :
    Good (say (if p then s else t)) := by
  split
  · exact good_say s hs
  · exact good_say t ht

theorem good_sayInt (x : Int) : Good (sayInt x) := good_ok _ (clean_chars _ (fmt_d_clean x))

theorem good_sayAddr (a : Nat) : Good (sayAddr a) := good_ok _ (clean_addr a)

theorem good_nil : Good (.ok []) := good_ok _ clean_nil

theorem good_hex (n : Nat) : Good (.ok (chars (fmt_x n))) := good_ok _ (clean_chars _ (fmt_x_clean n))

theorem good_lookup (tbl : List String) (i : Nat)
    (hc : tbl.all (fun s => s.toList.all cleanChar) = true) (hi : i < tbl.length) :
    Good (lookup tbl i) := by
  unfold lookup
  rw [List.getElem?_eq_getElem hi]
  exact good_ok _ (clean_txt _ (List.all_eq_true.mp hc _ (List.getElem_mem hi)))

theorem land_lt (x m n : Nat) (h : m < n) : x &&& m < n :=
  Nat.lt_of_le_of_lt Nat.and_le_right h

theorem land_shift_lt (x m s n : Nat) (h : m >>> s < n) : (x &&& m) >>> s < n := by
  rw [Nat.shiftRight_eq_div_pow] at h ⊢
  exact Nat.lt_of_le_of_lt (Nat.div_le_div_right Nat.and_le_right) h

theorem good_decode_shift (given : Nat) (print_shift : Bool) :
    Good (unicore64_decode_shift given print_shift) := by
  unfold unicore64_decode_shift
  dsimp only
  repeat' (first
    | apply good_ite
    | apply good_seq
    | exact good_nil
    | exact good_sayInt _
    | exact good_say _ (by decide)
    | exact good_lookup _ _ (by decide) (land_lt _ _ _ (by decide))
    | exact good_lookup _ _ (by decide) (land_shift_lt _ _ _ _ (by decide)))

theorem good_address (pc given : Nat) : Good (print_unicore64_address pc given) := by
  unfold print_unicore64_address
  dsimp only
  repeat' (first
    | apply good_ite
    | apply good_seq
    | exact good_nil
    | exact good_sayInt _
    | exact good_sayAddr _
    | exact good_say _ (by decide)
    | exact good_lookup _ _ (by decide) (land_lt _ _ _ (by decide))
    | exact good_lookup _ _ (by decide) (land_shift_lt _ _ _ _ (by decide)))

theorem good_directive_s (pc given : Nat) : Good (directive_s pc given) := by
  unfold directive_s signText
  dsimp only
  repeat' (first
    | apply good_ite
    | apply good_seq
    | exact good_nil
    | exact good_sayInt _
    | exact good_sayAddr _
    | exact good_say _ (by decide)
    | exact good_say_ite _ _ (by decide) (by decide)
    | exact good_lookup _ _ (by decide) (land_lt _ _ _ (by decide)))

theorem good_directive_C (pc given : Nat) : Good (directive_C pc given) := by
  unfold directive_C sayBranch24
  repeat' (first
    | apply good_ite
    | apply good_seq
    | exact good_nil
    | exact good_sayAddr _
    | exact good_say _ (by decide)
    | exact good_lookup _ _ (by decide) (land_lt _ _ _ (by decide))
    | exact good_lookup _ _ (by decide) (land_shift_lt _ _ _ _ (by decide)))

theorem good_directive_M_loop (list base : Nat) : ∀ (n reg : Nat) (started : Bool),
    base + reg + n ≤ 32 → Good (directive_M_loop list base n reg started) := by
  intro n
  induction n with
  | zero => intro reg started _; exact good_nil
  | succ k ih =>
    intro reg started h
    unfold directive_M_loop
    apply good_ite
    · apply good_seq
      · apply good_ite
        · exact good_say _ (by decide)
        · exact good_nil
      · apply good_seq
        · exact good_lookup _ _ (by decide)
            (by have : unicore64_Fregister.length = 32 := by decide
                omega)
        · exact ih (reg + 1) true (by omega)
    · exact ih (reg + 1) started (by omega)

theorem good_directive_M (given : Nat) : Good (directive_M given) := by
  unfold directive_M
  dsimp only
  apply good_seq (good_say _ (by decide))
  apply good_seq _ (good_say _ (by decide))
  apply good_directive_M_loop
  split_ifs <;> omega

theorem good_directive_o (given : Nat) : Good (directive_o given) := by
  unfold directive_o
  dsimp only
  repeat' (first
    | apply good_ite
    | apply good_seq
    | exact good_sayInt _
    | exact good_hex _
    | exact good_say _ (by decide)
    | exact good_lookup _ _ (by decide) (land_lt _ _ _ (by decide))
    | exact good_lookup _ _ (by decide) (land_shift_lt _ _ _ _ (by decide)))

theorem good_directive_A (given : Nat) : Good (directive_A given) := by
  unfold directive_A
  dsimp only
  repeat' (first
    | apply good_ite
    | apply good_seq
    | exact good_nil
    | exact good_sayInt _
    | exact good_say _ (by decide)
    | exact good_say_ite _ _ (by decide) (by decide)
    | exact good_lookup _ _ (by decide) (land_lt _ _ _ (by decide)))

theorem good_directive_h (given : Nat) : Good (directive_h given) := by
  unfold directive_h
  dsimp only
  repeat' (first
    | apply good_ite
    | exact good_nil
    | exact good_say _ (by decide))

theorem good_directive_U (given : Nat) : Good (directive_U given) := by
  unfold directive_U
  dsimp only
  repeat' (first
    | apply good_ite
    | apply good_seq
    | exact good_sayInt _
    | exact good_say _ (by decide))

theorem good_letter_directive (pc given : Nat) (ch : Char) (h : ch ∈ knownLetters) :
    Good (letter_directive pc given ch) := by
  simp only [knownLetters, List.mem_cons, List.mem_singleton, List.not_mem_nil, or_false] at h
  rcases h with h | h | h | h | h | h | h | h | h | h | h | h | h | h | h | h | h | h | h | h | h <;>
    subst h <;> simp only [letter_directive, Char.reduceEq, if_true, if_false, reduceIte] <;>
    repeat' (first
      | exact good_say _ (by decide)
      | exact good_address _ _
      | exact good_directive_s _ _
      | exact good_sayAddr _
      | exact good_directive_C _ _
      | exact good_decode_shift _ _
      | exact good_directive_M _
      | exact good_directive_o _
      | exact good_directive_A _
      | exact good_directive_h _
      | exact good_directive_U _
      | exact good_nil
      | exact good_sayInt _
      | exact good_hex _
      | apply good_seq
      | apply good_ite)

/-! ## The bitfield decoder is uniform in the instruction word -/

theorem value_step_lt (insn start bits w v : Nat) (hv : v < 2 ^ w) (hw : w + (bits + 1) ≤ 64) :
    v ||| ((((insn >>> start) &&& fieldMask bits) <<< w) % 2 ^ 64) < 2 ^ (w + (bits + 1)) := by
  have hmask : fieldMask bits = 2 ^ (bits + 1) - 1 := fieldMask_eq bits (by omega)
  have hg : (insn >>> start) &&& fieldMask bits < 2 ^ (bits + 1) := by
    rw [hmask, Nat.and_pow_two_sub_one_eq_mod]
    exact Nat.mod_lt _ (Nat.two_pow_pos _)
  have hsh : ((insn >>> start) &&& fieldMask bits) <<< w < 2 ^ (w + (bits + 1)) := by
    rw [Nat.shiftLeft_eq, Nat.pow_add, Nat.mul_comm (2 ^ w)]
    exact (Nat.mul_lt_mul_right (Nat.two_pow_pos w)).mpr hg
  have hv2 : v < 2 ^ (w + (bits + 1)) :=
    Nat.lt_of_lt_of_le hv (Nat.pow_le_pow_right (by norm_num) (by omega))
  exact Nat.or_lt_two_pow hv2 (Nat.lt_of_le_of_lt (Nat.mod_le _ _) hsh)

theorem decode_bitfield_uniform : ∀ (fuel : Nat) (ptr : List Char) (v0 w v1 w1 : Nat)
    (c1 : List Char), decode_bitfield_loop fuel ptr 0 v0 w = .ok (v1, w1, c1) →
    w ≤ w1 ∧ (w1 ≤ 64 → ∀ insn v, v < 2 ^ w →
      ∃ v2, decode_bitfield_loop fuel ptr insn v w = .ok (v2, w1, c1) ∧ v2 < 2 ^ w1) := by
  intro fuel
  induction fuel with
  | zero => intro ptr v0 w v1 w1 c1 h; simp [decode_bitfield_loop] at h
  | succ k ih =>
    intro ptr v0 w v1 w1 c1 h
    have step : ∀ insn v, decode_bitfield_loop (k + 1) ptr insn v w =
        if (if peek (scanNumber 0 ptr).2 = '-' then scanNumber 0 (scanNumber 0 ptr).2.tail
            else ((scanNumber 0 ptr).1, (scanNumber 0 ptr).2)).1 < (scanNumber 0 ptr).1
        then .error .abort
        else if peek (if peek (scanNumber 0 ptr).2 = '-' then
              scanNumber 0 (scanNumber 0 ptr).2.tail
            else ((scanNumber 0 ptr).1, (scanNumber 0 ptr).2)).2 = ',' then
          decode_bitfield_loop k
            (if peek (scanNumber 0 ptr).2 = '-' then scanNumber 0 (scanNumber 0 ptr).2.tail
             else ((scanNumber 0 ptr).1, (scanNumber 0 ptr).2)).2.tail insn
            (v ||| ((((insn >>> (scanNumber 0 ptr).1) &&& fieldMask
              ((if peek (scanNumber 0 ptr).2 = '-' then scanNumber 0 (scanNumber 0 ptr).2.tail
                else ((scanNumber 0 ptr).1, (scanNumber 0 ptr).2)).1 - (scanNumber 0 ptr).1)) <<< w)
              % 2 ^ 64))
            (w + ((if peek (scanNumber 0 ptr).2 = '-' then scanNumber 0 (scanNumber 0 ptr).2.tail
                else ((scanNumber 0 ptr).1, (scanNumber 0 ptr).2)).1 - (scanNumber 0 ptr).1 + 1))
        else
          .ok (v ||| ((((insn >>> (scanNumber 0 ptr).1) &&& fieldMask
              ((if peek (scanNumber 0 ptr).2 = '-' then scanNumber 0 (scanNumber 0 ptr).2.tail
                else ((scanNumber 0 ptr).1, (scanNumber 0 ptr).2)).1 - (scanNumber 0 ptr).1)) <<< w)
              % 2 ^ 64),
            w + ((if peek (scanNumber 0 ptr).2 = '-' then scanNumber 0 (scanNumber 0 ptr).2.tail
                else ((scanNumber 0 ptr).1, (scanNumber 0 ptr).2)).1 - (scanNumber 0 ptr).1 + 1),
            (if peek (scanNumber 0 ptr).2 = '-' then scanNumber 0 (scanNumber 0 ptr).2.tail
             else ((scanNumber 0 ptr).1, (scanNumber 0 ptr).2)).2) := fun _ _ => rfl
    rw [step] at h
    generalize (scanNumber 0 ptr).1 = s at h step
    generalize (if peek (scanNumber 0 ptr).2 = '-' then scanNumber 0 (scanNumber 0 ptr).2.tail
             else (s, (scanNumber 0 ptr).2)) = e at h step
    by_cases hbad : e.1 < s
    · rw [if_pos hbad] at h
      exact Except.noConfusion h
    · rw [if_neg hbad] at h
      by_cases hcomma : peek e.2 = ','
      · rw [if_pos hcomma] at h
        obtain ⟨hle, hrec⟩ := ih _ _ _ _ _ _ h
        refine ⟨by omega, fun h64 insn v hv => ?_⟩
        rw [step, if_neg hbad, if_pos hcomma]
        exact hrec h64 insn _ (value_step_lt insn s (e.1 - s) w v hv (by omega))
      · rw [if_neg hcomma] at h
        simp only [Except.ok.injEq, Prod.mk.injEq] at h
        obtain ⟨_, hw, hc⟩ := h
        refine ⟨by omega, fun h64 insn v hv => ?_⟩
        rw [step, if_neg hbad, if_neg hcomma, ← hw, ← hc]
        exact ⟨_, rfl, value_step_lt insn s (e.1 - s) w v hv (by omega)⟩

/-! ## Soundness of the static template check -/

theorem stay_good (c : List Char) (r : Except Fault (List Out)) (h : Good r) :
    ∃ o, (match r with
      | .error e => (Except.error e : Except Fault (List Out × List Char))
      | .ok o => .ok (o, c)) = .ok (o, c) ∧ Clean o := by
  obtain ⟨o, rfl, ho⟩ := h
  exact ⟨o, rfl, ho⟩

theorem stay_lookup (tbl : List String) (hc : tbl.all (fun s => s.toList.all cleanChar) = true)
    (value width : Nat) (c c1 : List Char) (hv : value < 2 ^ width)
    (h : (if 2 ^ width ≤ tbl.length then some c else none) = some c1) :
    ∃ o, (match lookup tbl value with
      | .error e => (Except.error e : Except Fault (List Out × List Char))
      | .ok o => .ok (o, c)) = .ok (o, c1) ∧ Clean o := by
  by_cases hle : 2 ^ width ≤ tbl.length
  · rw [if_pos hle] at h
    cases h
    exact stay_good c _ (good_lookup tbl value hc (by omega))
  · rw [if_neg hle] at h
    cases h

theorem charAt_mem (c : List Char) (k : Nat) (hk : k < c.length) :
    ∃ x, charAt c (k : Int) = .ok x ∧ x ∈ c := by
  unfold charAt
  rw [if_neg (by omega), Int.toNat_ofNat, if_pos hk]
  refine ⟨_, rfl, ?_⟩
  rw [List.getD_eq_getElem _ _ hk]
  exact List.getElem_mem hk

theorem delimiter_sound (given value width : Nat) (c c1 : List Char) (hv : value < 2 ^ width)
    (h : checkDelimiter width c = some c1) :
    ∃ o, delimiter_directive given value width c = .ok (o, c1) ∧ Clean o := by
  unfold checkDelimiter at h
  dsimp only at h
  unfold delimiter_directive
  dsimp only
  by_cases h1 : peek c = 'r'
  · rw [if_pos h1] at h ⊢
    exact stay_lookup _ (by decide) value width c c1 hv h
  rw [if_neg h1] at h ⊢
  by_cases h2 : peek c = 'f'
  · rw [if_pos h2] at h ⊢
    exact stay_lookup _ (by decide) value width c c1 hv h
  rw [if_neg h2] at h ⊢
  by_cases h3 : peek c = 'S'
  · rw [if_pos h3] at h ⊢
    exact stay_lookup _ (by decide) value width c c1 hv h
  rw [if_neg h3] at h ⊢
  by_cases h4 : peek c = 'F'
  · rw [if_pos h4] at h ⊢
    exact stay_lookup _ (by decide) value width c c1 hv h
  rw [if_neg h4] at h ⊢
  by_cases h5 : peek c = 'n'
  · rw [if_pos h5] at h ⊢
    exact stay_lookup _ (by decide) value width c c1 hv h
  rw [if_neg h5] at h ⊢
  by_cases h6 : peek c = 'c'
  · rw [if_pos h6] at h ⊢
    exact stay_lookup _ (by decide) value width c c1 hv h
  rw [if_neg h6] at h ⊢
  by_cases h7 : peek c = 'p'
  · rw [if_pos h7] at h ⊢
    exact stay_lookup _ (by decide) value width c c1 hv h
  rw [if_neg h7] at h ⊢
  by_cases h8 : peek c = 'd'
  · rw [if_pos (Or.inl h8)] at h
    rw [if_pos h8]
    cases h
    exact stay_good c _ (good_sayInt _)
  rw [if_neg h8]
  by_cases h9 : peek c = 'b'
  · rw [if_pos (Or.inr (Or.inl h9))] at h
    rw [if_pos h9]
    cases h
    exact stay_good c _ (good_sayInt _)
  rw [if_neg h9]
  by_cases h10 : peek c = 'W'
  · rw [if_pos (Or.inr (Or.inr (Or.inl h10)))] at h
    rw [if_pos h10]
    cases h
    exact stay_good c _ (good_sayInt _)
  rw [if_neg h10]
  by_cases h11 : peek c = 'x'
  · rw [if_pos (Or.inr (Or.inr (Or.inr (Or.inl h11))))] at h
    rw [if_pos h11]
    cases h
    apply stay_good
    apply good_seq (good_say _ (by decide))
    apply good_seq (good_ok _ (clean_chars _ (pad0_clean _ _ (fmt_x_clean _))))
    exact good_ite (good_say _ (by decide)) (good_ite (good_say _ (by decide)) good_nil)
  rw [if_neg h11]
  by_cases h12 : peek c = 'X'
  · rw [if_pos (Or.inr (Or.inr (Or.inr (Or.inr h12))))] at h
    rw [if_pos h12]
    cases h
    exact stay_good c _ (good_hex _)
  rw [if_neg h12]
  rw [if_neg (by simp [h8, h9, h10, h11, h12])] at h
  by_cases h13 : peek c = backquote
  · rw [if_pos (Or.inl h13)] at h
    rw [if_pos h13]
    by_cases hc : width < 64 ∧ c.tail ≠ [] ∧ cleanChar (peek c.tail) = true
    · rw [if_pos hc] at h
      cases h
      refine ⟨_, rfl, ?_⟩
      split
      · exact clean_chr _ hc.2.2
      · exact clean_nil
    · rw [if_neg hc] at h
      cases h
  rw [if_neg h13]
  by_cases h14 : peek c = apostrophe
  · rw [if_pos (Or.inr h14)] at h
    rw [if_pos h14]
    by_cases hc : width < 64 ∧ c.tail ≠ [] ∧ cleanChar (peek c.tail) = true
    · rw [if_pos hc] at h
      cases h
      refine ⟨_, rfl, ?_⟩
      split
      · exact clean_chr _ hc.2.2
      · exact clean_nil
    · rw [if_neg hc] at h
      cases h
  rw [if_neg h14]
  rw [if_neg (by simp [h13, h14])] at h
  by_cases h15 : peek c = '?'
  · rw [if_pos h15] at h ⊢
    by_cases hc : width ≤ 30 ∧ 2 ^ width < c.length ∧ c.all cleanChar = true
    · rw [if_pos hc] at h
      cases h
      obtain ⟨hw, hlen, hall⟩ := hc
      have hpow : 2 ^ width ≤ 2 ^ 30 := Nat.pow_le_pow_right (by norm_num) hw
      have hti : toInt32 value = (value : Int) := toInt32_small value (by omega)
      have hk : ((2 ^ width : Nat) : Int) - toInt32 value = ((2 ^ width - value : Nat) : Int) := by
        rw [hti]
        omega
      obtain ⟨x, hx, hmem⟩ := charAt_mem c (2 ^ width - value) (by omega)
      rw [hk, hx]
      dsimp only
      rw [if_pos (Nat.le_of_lt hlen)]
      exact ⟨_, rfl, clean_chr _ (List.all_eq_true.mp hall x hmem)⟩
    · rw [if_neg hc] at h
      cases h
  · rw [if_neg h15] at h
    cases h

theorem directive_sound (pc given : Nat) (c c1 : List Char) (h : checkDirective c = some c1) :
    ∃ o, directive pc given c = .ok (o, c1) ∧ Clean o := by
  unfold checkDirective at h
  unfold directive
  by_cases hd : isDigit (peek c) = true
  · rw [if_pos hd] at h ⊢
    unfold unicore64_decode_bitfield at h ⊢
    cases h0 : decode_bitfield_loop (c.length + 1) c 0 0 0 with
    | error e => rw [h0] at h; cases h
    | ok p =>
      obtain ⟨v0, w, c2⟩ := p
      rw [h0] at h
      dsimp only at h
      by_cases hw : w ≤ 64
      · rw [if_pos hw] at h
        obtain ⟨v2, hv2, hlt⟩ := (decode_bitfield_uniform _ _ _ _ _ _ _ h0).2 hw given 0
          (by norm_num)
        rw [hv2]
        exact delimiter_sound given v2 w c2 c1 hlt h
      · rw [if_neg hw] at h
        cases h
  · rw [if_neg hd] at h ⊢
    by_cases hk : peek c ∈ knownLetters
    · rw [if_pos hk] at h
      cases h
      obtain ⟨o, ho, hclean⟩ := good_letter_directive pc given (peek c) hk
      rw [ho]
      exact ⟨o, rfl, hclean⟩
    · rw [if_neg hk] at h
      cases h

theorem template_sound : ∀ (fuel : Nat) (c : List Char), checkTemplate fuel c = true →
    ∀ (pc given : Nat) (out : List Out),
      ∃ o, template_loop pc given fuel c out = .ok (out ++ o) ∧ Clean o := by
  intro fuel
  induction fuel with
  | zero => intro c h; simp [checkTemplate] at h
  | succ k ih =>
    intro c h pc given out
    cases c with
    | nil => exact ⟨[], by simp [template_loop], clean_nil⟩
    | cons ch cs =>
      unfold checkTemplate at h
      unfold template_loop
      by_cases hp : ch = '%'
      · rw [if_pos hp] at h ⊢
        cases hcd : checkDirective cs with
        | none => rw [hcd] at h; cases h
        | some c1 =>
          rw [hcd] at h
          obtain ⟨o, ho, hclean⟩ := directive_sound pc given cs c1 hcd
          rw [ho]
          cases c1 with
          | nil => cases h
          | cons x c2 =>
            dsimp only at h ⊢
            obtain ⟨o2, ho2, hclean2⟩ := ih c2 h pc given (out ++ o)
            exact ⟨o ++ o2, by rw [ho2, List.append_assoc], clean_append hclean hclean2⟩
      · rw [if_neg hp] at h ⊢
        rw [Bool.and_eq_true] at h
        obtain ⟨o2, ho2, hclean2⟩ := ih cs h.2 pc given (out ++ [Out.chr ch])
        exact ⟨Out.chr ch :: o2, by rw [ho2, List.append_assoc]; rfl,
          clean_append (clean_chr ch h.1) hclean2⟩

theorem opcodes_checked : checkTable unicore64_opcodes = true := by decide

theorem word_lead_clean (given : Nat) : Clean (word_lead given) := by
  unfold word_lead
  exact clean_append (clean_append (clean_txt _ (by decide))
    (clean_chars _ (pad0_clean _ _ (fmt_x_clean _)))) (clean_txt _ (by decide))

theorem print_template_sound (pc given : Nat) (insn : opcode32) (a : String)
    (hmem : insn ∈ unicore64_opcodes) (ha : insn.assembler = some a) :
    ∃ o, print_template pc given a = .ok (word_lead given ++ o) ∧ Clean o := by
  have h := List.all_eq_true.mp opcodes_checked insn hmem
  rw [ha] at h
  exact template_sound _ _ h pc given (word_lead given)

/-! ## Branch targets -/

theorem xor_two_pow_of_lt (y n : Nat) (h : y < 2 ^ n) : y ^^^ 2 ^ n = y + 2 ^ n := by
  have hor : y ^^^ 2 ^ n = 2 ^ n * 1 ||| y := by
    apply Nat.eq_of_testBit_eq
    intro i
    rw [Nat.testBit_xor, Nat.testBit_or, Nat.mul_one, Nat.testBit_two_pow]
    by_cases hi : n = i
    · subst hi
      simp [Nat.testBit_lt_two_pow h]
    · simp [hi]
  rw [hor, ← Nat.mul_add_lt_is_or h]
  omega

theorem xor_two_pow_of_ge (x n : Nat) (h1 : 2 ^ n ≤ x) (h2 : x < 2 ^ (n + 1)) :
    x ^^^ 2 ^ n = x - 2 ^ n := by
  have hy : x - 2 ^ n < 2 ^ n := by
    rw [Nat.pow_succ] at h2
    omega
  have h := xor_two_pow_of_lt (x - 2 ^ n) n hy
  have hx : x - 2 ^ n + 2 ^ n = x := by omega
  rw [hx] at h
  have e : x ^^^ 2 ^ n = ((x - 2 ^ n) ^^^ 2 ^ n) ^^^ 2 ^ n := by rw [h]
  rw [e, Nat.xor_assoc, Nat.xor_self, Nat.xor_zero]

theorem xor_sub_signExtend (n x : Nat) (hn : 0 < n) (hx : x < 2 ^ n) :
    ((x ^^^ 2 ^ (n - 1) : Nat) : Int) - 2 ^ (n - 1) = signExtend n x := by
  obtain ⟨m, rfl⟩ : ∃ m, n = m + 1 := ⟨n - 1, by omega⟩
  simp only [Nat.add_sub_cancel]
  unfold signExtend
  simp only [Nat.add_sub_cancel]
  have hp : (2 : Int) ^ (m + 1) = 2 * 2 ^ m := by rw [pow_succ]; ring
  have hpn : 2 ^ (m + 1) = 2 * 2 ^ m := by rw [Nat.pow_succ]; ring
  by_cases hlt : x < 2 ^ m
  · rw [if_pos hlt, xor_two_pow_of_lt x m hlt]
    push_cast
    ring
  · rw [if_neg hlt, xor_two_pow_of_ge x m (by omega) hx, hp]
    have hle : 2 ^ m ≤ x := by omega
    rw [Int.ofNat_sub hle]
    push_cast
    ring

theorem signedField_24 (given : Nat) :
    signedField given 0xffffff 0x800000 = signExtend 24 (given % 2 ^ 24) := by
  have hm : given &&& 0xffffff = given % 2 ^ 24 := by
    have h := Nat.and_pow_two_sub_one_eq_mod given 24
    norm_num at h ⊢
    exact h
  have h := xor_sub_signExtend 24 (given % 2 ^ 24) (by norm_num) (Nat.mod_lt _ (by norm_num))
  unfold signedField
  rw [hm]
  norm_num at h ⊢
  exact h

theorem signedField_16 (given : Nat) :
    signedField given 0xffff 0x8000 = signExtend 16 (given % 2 ^ 16) := by
  have hm : given &&& 0xffff = given % 2 ^ 16 := by
    have h := Nat.and_pow_two_sub_one_eq_mod given 16
    norm_num at h ⊢
    exact h
  have h := xor_sub_signExtend 16 (given % 2 ^ 16) (by norm_num) (Nat.mod_lt _ (by norm_num))
  unfold signedField
  rw [hm]
  norm_num at h ⊢
  exact h

theorem branchTarget_eq (d : Int) (pc : Nat) : branchTarget d pc = addrPlus pc (4 * d) := by
  unfold branchTarget addrPlus toU64
  norm_num
  omega

theorem letter_i (pc given : Nat) :
    letter_directive pc given 'i' =
      .ok [Out.addr (addrPlus pc (4 * signExtend 24 (given % 2 ^ 24)))] := by
  simp only [letter_directive, Char.reduceEq, if_true, if_false, reduceIte, sayBranch24, sayAddr,
    signedField_24, branchTarget_eq]

theorem letter_I (pc given : Nat) :
    letter_directive pc given 'I' =
      .ok [Out.addr (addrPlus pc (4 * signExtend 16 (given % 2 ^ 16)))] := by
  simp only [letter_directive, Char.reduceEq, if_true, if_false, reduceIte, sayAddr,
    signedField_16, branchTarget_eq]

/-! ## Claims about the branch directives -/

/-- C11: for every word and program counter the `%i` directive passes `pc + 4 * s24`
and the `%I` directive `pc + 4 * s16` to the address callback, modulo `2^64`, where
`s24`, `s16` are the sign extensions of the low 24 and 16 bits; the source's
`(x ^ 2^(n-1)) - 2^(n-1)` is that sign extension; a 24-bit field `0xFFFFFF` gives
`pc - 4`. -/
theorem branch_targets :
    (∀ pc given : Nat, letter_directive pc given 'i' =
      .ok [Out.addr (addrPlus pc (4 * signExtend 24 (given % 2 ^ 24)))]) ∧
    (∀ pc given : Nat, letter_directive pc given 'I' =
      .ok [Out.addr (addrPlus pc (4 * signExtend 16 (given % 2 ^ 16)))]) ∧
    (∀ n x : Nat, 0 < n → x < 2 ^ n →
      ((x ^^^ 2 ^ (n - 1) : Nat) : Int) - 2 ^ (n - 1) = signExtend n x ∧
      signExtend n x = if x < 2 ^ (n - 1) then (x : Int) else (x : Int) - 2 ^ n) ∧
    (∀ pc given : Nat, pc < 2 ^ 64 → given % 2 ^ 24 = 0xFFFFFF →
      letter_directive pc given 'i' = .ok [Out.addr ((pc + 2 ^ 64 - 4) % 2 ^ 64)]) := by
  refine ⟨letter_i, letter_I, fun n x hn hx => ⟨xor_sub_signExtend n x hn hx, rfl⟩, ?_⟩
  intro pc given hpc hf
  rw [letter_i, hf]
  have hs : signExtend 24 0xFFFFFF = -1 := by norm_num [signExtend]
  rw [hs]
  have ha : addrPlus pc (4 * -1) = (pc + 2 ^ 64 - 4) % 2 ^ 64 := by
    unfold addrPlus
    omega
  rw [ha]

/-- Witness for C11: the instruction `call` with displacement field `0xFFFFFF` at
`pc = 0x1000` targets `0xffc`. -/
theorem branch_targets_witness :
    letter_directive 0x1000 0xbeffffff 'i' = .ok [Out.addr 0xffc] ∧
    print_insn_uc64_interal 0x1000 0xbeffffff =
      .ok (txt "[beffffff]   call\t" ++ [Out.addr 0xffc]) :=
  ⟨(branch_targets.2.2.2 0x1000 0xbeffffff (by norm_num) (by norm_num)).trans (by norm_num),
    by decide⟩

theorem and_two_pow_eq (x n : Nat) :
    x &&& 2 ^ n = if x / 2 ^ n % 2 = 1 then 2 ^ n else 0 := by
  apply Nat.eq_of_testBit_eq
  intro i
  rw [Nat.testBit_and, Nat.testBit_two_pow]
  by_cases hb : x / 2 ^ n % 2 = 1
  · rw [if_pos hb, Nat.testBit_two_pow]
    by_cases hi : n = i
    · subst hi
      simp [Nat.testBit_to_div_mod, hb]
    · simp [hi]
  · rw [if_neg hb, Nat.zero_testBit]
    by_cases hi : n = i
    · subst hi
      simp [Nat.testBit_to_div_mod, hb]
    · simp [hi]

/-- C12: for every word and program counter the address the `%B` directive passes to
the address callback is the address the `%i` directive computes (`pc + 4 *` the
sign-extended low 24 bits, modulo `2^64`) when bit 24 of the word is clear, and that
address plus 2 when bit 24 is set. -/
theorem blx_target (pc given : Nat) :
    letter_directive pc given 'i' =
      .ok [Out.addr (addrPlus pc (4 * signExtend 24 (given % 2 ^ 24)))] ∧
    letter_directive pc given 'B' =
      .ok [Out.addr (if given / 2 ^ 24 % 2 = 0 then
          addrPlus pc (4 * signExtend 24 (given % 2 ^ 24))
        else (addrPlus pc (4 * signExtend 24 (given % 2 ^ 24)) + 2) % 2 ^ 64)] := by
  refine ⟨letter_i pc given, ?_⟩
  have hm : given &&& 0xffffff = given % 2 ^ 24 := by
    have h := Nat.and_pow_two_sub_one_eq_mod given 24
    norm_num at h ⊢
    exact h
  have h23 := and_two_pow_eq given 23
  have h24 := and_two_pow_eq given 24
  have hu : toU64 (-1 - 0x00ffffff) = 2 ^ 64 - 2 ^ 24 := by
    unfold toU64
    norm_num
    rfl
  simp only [letter_directive, Char.reduceEq, if_true, if_false, reduceIte, sayAddr,
    directive_B_address, hu, hm]
  norm_num at h23 h24 ⊢
  rw [h23, h24]
  unfold addrPlus signExtend
  rw [Nat.shiftLeft_eq]
  norm_num
  split_ifs <;> omega

/-! ## Every word is printed -/

theorem print_insn_sound (pc given : Nat) :
    ∃ o, print_insn_uc64_interal pc given = .ok (word_lead given ++ o) ∧ Clean o := by
  obtain ⟨i, insn, a, _, hi, ha, hm, hfirst⟩ := exists_first_match given
  rw [(print_insn_of_first pc given i insn a hi ha hm hfirst).2]
  exact print_template_sound pc given insn a (List.getElem?_mem hi) ha

theorem cleanChar_ne (c : Char) (h : cleanChar c = true) : c ≠ '\n' ∧ c ≠ '\r' := by
  unfold cleanChar at h
  rw [Bool.and_eq_true] at h
  exact ⟨of_decide_eq_true h.1, of_decide_eq_true h.2⟩

/-! ## Claims about the driver and the whole table -/

/-- C13: for all bytes the word assembled from `[b0,b1,b2,b3]` in little-endian mode
is the word assembled from `[b3,b2,b1,b0]` in big-endian mode, and the two calls of
`print_insn_internal` return the same value and render the same output. -/
theorem endianness_equivalence (b0 b1 b2 b3 : Nat) :
    assemble_word true [b0, b1, b2, b3] = assemble_word false [b3, b2, b1, b0] ∧
    ∀ (R pc : Nat) (little_info big_info : disassemble_info) (status : Int),
      little_info.read_memory_func pc 4 = (status, [b0, b1, b2, b3]) →
      big_info.read_memory_func pc 4 = (status, [b3, b2, b1, b0]) →
      little_info.flags = big_info.flags →
      (print_insn_internal R pc little_info true).map
          (fun r => (r.ret, r.out, r.memory_errors)) =
        (print_insn_internal R pc big_info false).map
          (fun r => (r.ret, r.out, r.memory_errors)) := by
  have hw : assemble_word true [b0, b1, b2, b3] = assemble_word false [b3, b2, b1, b0] := by
    simp [assemble_word, byteAt]
  refine ⟨hw, ?_⟩
  intro R pc li bi status hl hb hf
  unfold print_insn_internal
  simp only [hl, hb, hf, hw, Bool.false_eq_true, if_false, Bool.false_and]
  split
  · rfl
  · cases print_insn_uc64_interal (if bi.flags &&& R ≠ 0 then 0 else pc)
      (assemble_word false [b3, b2, b1, b0]) <;> rfl

/-- Witness for C13: the bytes `00 00 80 00` in little-endian order and `00 80 00 00`
in big-endian order both print the word `0x00800000`. -/
theorem endianness_equivalence_witness :
    (print_insn_internal 0 0 (fetchOf 0 [0x00, 0x00, 0x80, 0x00]) true).map
        (fun r => (r.ret, r.out, r.memory_errors)) =
      (print_insn_internal 0 0 (fetchOf 0 [0x00, 0x80, 0x00, 0x00]) false).map
        (fun r => (r.ret, r.out, r.memory_errors)) :=
  (endianness_equivalence 0x00 0x00 0x80 0x00).2 0 0 (fetchOf 0 [0x00, 0x00, 0x80, 0x00])
    (fetchOf 0 [0x00, 0x80, 0x00, 0x00]) 0 rfl rfl rfl

/-- C14: for every four fetched bytes, every pc and either byte order, a decode
whose byte fetch succeeds returns exactly 4 as the number of bytes consumed. -/
theorem decode_consumes_four (R pc : Nat) (info : disassemble_info) (little : Bool)
    (hfetch : (info.read_memory_func pc 4).1 = 0) :
    ∃ r, print_insn_internal R pc info little = .ok r ∧ r.ret = 4 := by
  unfold print_insn_internal
  simp only [hfetch, Bool.false_eq_true, if_false, ne_eq, not_true_eq_false]
  obtain ⟨o, ho, _⟩ := print_insn_sound (if info.flags &&& R ≠ 0 then 0 else pc)
    (assemble_word little (info.read_memory_func pc 4).2)
  simp only [ne_eq] at ho
  rw [ho]
  exact ⟨_, rfl, rfl⟩

/-- Witness for C14: the public entry point on the bytes of `0xbeffffff`. -/
theorem decode_consumes_four_witness :
    ∃ r, print_insn_internal 0 0x1000 (fetchOf 0 [0xff, 0xff, 0xff, 0xbe]) true = .ok r ∧
      r.ret = 4 :=
  decode_consumes_four 0 0x1000 (fetchOf 0 [0xff, 0xff, 0xff, 0xbe]) true rfl

/-- C15: for every word the decoder's output for one instruction contains no line
break: it ends normally and no character it writes to the stream is `\n` or `\r`. -/
theorem one_line (pc given : Nat) :
    ∃ out, print_insn_uc64_interal pc given = .ok out ∧
      ∀ c, Out.chr c ∈ out → c ≠ '\n' ∧ c ≠ '\r' := by
  obtain ⟨o, ho, hclean⟩ := print_insn_sound pc given
  refine ⟨_, ho, fun c hc => cleanChar_ne c ?_⟩
  exact clean_append (word_lead_clean given) hclean c hc

/-- Witness for C15: the tab of the `call` template is the only control character of
the line printed for `0xbeffffff`. -/
theorem one_line_witness :
    print_insn_uc64_interal 0x1000 0xbeffffff =
        .ok (txt "[beffffff]   call\t" ++ [Out.addr 0xffc]) ∧
      ∃ out, print_insn_uc64_interal 0x1000 0xbeffffff = .ok out ∧
        ∀ c, Out.chr c ∈ out → c ≠ '\n' ∧ c ≠ '\r' :=
  ⟨by decide, one_line 0x1000 0xbeffffff⟩

/-- C16 fails on the code: the word `0xAF600000` (first match: entry 79, template
`%C`) has bits 27..24 all ones and bits 23..22 equal to `01`, the one value the three
tests of the `%C` directive leave out, so nothing follows the word prefix; the driver
prints the bare prefix for the bytes `00 00 60 af`. -/
theorem empty_instruction_text :
    unicore64_opcodes[79]? = some (opcode32.mk 1 0xa0000000 0xf0000000 (some "%C")) ∧
    (∀ j < 79, ∀ e, unicore64_opcodes[j]? = some e → 0xAF600000 &&& e.mask ≠ e.value) ∧
    (∀ pc, print_insn_uc64_interal pc 0xAF600000 = .ok (word_lead 0xAF600000)) ∧
    word_lead 0xAF600000 = txt "[af600000]   " ∧
    (print_insn_unicore64 0 0x1000 (fetchOf 0 [0x00, 0x00, 0x60, 0xaf])).map (fun r => r.out) =
      .ok (txt "[af600000]   ") :=
  ⟨by decide, no_match_before _ _ (by decide), fun _ => rfl, by decide, by decide⟩

/-- C17: when the byte fetch reports a non-zero status, `print_insn_internal` writes
nothing to the stream and calls no address callback; it calls `memory_error_func`
once with the status and the pc, and returns -1. -/
theorem fetch_failure (R pc : Nat) (info : disassemble_info) (little : Bool)
    (hfetch : (info.read_memory_func pc 4).1 ≠ 0) :
    ∃ r, print_insn_internal R pc info little = .ok r ∧ r.ret = -1 ∧ r.out = [] ∧
      r.memory_errors = [((info.read_memory_func pc 4).1, pc)] := by
  unfold print_insn_internal
  simp only [Bool.false_eq_true, if_false, hfetch, ne_eq, not_false_eq_true, if_true]
  exact ⟨_, rfl, rfl, rfl, rfl⟩

/-- Witness for C17: a fetch that fails with status 5 at `pc = 0x1000`. -/
theorem fetch_failure_witness :
    ∃ r, print_insn_internal 0 0x1000 (fetchOf 5 []) true = .ok r ∧ r.ret = -1 ∧ r.out = [] ∧
      r.memory_errors = [(5, 0x1000)] :=
  fetch_failure 0 0x1000 (fetchOf 5 []) true (by decide)

/-- C18 fails on the code for the chunk size 8: `.dword` is printed with `0x%llx`,
without zero padding, so the value 0 gives one hex digit and `0xab` two, while the
sizes 1, 2 and 4 pad to 2, 4 and 8 digits. -/
theorem dword_not_padded :
    print_insn_data 8 0 = .ok (txt ".dword\t0x0") ∧
    print_insn_data 8 0xab = .ok (txt ".dword\t0xab") ∧
    print_insn_data 8 0xffffffffffffffff = .ok (txt ".dword\t0xffffffffffffffff") ∧
    print_insn_data 1 0 = .ok (txt ".byte\t0x00") ∧
    print_insn_data 2 0 = .ok (txt ".short\t0x0000") ∧
    print_insn_data 4 0 = .ok (txt ".word\t0x00000000") :=
  ⟨by decide, by decide, by decide, by decide, by decide, by decide⟩

theorem print_insn_internal_cases (R pc : Nat) (info : disassemble_info) (little : Bool) :
    ∃ r, print_insn_internal R pc info little = .ok r ∧ r.bytes_per_chunk = 4 ∧
      r.bytes_per_line = 4 ∧
      (((info.read_memory_func pc 4).1 ≠ 0 ∧ r.ret = -1 ∧ r.out = []) ∨
       ((info.read_memory_func pc 4).1 = 0 ∧ r.ret = 4 ∧
        print_insn_uc64_interal (if info.flags &&& R ≠ 0 then 0 else pc)
          (assemble_word little (info.read_memory_func pc 4).2) = .ok r.out)) := by
  by_cases hfetch : (info.read_memory_func pc 4).1 = 0
  · obtain ⟨o, ho, _⟩ := print_insn_sound (if info.flags &&& R ≠ 0 then 0 else pc)
      (assemble_word little (info.read_memory_func pc 4).2)
    unfold print_insn_internal
    simp only [hfetch, Bool.false_eq_true, if_false, ne_eq, not_true_eq_false]
    simp only [ne_eq] at ho
    rw [ho]
    exact ⟨_, rfl, rfl, rfl, Or.inr ⟨trivial, rfl, rfl⟩⟩
  · unfold print_insn_internal
    simp only [Bool.false_eq_true, if_false, hfetch, ne_eq, not_false_eq_true, if_true]
    exact ⟨_, rfl, rfl, rfl, Or.inl ⟨trivial, rfl, rfl⟩⟩

theorem print_insn_data_head (n v : Nat) (o : List Out) (h : print_insn_data n v = .ok o) :
    ∃ t, o = Out.chr '.' :: t := by
  unfold print_insn_data at h
  split_ifs at h <;> cases h <;> exact ⟨_, rfl⟩

/-- C19, as stated, fails: no invocation of `print_insn_internal` returns a chunk size
together with the rendering `print_insn_data` gives for a chunk of that size. -/
theorem data_path_counterexample :
    ¬ ∃ (R pc : Nat) (info : disassemble_info) (little : Bool) (n v : Nat) (r : DriverResult),
      (n = 1 ∨ n = 2 ∨ n = 4 ∨ n = 8) ∧ print_insn_internal R pc info little = .ok r ∧
      r.ret = n ∧ print_insn_data n v = .ok r.out := by
  rintro ⟨R, pc, info, little, n, v, r, hn, hr, hret, hdata⟩
  obtain ⟨r1, hr1, _, _, hcase⟩ := print_insn_internal_cases R pc info little
  rw [hr] at hr1
  cases hr1
  obtain ⟨t, ht⟩ := print_insn_data_head n v r.out hdata
  rcases hcase with ⟨_, hm, _⟩ | ⟨_, _, hp⟩
  · rw [hm] at hret
    omega
  · obtain ⟨o, ho, _⟩ := print_insn_sound (if info.flags &&& R ≠ 0 then 0 else pc)
      (assemble_word little (info.read_memory_func pc 4).2)
    rw [hp] at ho
    have heq := Except.ok.inj ho
    rw [ht] at heq
    have hhead := congrArg List.head? heq
    simp [word_lead, txt] at hhead

/-- C19, amended: the driver has no selectable DATA path.  The local `is_data` is the
constant FALSE, so every invocation of `print_insn_internal` fetches 4 bytes, sets
`bytes_per_chunk` and `bytes_per_line` to 4, and either reports a failed fetch
(return value -1, no output) or renders the word with the instruction decoder and
returns 4; `print_insn_data` is never used. -/
theorem instruction_path_only (R pc : Nat) (info : disassemble_info) (little : Bool) :
    ∃ r, print_insn_internal R pc info little = .ok r ∧ r.bytes_per_chunk = 4 ∧
      r.bytes_per_line = 4 ∧
      (((info.read_memory_func pc 4).1 ≠ 0 ∧ r.ret = -1 ∧ r.out = []) ∨
       ((info.read_memory_func pc 4).1 = 0 ∧ r.ret = 4 ∧
        print_insn_uc64_interal (if info.flags &&& R ≠ 0 then 0 else pc)
          (assemble_word little (info.read_memory_func pc 4).2) = .ok r.out)) :=
  print_insn_internal_cases R pc info little

/-- C20: the static tables are consistent: for every word and every pc the
interpretation of the first-matching template ends normally, so it reaches no
`abort ()` (unknown directive letter, unknown delimiter, range with `end < start`,
exhausted scan) and no read outside a name table or the template. -/
theorem tables_consistent (pc given : Nat) :
    checkTable unicore64_opcodes = true ∧
    ∃ out, print_insn_uc64_interal pc given = .ok out ∧
      print_insn_uc64_interal pc given ≠ .error .abort ∧
      print_insn_uc64_interal pc given ≠ .error .outOfBounds := by
  obtain ⟨o, ho, _⟩ := print_insn_sound pc given
  refine ⟨opcodes_checked, _, ho, ?_, ?_⟩ <;> rw [ho] <;> exact fun h => Except.noConfusion h

/-! ## Unknown directives and delimiters -/

theorem letter_unknown (pc given : Nat) (ch : Char) (h : ch ∉ knownLetters) :
    letter_directive pc given ch = .error .abort := by
  simp only [knownLetters, List.mem_cons, List.mem_singleton, List.not_mem_nil, or_false,
    not_or] at h
  obtain ⟨h1, h2, h3, h4, h5, h6, h7, h8, h9, h10, h11, h12, h13, h14, h15, h16, h17, h18, h19,
    h20, h21⟩ := h
  unfold letter_directive
  rw [if_neg h1, if_neg h2, if_neg h3, if_neg h4, if_neg h5, if_neg h6, if_neg h7, if_neg h8,
    if_neg h9, if_neg h10, if_neg h11, if_neg h12, if_neg h13, if_neg h14, if_neg h15, if_neg h16,
    if_neg h17, if_neg h18, if_neg h19, if_neg h20, if_neg h21]

theorem delimiter_unknown (given value width : Nat) (c : List Char)
    (h : peek c ∉ knownDelimiters) :
    delimiter_directive given value width c = .error .abort := by
  simp only [knownDelimiters, List.mem_cons, List.mem_singleton, List.not_mem_nil, or_false,
    not_or] at h
  obtain ⟨h1, h2, h3, h4, h5, h6, h7, h8, h9, h10, h11, h12, h13, h14, h15⟩ := h
  unfold delimiter_directive
  dsimp only
  rw [if_neg h1, if_neg h2, if_neg h3, if_neg h4, if_neg h5, if_neg h6, if_neg h7, if_neg h8,
    if_neg h9, if_neg h10, if_neg h11, if_neg h12, if_neg h13, if_neg h14, if_neg h15]

theorem template_unknown_letter (pc given : Nat) (fuel : Nat) (c : List Char) (out : List Out)
    (hd : isDigit (peek c) = false) (hk : peek c ∉ knownLetters) :
    template_loop pc given (fuel + 1) ('%' :: c) out = .error .abort := by
  rw [template_loop, if_pos rfl, directive, hd, letter_unknown pc given _ hk]
  rfl

/-- C21: a `%` followed by a character that is neither a decimal digit nor one of the
letters with a case aborts when the loop reaches it; a digit directive whose
delimiter, the character on which `unicore64_decode_bitfield` leaves the cursor, is
not one of the delimiters with a case aborts as well. -/
theorem unknown_escape_aborts (pc given : Nat) (fuel : Nat) (c : List Char) (out : List Out) :
    (isDigit (peek c) = false → peek c ∉ knownLetters →
      template_loop pc given (fuel + 1) ('%' :: c) out = .error .abort) ∧
    (∀ value width c1, isDigit (peek c) = true →
      unicore64_decode_bitfield c given = .ok (value, width, c1) → peek c1 ∉ knownDelimiters →
      template_loop pc given (fuel + 1) ('%' :: c) out = .error .abort) := by
  constructor
  · intro hd hk
    exact template_unknown_letter pc given fuel c out hd hk
  · intro value width c1 hd hdec hk
    rw [template_loop, if_pos rfl, directive, hd, if_pos rfl, hdec]
    dsimp only
    rw [delimiter_unknown given value width c1 hk]

/-- Witness for C21: the letter `b` of the header comment has no case, and neither
has the delimiter `z`. -/
theorem unknown_escape_aborts_witness :
    template_loop 0 0 3 "%b".toList [] = .error .abort ∧
    template_loop 0 0 7 "%16-20z".toList [] = .error .abort :=
  ⟨(unknown_escape_aborts 0 0 2 ['b'] []).1 (by decide) (by decide),
   (unknown_escape_aborts 0 0 6 "16-20z".toList []).2 0 5 ['z'] (by decide) (by decide)
     (by decide)⟩

/-! ## The cursor only moves forward -/

theorem scanNumber_suffix : ∀ (l : List Char) (acc : Nat), (scanNumber acc l).2 <:+ l := by
  intro l
  induction l with
  | nil => intro acc; exact List.suffix_refl _
  | cons c cs ih =>
    intro acc
    unfold scanNumber
    split
    · exact (ih _).trans (List.suffix_cons c cs)
    · exact List.suffix_refl _

theorem range_end_suffix (ptr : List Char) :
    (if peek (scanNumber 0 ptr).2 = '-' then scanNumber 0 (scanNumber 0 ptr).2.tail
      else ((scanNumber 0 ptr).1, (scanNumber 0 ptr).2)).2 <:+ ptr := by
  split
  · exact ((scanNumber_suffix _ 0).trans (List.tail_suffix _)).trans (scanNumber_suffix ptr 0)
  · exact scanNumber_suffix ptr 0

theorem decode_bitfield_loop_spec : ∀ (fuel : Nat) (ptr : List Char) (insn v w : Nat),
    ptr.length < fuel →
    (decode_bitfield_loop fuel ptr insn v w = .error .abort ∨
      ∃ v1 w1 c1, decode_bitfield_loop fuel ptr insn v w = .ok (v1, w1, c1) ∧ c1 <:+ ptr) := by
  intro fuel
  induction fuel with
  | zero => intro ptr insn v w h; omega
  | succ k ih =>
    intro ptr insn v w hlen
    have hsuf := range_end_suffix ptr
    rw [decode_bitfield_loop]
    dsimp only
    generalize (if peek (scanNumber 0 ptr).2 = '-' then scanNumber 0 (scanNumber 0 ptr).2.tail
      else ((scanNumber 0 ptr).1, (scanNumber 0 ptr).2)) = e at hsuf ⊢
    split
    · exact Or.inl rfl
    · split
      · rename_i hcomma
        have hne : e.2 ≠ [] := by
          intro h0
          rw [h0] at hcomma
          exact absurd hcomma (by decide)
        have hlt : e.2.tail.length < k := by
          have h1 := hsuf.length_le
          have h2 : e.2.tail.length + 1 = e.2.length := by
            cases h3 : e.2 with
            | nil => exact absurd h3 hne
            | cons x xs => simp
          omega
        rcases ih e.2.tail insn _ _ hlt with h | ⟨v1, w1, c1, h, hs⟩
        · exact Or.inl h
        · exact Or.inr ⟨v1, w1, c1, h, (hs.trans (List.tail_suffix _)).trans hsuf⟩
      · exact Or.inr ⟨_, _, _, rfl, hsuf⟩

theorem lookup_cases (tbl : List String) (i : Nat) :
    lookup tbl i = .error .outOfBounds ∨ ∃ o, lookup tbl i = .ok o := by
  unfold lookup
  cases tbl[i]? with
  | none => exact Or.inl rfl
  | some s => exact Or.inr ⟨_, rfl⟩

theorem delimiter_directive_spec (given value width : Nat) (c : List Char) :
    delimiter_directive given value width c = .error .abort ∨
    delimiter_directive given value width c = .error .outOfBounds ∨
    ∃ o c1, delimiter_directive given value width c = .ok (o, c1) ∧ c1 <:+ c := by
  unfold delimiter_directive
  dsimp only
  by_cases h1 : peek c = 'r'
  · rw [if_pos h1]
    rcases lookup_cases unicore64_regnames value with h | ⟨o, h⟩ <;> rw [h]
    · exact Or.inr (Or.inl rfl)
    · exact Or.inr (Or.inr ⟨_, _, rfl, List.suffix_refl c⟩)
  rw [if_neg h1]
  by_cases h2 : peek c = 'f'
  · rw [if_pos h2]
    rcases lookup_cases unicore64_Fregister value with h | ⟨o, h⟩ <;> rw [h]
    · exact Or.inr (Or.inl rfl)
    · exact Or.inr (Or.inr ⟨_, _, rfl, List.suffix_refl c⟩)
  rw [if_neg h2]
  by_cases h3 : peek c = 'S'
  · rw [if_pos h3]
    rcases lookup_cases unicore64_FSregister value with h | ⟨o, h⟩ <;> rw [h]
    · exact Or.inr (Or.inl rfl)
    · exact Or.inr (Or.inr ⟨_, _, rfl, List.suffix_refl c⟩)
  rw [if_neg h3]
  by_cases h4 : peek c = 'F'
  · rw [if_pos h4]
    rcases lookup_cases unicore64_Ffmt value with h | ⟨o, h⟩ <;> rw [h]
    · exact Or.inr (Or.inl rfl)
    · exact Or.inr (Or.inr ⟨_, _, rfl, List.suffix_refl c⟩)
  rw [if_neg h4]
  by_cases h5 : peek c = 'n'
  · rw [if_pos h5]
    rcases lookup_cases unicore64_Fcond value with h | ⟨o, h⟩ <;> rw [h]
    · exact Or.inr (Or.inl rfl)
    · exact Or.inr (Or.inr ⟨_, _, rfl, List.suffix_refl c⟩)
  rw [if_neg h5]
  by_cases h6 : peek c = 'c'
  · rw [if_pos h6]
    rcases lookup_cases unicore64_conditional value with h | ⟨o, h⟩ <;> rw [h]
    · exact Or.inr (Or.inl rfl)
    · exact Or.inr (Or.inr ⟨_, _, rfl, List.suffix_refl c⟩)
  rw [if_neg h6]
  by_cases h7 : peek c = 'p'
  · rw [if_pos h7]
    rcases lookup_cases unicore64_2D_fmt value with h | ⟨o, h⟩ <;> rw [h]
    · exact Or.inr (Or.inl rfl)
    · exact Or.inr (Or.inr ⟨_, _, rfl, List.suffix_refl c⟩)
  rw [if_neg h7]
  by_cases h8 : peek c = 'd'
  · rw [if_pos h8]
    exact Or.inr (Or.inr ⟨_, _, rfl, List.suffix_refl c⟩)
  rw [if_neg h8]
  by_cases h9 : peek c = 'b'
  · rw [if_pos h9]
    exact Or.inr (Or.inr ⟨_, _, rfl, List.suffix_refl c⟩)
  rw [if_neg h9]
  by_cases h10 : peek c = 'W'
  · rw [if_pos h10]
    exact Or.inr (Or.inr ⟨_, _, rfl, List.suffix_refl c⟩)
  rw [if_neg h10]
  by_cases h11 : peek c = 'x'
  · rw [if_pos h11]
    right; right
    simp only [seq, say]
    split_ifs <;> exact ⟨_, _, rfl, List.suffix_refl c⟩
  rw [if_neg h11]
  by_cases h12 : peek c = 'X'
  · rw [if_pos h12]
    exact Or.inr (Or.inr ⟨_, _, rfl, List.suffix_refl c⟩)
  rw [if_neg h12]
  by_cases h13 : peek c = backquote
  · rw [if_pos h13]
    exact Or.inr (Or.inr ⟨_, _, rfl, List.tail_suffix c⟩)
  rw [if_neg h13]
  by_cases h14 : peek c = apostrophe
  · rw [if_pos h14]
    exact Or.inr (Or.inr ⟨_, _, rfl, List.tail_suffix c⟩)
  rw [if_neg h14]
  by_cases h15 : peek c = '?'
  · rw [if_pos h15]
    cases hch : charAt c ((2 ^ width : Nat) - toInt32 value) with
    | error e =>
      right; left
      dsimp only
      unfold charAt at hch
      split_ifs at hch <;> cases hch
      all_goals rfl
    | ok ch =>
      dsimp only
      split
      · exact Or.inr (Or.inr ⟨_, _, rfl, List.drop_suffix _ c⟩)
      · exact Or.inr (Or.inl rfl)
  · rw [if_neg h15]
    exact Or.inl rfl

theorem decode_bitfield_spec (c : List Char) (insn : Nat) :
    unicore64_decode_bitfield c insn = .error .abort ∨
      ∃ v1 w1 c1, unicore64_decode_bitfield c insn = .ok (v1, w1, c1) ∧ c1 <:+ c :=
  decode_bitfield_loop_spec (c.length + 1) c insn 0 0 (Nat.lt_succ_self _)

theorem directive_spec (pc given : Nat) (c : List Char) :
    directive pc given c = .error .abort ∨ directive pc given c = .error .outOfBounds ∨
    ∃ o c1, directive pc given c = .ok (o, c1) ∧ c1 <:+ c := by
  unfold directive
  by_cases hd : isDigit (peek c) = true
  · rw [if_pos hd]
    rcases decode_bitfield_spec c given with h | ⟨v1, w1, c1, h, hs⟩
    · rw [h]; exact Or.inl rfl
    · rw [h]
      dsimp only
      rcases delimiter_directive_spec given v1 w1 c1 with h2 | h2 | ⟨o, c2, h2, hs2⟩
      · exact Or.inl h2
      · exact Or.inr (Or.inl h2)
      · exact Or.inr (Or.inr ⟨o, c2, h2, hs2.trans hs⟩)
  · rw [if_neg hd]
    by_cases hk : peek c ∈ knownLetters
    · obtain ⟨o, ho, _⟩ := good_letter_directive pc given (peek c) hk
      rw [ho]
      exact Or.inr (Or.inr ⟨o, c, rfl, List.suffix_refl c⟩)
    · rw [letter_unknown pc given _ hk]
      exact Or.inl rfl

theorem template_loop_fuel (pc given : Nat) : ∀ (fuel : Nat) (c : List Char) (out : List Out),
    c.length < fuel → template_loop pc given fuel c out ≠ .error .outOfFuel := by
  intro fuel
  induction fuel with
  | zero => intro c out h; omega
  | succ k ih =>
    intro c out hlen
    cases c with
    | nil => rw [template_loop]; exact fun h => Except.noConfusion h
    | cons ch cs =>
      rw [template_loop]
      simp only [List.length_cons] at hlen
      split
      · rcases directive_spec pc given cs with h | h | ⟨o, c1, h, hs⟩
        · rw [h]; exact fun h0 => Fault.noConfusion (Except.error.inj h0)
        · rw [h]; exact fun h0 => Fault.noConfusion (Except.error.inj h0)
        · rw [h]
          dsimp only
          cases c1 with
          | nil => exact fun h0 => Fault.noConfusion (Except.error.inj h0)
          | cons x c2 =>
            dsimp only
            have h1 := hs.length_le
            simp only [List.length_cons] at h1
            exact ih c2 _ (by omega)
      · exact ih cs _ (by omega)

/-! ## Conditional branches -/

theorem land_proj (g m v k : Nat) (h : g &&& m = v) : (g &&& k) &&& m = v &&& k := by
  rw [← h, Nat.and_assoc, Nat.and_comm k m, ← Nat.and_assoc]

theorem no_match_branch (g m v : Nat) (hn : g &&& 0xf0000000 = 0xa0000000)
    (hc : g &&& 0x0f000000 ≠ 0x0f000000)
    (hchk : (decide (0xa0000000 &&& m ≠ v &&& 0xf0000000) ||
      (decide (0x0f000000 &&& m = 0x0f000000) && decide (v &&& 0x0f000000 = 0x0f000000))) = true) :
    g &&& m ≠ v := by
  intro hm
  rw [Bool.or_eq_true, Bool.and_eq_true] at hchk
  rcases hchk with h | ⟨h1, h2⟩
  · have h3 := land_proj g m v 0xf0000000 hm
    rw [hn] at h3
    exact of_decide_eq_true h h3
  · have h3 := land_proj g m v 0x0f000000 hm
    rw [Nat.and_assoc, of_decide_eq_true h1, of_decide_eq_true h2] at h3
    exact hc h3

theorem branch_first_match (given : Nat) (hn : given &&& 0xf0000000 = 0xa0000000)
    (hc : given &&& 0x0f000000 ≠ 0x0f000000) :
    ∀ j < 79, ∀ e, unicore64_opcodes[j]? = some e → given &&& e.mask ≠ e.value := by
  have hall : (unicore64_opcodes.take 79).all (fun e =>
      decide (0xa0000000 &&& e.mask ≠ e.value &&& 0xf0000000) ||
      (decide (0x0f000000 &&& e.mask = 0x0f000000) &&
        decide (e.value &&& 0x0f000000 = 0x0f000000))) = true := by decide
  intro j hj e he
  have hmem : e ∈ unicore64_opcodes.take 79 := by
    apply List.getElem?_mem (n := j)
    rw [List.getElem?_take_of_lt hj]
    exact he
  exact no_match_branch given e.mask e.value hn hc (List.all_eq_true.mp hall e hmem)

theorem letter_only_template (pc given : Nat) (ch : Char) (o : List Out)
    (hd : isDigit ch = false) (h : letter_directive pc given ch = .ok o) (lead : List Out) :
    template_loop pc given 3 ['%', ch] lead = .ok (lead ++ o) := by
  have hp : peek [ch] = ch := rfl
  rw [template_loop, if_pos rfl, directive, hp, hd, h]
  rfl

/-- C23: for every word whose bits 31..28 are 1010 and whose condition field (bits
27..24) is not `0xf`, the text after the word prefix is `b`, the mnemonic of
`unicore64_conditional` indexed by bits 27..24 and a tab, and the address callback
receives `pc + 4 *` the sign-extended low 24 bits, modulo `2^64`. -/
theorem conditional_branch (pc given : Nat) (hn : given &&& 0xf0000000 = 0xa0000000)
    (hc : given &&& 0x0f000000 ≠ 0x0f000000) :
    ∃ s, unicore64_conditional[(given >>> 24) &&& 0xf]? = some s ∧
      print_insn_uc64_interal pc given =
        .ok (word_lead given ++ (txt "b" ++ txt s ++ txt "\t" ++
          [Out.addr (addrPlus pc (4 * signExtend 24 (given % 2 ^ 24)))])) := by
  have h79 : unicore64_opcodes[79]? =
      some (opcode32.mk 1 0xa0000000 0xf0000000 (some "%C")) := by decide
  have hidx : (given >>> 24) &&& 0xf < unicore64_conditional.length :=
    land_lt _ _ _ (by decide)
  have hlook : lookup unicore64_conditional ((given >>> 24) &&& 0xf) =
      .ok (txt (unicore64_conditional[(given >>> 24) &&& 0xf])) := by
    unfold lookup
    rw [List.getElem?_eq_getElem hidx]
  have h28 : given &&& 0x10000000 = 0 := by
    have h := land_proj given 0xf0000000 0xa0000000 0x10000000 hn
    rw [Nat.and_assoc] at h
    exact h
  have h1 : ¬ given &&& 0xf0000000 = 0xf0000000 := by rw [hn]; decide
  have h2 : ¬ given &&& 0xf0000000 = 0xe0000000 := by rw [hn]; decide
  have h3 : ¬ given &&& 0x10000000 = 0x10000000 := by rw [h28]; decide
  have hC : letter_directive pc given 'C' =
      .ok (txt "b" ++ txt (unicore64_conditional[(given >>> 24) &&& 0xf]) ++ txt "\t" ++
        [Out.addr (addrPlus pc (4 * signExtend 24 (given % 2 ^ 24)))]) := by
    simp only [letter_directive, Char.reduceEq, if_true, if_false, reduceIte, directive_C,
      if_neg h1, if_neg h2, if_neg h3, if_pos hc, ne_eq, not_false_eq_true, hlook, seq, say,
      sayBranch24, sayAddr, signedField_24, branchTarget_eq, List.append_assoc]
  refine ⟨_, List.getElem?_eq_getElem hidx, ?_⟩
  rw [(print_insn_of_first pc given 79 _ "%C" h79 rfl hn (branch_first_match given hn hc)).2]
  exact letter_only_template pc given 'C' _ (by decide) hC (word_lead given)

/-- Witness for C23: the word `0xa0fffffe` (condition field 0) at `pc = 0x1000`. -/
theorem conditional_branch_witness :
    ∃ s, unicore64_conditional[(0xa0fffffe >>> 24) &&& 0xf]? = some s ∧
      print_insn_uc64_interal 0x1000 0xa0fffffe =
        .ok (word_lead 0xa0fffffe ++ (txt "b" ++ txt s ++ txt "\t" ++
          [Out.addr (addrPlus 0x1000 (4 * signExtend 24 (0xa0fffffe % 2 ^ 24)))])) :=
  conditional_branch 0x1000 0xa0fffffe (by decide) (by decide)

/-- C24: for every word the `%U` directive renders the barrier type from the low 4
bits: `sy` for `0xf`, `un` for `0x7`, `st` for `0xe`, `unst` for `0x6`, and for each of
the other twelve codes `#` followed by the code in decimal. -/
theorem barrier_type (pc given : Nat) :
    letter_directive pc given 'U' = .ok (txt (barrierText (given % 16))) ∧
    (List.range 16).map barrierText =
      ["#0", "#1", "#2", "#3", "#4", "#5", "unst", "un", "#8", "#9", "#10", "#11", "#12", "#13",
       "st", "sy"] := by
  refine ⟨?_, by decide⟩
  have hm : given &&& 0xf = given % 16 := by
    have h := Nat.and_pow_two_sub_one_eq_mod given 4
    norm_num at h ⊢
    exact h
  have hlt : given % 16 < 16 := Nat.mod_lt _ (by norm_num)
  simp only [letter_directive, Char.reduceEq, if_true, if_false, reduceIte, directive_U, hm]
  generalize given % 16 = k at hlt
  interval_cases k <;> decide

/-! ## Shift operands -/

/-- C25, as stated, fails: the operand `0xc0` has shift bits that are not all zero,
selects the immediate form and has the amount field 0, yet it is rendered `r0<>#33`. -/
theorem shift_amount_counterexample :
    (0xc0 &&& 0x3fe0 ≠ 0 ∧ 0xc0 &&& 0x20 = 0 ∧ (0xc0 &&& 0x3e00) >>> 9 = 0) ∧
    unicore64_decode_shift 0xc0 true = .ok (txt "r0<>#33") ∧
    unicore64_decode_shift 0xc0 false = .ok (txt "r0<>#33") :=
  ⟨by decide, by decide, by decide⟩

theorem lookup_ok (tbl : List String) (i : Nat) (h : i < tbl.length) :
    lookup tbl i = .ok (txt (tbl[i])) := by
  unfold lookup
  rw [List.getElem?_eq_getElem h]

/-- C25, amended: for every operand whose shift bits (bits 5..13) are not all zero
and which selects the immediate form (bit 5 clear), an amount field (bits 9..13) of 0
is rendered as the shift amount 32, unless the shift type (bits 6..7) is 3, when the
operand is rendered as the register followed by `<>#33`. -/
theorem shift_amount_zero (given : Nat) (print_shift : Bool) (hs : given &&& 0x3fe0 ≠ 0)
    (hi : given &&& 0x20 = 0) (ha : (given &&& 0x3e00) >>> 9 = 0) :
    ∃ reg op, unicore64_regnames[given &&& 0x1f]? = some reg ∧
      unicore64_shift[(given &&& 0xc0) >>> 6]? = some op ∧
      unicore64_decode_shift given print_shift =
        .ok (txt reg ++
          (if (given &&& 0xc0) >>> 6 = 3 then txt "<>#33"
           else if print_shift then txt " " ++ (txt op ++ txt " #32")
           else txt " #32")) := by
  have hr : given &&& 0x1f < unicore64_regnames.length := land_lt _ _ _ (by decide)
  have ho : (given &&& 0xc0) >>> 6 < unicore64_shift.length :=
    land_shift_lt _ _ _ _ (by decide)
  refine ⟨_, _, List.getElem?_eq_getElem hr, List.getElem?_eq_getElem ho, ?_⟩
  unfold unicore64_decode_shift
  simp only [lookup_ok _ _ hr, lookup_ok _ _ ho, if_pos hs, if_pos hi, ha, true_and, if_true]
  by_cases h3 : (given &&& 0xc0) >>> 6 = 3
  · simp only [h3, if_true, seq, say]
  · cases print_shift
    · simp only [h3, if_false, seq, say, sayInt, Bool.false_eq_true]
      rfl
    · simp only [h3, if_false, if_true, seq, say, sayInt]
      rfl

/-- Witness for C25: the operand `0x41` (shift type 1, amount field 0) is `r1 >> #32`. -/
theorem shift_amount_zero_witness :
    unicore64_decode_shift 0x41 true = .ok (txt "r1 >> #32") := by
  obtain ⟨reg, op, hr, ho, h⟩ := shift_amount_zero 0x41 true (by decide) (by decide) (by decide)
  have hr1 : unicore64_regnames[0x41 &&& 0x1f]? = some "r1" := by decide
  have ho1 : unicore64_shift[(0x41 &&& 0xc0) >>> 6]? = some ">>" := by decide
  rw [hr1] at hr
  rw [ho1] at ho
  cases hr
  cases ho
  exact h.trans (by decide)

theorem natDigits_by (p : Char → Bool) (hp : ∀ d < 16, p (hexDigit d) = true) (b : Nat)
    (hb : 0 < b) (hb16 : b ≤ 16) :
    ∀ (fuel n : Nat), ∀ c ∈ natDigits b fuel n, p c = true := by
  intro fuel
  induction fuel with
  | zero => intro n c hc; simp [natDigits] at hc
  | succ k ih =>
    intro n c hc
    unfold natDigits at hc
    by_cases hlt : n < b
    · rw [if_pos hlt] at hc
      rw [List.mem_singleton] at hc
      subst hc
      exact hp n (by omega)
    · rw [if_neg hlt, List.mem_append, List.mem_singleton] at hc
      rcases hc with hc | hc
      · exact ih _ c hc
      · subst hc
        exact hp _ (Nat.lt_of_lt_of_le (Nat.mod_lt n hb) hb16)

theorem fmt_d_by (p : Char → Bool) (hp : ∀ d < 16, p (hexDigit d) = true) (hm : p '-' = true)
    (x : Int) : ∀ c ∈ fmt_d x, p c = true := by
  intro c hc
  unfold fmt_d at hc
  split at hc
  · rcases List.mem_cons.mp hc with h | h
    · subst h; exact hm
    · exact natDigits_by p hp 10 (by norm_num) (by norm_num) 20 _ c h
  · exact natDigits_by p hp 10 (by norm_num) (by norm_num) 20 _ c hc

theorem cleanBy_chars (p : Char → Bool) (l : List Char) (h : ∀ c ∈ l, p c = true) :
    CleanBy p (chars l) := by
  intro c hc
  unfold chars at hc
  obtain ⟨x, hx, hxc⟩ := List.mem_map.mp hc
  cases hxc
  exact h c hx

theorem cleanBy_txt (p : Char → Bool) (s : String) (h : s.toList.all p = true) :
    CleanBy p (txt s) :=
  cleanBy_chars p s.toList (fun c hc => List.all_eq_true.mp h c hc)

theorem goodBy_seq {p : Char → Bool} {a b : Except Fault (List Out)} (ha : GoodBy p a)
    (hb : GoodBy p b) : GoodBy p (seq a b) := by
  obtain ⟨x, rfl, hx⟩ := ha
  obtain ⟨y, rfl, hy⟩ := hb
  refine ⟨x ++ y, rfl, ?_⟩
  intro c hc
  rcases List.mem_append.mp hc with h | h
  · exact hx c h
  · exact hy c h

theorem goodBy_say (p : Char → Bool) (s : String) (h : s.toList.all p = true) :
    GoodBy p (say s) := ⟨_, rfl, cleanBy_txt p s h⟩

theorem goodBy_sayInt (p : Char → Bool) (hp : ∀ d < 16, p (hexDigit d) = true)
    (hm : p '-' = true) (x : Int) : GoodBy p (sayInt x) :=
  ⟨_, rfl, cleanBy_chars p _ (fmt_d_by p hp hm x)⟩

theorem goodBy_nil (p : Char → Bool) : GoodBy p (.ok []) :=
  ⟨[], rfl, fun c hc => by simp at hc⟩

theorem goodBy_lookup (p : Char → Bool) (tbl : List String) (i : Nat)
    (hc : tbl.all (fun s => s.toList.all p) = true) (hi : i < tbl.length) :
    GoodBy p (lookup tbl i) := by
  rw [lookup_ok tbl i hi]
  exact ⟨_, rfl, cleanBy_txt p _ (List.all_eq_true.mp hc _ (List.getElem_mem hi))⟩

/-- C26, as stated, fails: called with `print_shift = 0` by the `%q` directive, the
operand `0xc1` is rendered with the mnemonic `<>`. -/
theorem shift_mnemonic_counterexample :
    letter_directive 0 0xc1 'q' = unicore64_decode_shift 0xc1 false ∧
    unicore64_decode_shift 0xc1 false = .ok (txt "r1<>#33") ∧
    Out.chr '<' ∈ txt "r1<>#33" :=
  ⟨by decide, by decide, by decide⟩

/-- C26, amended: for every operand value other than the special encoding (shift
bits not all zero, immediate form, amount field 0, shift type 3, rendered `<>#33`
whatever `print_shift` is), the output of `unicore64_decode_shift` with
`print_shift = 0`, as called by `%q`, contains none of the characters of the
shift-operator mnemonics `<<`, `>>`, `|>`, `<>`. -/
theorem no_shift_mnemonic (given : Nat)
    (hspecial : ¬ (given &&& 0x3fe0 ≠ 0 ∧ given &&& 0x20 = 0 ∧
      (given &&& 0x3e00) >>> 9 = 0 ∧ (given &&& 0xc0) >>> 6 = 3)) :
    (∀ pc, letter_directive pc given 'q' = unicore64_decode_shift given false) ∧
    ∃ o, unicore64_decode_shift given false = .ok o ∧
      ∀ c, Out.chr c ∈ o → c ≠ '<' ∧ c ≠ '>' ∧ c ≠ '|' := by
  refine ⟨fun pc => by
    simp only [letter_directive, Char.reduceEq, if_true, if_false, reduceIte], ?_⟩
  have hp : ∀ d < 16, noShiftChar (hexDigit d) = true := by decide
  have hgood : GoodBy noShiftChar (unicore64_decode_shift given false) := by
    unfold unicore64_decode_shift
    dsimp only
    apply goodBy_seq (goodBy_lookup _ _ _ (by decide) (land_lt _ _ _ (by decide)))
    by_cases hs : given &&& 0x3fe0 ≠ 0
    · rw [if_pos hs]
      by_cases hi : given &&& 0x20 = 0
      · rw [if_pos hi]
        by_cases h3 : (given &&& 0x3e00) >>> 9 = 0 ∧ (given &&& 0xc0) >>> 6 = 3
        · exact absurd ⟨hs, hi, h3.1, h3.2⟩ hspecial
        · rw [if_neg h3]
          simp only [Bool.false_eq_true, if_false]
          exact goodBy_seq (goodBy_say _ _ (by decide)) (goodBy_sayInt _ hp (by decide) _)
      · rw [if_neg hi]
        simp only [Bool.false_eq_true, if_false]
        exact goodBy_seq (goodBy_say _ _ (by decide))
          (goodBy_lookup _ _ _ (by decide) (land_shift_lt _ _ _ _ (by decide)))
    · rw [if_neg hs]
      exact goodBy_nil _
  obtain ⟨o, ho, hclean⟩ := hgood
  refine ⟨o, ho, fun c hc => ?_⟩
  have h := hclean c hc
  unfold noShiftChar at h
  rw [Bool.and_eq_true, Bool.and_eq_true] at h
  exact ⟨of_decide_eq_true h.1.1, of_decide_eq_true h.1.2, of_decide_eq_true h.2⟩

/-- Witness for C26: the operand `0x241` (shift type 1, amount 1) printed without the
operator. -/
theorem no_shift_mnemonic_witness :
    unicore64_decode_shift 0x241 false = .ok (txt "r1 #1") ∧
    ∃ o, unicore64_decode_shift 0x241 false = .ok o ∧
      ∀ c, Out.chr c ∈ o → c ≠ '<' ∧ c ≠ '>' ∧ c ≠ '|' :=
  ⟨by decide, (no_shift_mnemonic 0x241 (by decide)).2⟩

/-! ## Memory operands -/

theorem shift_land (g m s : Nat) : (g >>> s) &&& (m >>> s) = (g &&& m) >>> s := by
  apply Nat.eq_of_testBit_eq
  intro i
  simp only [Nat.testBit_and, Nat.testBit_shiftRight]

theorem base_is_pc (given : Nat) (h : given &&& 0x0000f800 = 0x0000f800) :
    (given >>> 11) &&& 0x1f = 31 := by
  have h1 := shift_land given 0xf800 11
  rw [h] at h1
  exact h1

theorem address_bracket (given : Nat) :
    ∃ br, br ∈ ["-]", "+]", "]-", "]+"] ∧
      (if given &&& 0xefc00000 = 0x60000000 then
        if given &&& 0x08000000 = 0 then
          if given &&& 0x10000000 = 0 then say "-]" else say "+]"
        else
          if given &&& 0x10000000 ≠ 0 then say "]-" else say "]+"
      else
        if given &&& 0x08000000 ≠ 0 then
          if given &&& 0x10000000 = 0 then say "-]" else say "+]"
        else
          if given &&& 0x10000000 = 0 then say "]-" else say "]+") = .ok (txt br) := by
  by_cases h1 : given &&& 0xefc00000 = 0x60000000 <;>
    by_cases h2 : given &&& 0x08000000 = 0 <;>
    by_cases h3 : given &&& 0x10000000 = 0 <;>
    simp only [h1, h2, h3, if_true, if_false, ne_eq, not_true_eq_false, not_false_eq_true, say] <;>
    exact ⟨_, by decide, rfl⟩

/-- C27, as stated, fails: for the word `0x73a0f804` (immediate operand, base register
the program counter) the text `, #4` and a tab are written to the stream before the
address callback is called. -/
theorem pc_relative_counterexample :
    (0x73a0f804 &&& 0x00200000 ≠ 0 ∧ 0x73a0f804 &&& 0x0000f800 = 0x0000f800) ∧
    print_unicore64_address 0x1000 0x73a0f804 =
      .ok (txt "[pc]+, #4\t" ++ [Out.addr 0x1004]) ∧
    print_insn_uc64_interal 0x1000 0x73a0f804 =
      .ok (txt "[73a0f804]   ldw\tr0, [pc]+, #4\t" ++ [Out.addr 0x1004]) :=
  ⟨by decide, by decide, by decide⟩

/-- C27, amended: for every word with an immediate operand (bit 21 set) whose base
register is the program-counter alias (bits 11..15 all ones), `print_unicore64_address`
writes `[pc`, the direction sign and bracket, then `, #<immediate>` and a tab to the
stream, and after that calls the address callback once, with the value of the `int`
that holds `pc + imm` (bit 28 set) or `pc - imm` (bit 28 clear); whenever that sum
lies in the range of an `int`, the callback receives it modulo `2^64`. -/
theorem pc_relative_operand (pc given : Nat) (himm : given &&& 0x00200000 ≠ 0)
    (hbase : given &&& 0x0000f800 = 0x0000f800) :
    (∃ br, br ∈ ["-]", "+]", "]-", "]+"] ∧
      print_unicore64_address pc given =
        .ok (txt "[pc" ++ (txt br ++ (txt ", #" ++
          (chars (fmt_d ((given &&& 0x7ff : Nat) : Int)) ++ (txt "\t" ++
            [Out.addr (toU64 (toInt32 ((toU64 (if given &&& 0x10000000 = 0 then
              -((given &&& 0x7ff : Nat) : Int) else ((given &&& 0x7ff : Nat) : Int)) + pc) %
                2 ^ 64)))])))))) ∧
    (∀ d : Int,
      d = (if given &&& 0x10000000 = 0 then -((given &&& 0x7ff : Nat) : Int)
        else ((given &&& 0x7ff : Nat) : Int)) →
      pc < 2 ^ 64 → -(2 ^ 31) ≤ (pc : Int) + d → (pc : Int) + d < 2 ^ 31 →
      toU64 (toInt32 ((toU64 d + pc) % 2 ^ 64)) = addrPlus pc d) := by
  constructor
  · obtain ⟨br, hbr, hb⟩ := address_bracket given
    have hreg : lookup unicore64_regnames ((given >>> 11) &&& 0x1f) = .ok (txt "pc") := by
      rw [base_is_pc given hbase]
      rfl
    refine ⟨br, hbr, ?_⟩
    unfold print_unicore64_address
    rw [hb, hreg, if_pos himm]
    simp only [if_pos hbase, seq, say, sayInt, sayAddr]
    rfl
  · intro d _ hpc hlo hhi
    unfold addrPlus toU64 toInt32
    split <;> omega

/-- Witness for C27: the word `0x73a0f804` (`ldw r0, [pc]+, #4`) at `pc = 0x1000`
passes `0x1004` to the callback. -/
theorem pc_relative_operand_witness :
    print_unicore64_address 0x1000 0x73a0f804 = .ok (txt "[pc]+, #4\t" ++ [Out.addr 0x1004]) ∧
    toU64 (toInt32 ((toU64 4 + 0x1000) % 2 ^ 64)) = addrPlus 0x1000 4 := by
  obtain ⟨hprint, haddr⟩ := pc_relative_operand 0x1000 0x73a0f804 (by decide) (by decide)
  exact ⟨by decide, haddr 4 (by decide) (by norm_num) (by norm_num) (by norm_num)⟩

/-- C28 fails on the code for program counters that do not fit an `int`: the target
is accumulated in the `int immed`, so for `pc = 0x100000000` and the word `0x73a0f804`
(`ldw r0, [pc]+, #4`) the address callback receives 4, not `0x100000004`, and for
`pc = 0x80000000` it receives `0xffffffff80000004`; for `pc = 0x1000` it receives
`0x1004`. -/
theorem pc_relative_target_truncated :
    print_unicore64_address 0x100000000 0x73a0f804 = .ok (txt "[pc]+, #4\t" ++ [Out.addr 4]) ∧
    print_insn_uc64_interal 0x100000000 0x73a0f804 =
      .ok (txt "[73a0f804]   ldw\tr0, [pc]+, #4\t" ++ [Out.addr 4]) ∧
    (0x100000000 + (0x73a0f804 &&& 0x7ff)) % 2 ^ 64 = 0x100000004 ∧
    print_unicore64_address 0x80000000 0x73a0f804 =
      .ok (txt "[pc]+, #4\t" ++ [Out.addr 0xffffffff80000004]) ∧
    print_unicore64_address 0x1000 0x73a0f804 = .ok (txt "[pc]+, #4\t" ++ [Out.addr 0x1004]) :=
  ⟨by decide, by decide, by decide, by decide, by decide⟩

/-! ## Termination, the header comment and relocations -/

/-- C22: for every word decoding terminates.  The scan stops at the first matching
entry, at an index below the sentinel; the loop over its template, bounded by the
template length plus one, ends normally, so the cursor never leaves the template
text (no skip of the apostrophe, backquote or `?` directives passes its end); every
directive leaves the cursor on a suffix of the text it started from, so the cursor
only moves forward; and for any template a loop bound above the remaining length is
never what stops the loop. -/
theorem decoding_terminates (pc given : Nat) :
    (∃ i insn a out, i < 161 ∧ unicore64_opcodes[i]? = some insn ∧ insn.assembler = some a ∧
      given &&& insn.mask = insn.value ∧
      (∀ j < i, ∀ e, unicore64_opcodes[j]? = some e → given &&& e.mask ≠ e.value) ∧
      template_loop pc given (a.length + 1) a.toList (word_lead given) = .ok out ∧
      print_insn_uc64_interal pc given = .ok out) ∧
    (∀ c o c1, directive pc given c = .ok (o, c1) → c1 <:+ c) ∧
    (∀ c insn v w c1, unicore64_decode_bitfield c insn = .ok (v, w, c1) → c1 <:+ c) ∧
    (∀ (c : List Char) (fuel : Nat) (out : List Out), c.length < fuel →
      template_loop pc given fuel c out ≠ .error .outOfFuel) := by
  refine ⟨?_, ?_, ?_, fun c fuel out h => template_loop_fuel pc given fuel c out h⟩
  · obtain ⟨i, insn, a, hlt, hi, ha, hm, hfirst⟩ := exists_first_match given
    obtain ⟨o, ho, _⟩ := print_template_sound pc given insn a (List.getElem?_mem hi) ha
    refine ⟨i, insn, a, _, hlt, hi, ha, hm, hfirst, ho, ?_⟩
    rw [(print_insn_of_first pc given i insn a hi ha hm hfirst).2]
    exact ho
  · intro c o c1 h
    rcases directive_spec pc given c with h1 | h1 | ⟨o2, c2, h2, hs⟩
    · rw [h1] at h; cases h
    · rw [h1] at h; cases h
    · rw [h2] at h
      cases h
      exact hs
  · intro c insn v w c1 h
    rcases decode_bitfield_spec c insn with h1 | ⟨v2, w2, c2, h2, hs⟩
    · rw [h1] at h; cases h
    · rw [h2] at h
      cases h
      exact hs

/-- Witness for C22: after the directive `%23?zo` of a `cntl` template the cursor
stands on the last character of the inline array, a suffix of the directive text. -/
theorem decoding_terminates_witness :
    directive 0 0 "23?zo\t%16-20r".toList = .ok ([Out.chr 'o'], "o\t%16-20r".toList) ∧
    "o\t%16-20r".toList <:+ "23?zo\t%16-20r".toList :=
  ⟨by decide, (decoding_terminates 0 0).2.1 "23?zo\t%16-20r".toList [Out.chr 'o']
    "o\t%16-20r".toList (by decide)⟩

/-- C29 fails on the code: the codes `%b`, `%c`, `%m`, `%e`, `%E` and `%V` of the header
comment have no case in `switch (*++c)` and reach the `abort ()` of the default case
for every word; a table whose only template is `%b` aborts.  The other codes of the
header comment have a case. -/
theorem header_codes_unrecognized :
    (∀ pc given : Nat, ∀ ch ∈ ['b', 'c', 'm', 'e', 'E', 'V'],
      letter_directive pc given ch = .error .abort ∧
      template_loop pc given 3 ['%', ch] [] = .error .abort) ∧
    print_insn_table [opcode32.mk 1 0 0 (some "%b"), opcode32.mk 1 0 0 none] 0 0 =
      .error .abort ∧
    (∀ ch ∈ ['%', 'a', 's', 'o', 'p', 't', 'B', 'C', 'U', 'P'], ch ∈ knownLetters) ∧
    (∀ d ∈ ['r', 'd', 'W', 'x', 'X', apostrophe, backquote, '?'], d ∈ knownDelimiters) := by
  refine ⟨?_, by decide, by decide, by decide⟩
  intro pc given ch hch
  have hk : ch ∉ knownLetters := by
    simp only [List.mem_cons, List.mem_singleton, List.not_mem_nil, or_false] at hch
    rcases hch with h | h | h | h | h | h <;> subst h <;> decide
  have hd : isDigit ch = false := by
    simp only [List.mem_cons, List.mem_singleton, List.not_mem_nil, or_false] at hch
    rcases hch with h | h | h | h | h | h <;> subst h <;> decide
  exact ⟨letter_unknown pc given ch hk,
    template_unknown_letter pc given 2 [ch] [] hd hk⟩

/-- C30: when `info->flags` has the `INSN_HAS_RELOC` bit, the program counter does
not influence the output: for two values of pc with the same fetched bytes,
`print_insn_internal` gives the same text and the same callback addresses, those the
decoder computes with `pc = 0`. -/
theorem reloc_ignores_pc (R pc pc2 : Nat) (info : disassemble_info) (little : Bool)
    (hflag : info.flags &&& R ≠ 0)
    (hfetch : info.read_memory_func pc 4 = info.read_memory_func pc2 4) :
    (print_insn_internal R pc info little).map (fun r => r.out) =
      (print_insn_internal R pc2 info little).map (fun r => r.out) ∧
    ((info.read_memory_func pc 4).1 = 0 →
      (print_insn_internal R pc info little).map (fun r => r.out) =
        print_insn_uc64_interal 0 (assemble_word little (info.read_memory_func pc 4).2)) := by
  constructor
  · unfold print_insn_internal
    simp only [hfetch, Bool.false_eq_true, if_false, Bool.false_and, if_pos hflag]
    split
    · rfl
    · rfl
  · intro hst
    unfold print_insn_internal
    simp only [hst, Bool.false_eq_true, if_false, Bool.false_and, if_pos hflag, ne_eq,
      not_true_eq_false]
    cases print_insn_uc64_interal 0 (assemble_word little (info.read_memory_func pc 4).2) <;> rfl

/-- Witness for C30: the `call` word `0xbeffffff` with the flag set, fetched at
`pc = 0x1000` and at `pc = 0x2000`. -/
theorem reloc_ignores_pc_witness :
    (print_insn_internal 0x80000000 0x1000
        (fetchWithFlags 0 [0xff, 0xff, 0xff, 0xbe] 0x80000000) true).map (fun r => r.out) =
      (print_insn_internal 0x80000000 0x2000
        (fetchWithFlags 0 [0xff, 0xff, 0xff, 0xbe] 0x80000000) true).map (fun r => r.out) :=
  (reloc_ignores_pc 0x80000000 0x1000 0x2000 (fetchWithFlags 0 [0xff, 0xff, 0xff, 0xbe] 0x80000000)
    true (by decide) rfl).1

/-! ## Reachable and shadowed table entries -/

theorem find_index_first : ∀ (tbl : List opcode32) (given i : Nat),
    find_index tbl given = some i →
    ∃ e a, tbl[i]? = some e ∧ e.assembler = some a ∧ given &&& e.mask = e.value ∧
      (∀ j < i, ∀ e1, tbl[j]? = some e1 → given &&& e1.mask ≠ e1.value) ∧
      find_insn tbl given = .ok a := by
  intro tbl
  induction tbl with
  | nil => intro given i h; simp [find_index] at h
  | cons x xs ih =>
    intro given i h
    cases hx : x.assembler with
    | none => simp [find_index, hx] at h
    | some a =>
      by_cases hm : given &&& x.mask = x.value
      · simp only [find_index, hx, if_pos hm, Option.some.injEq] at h
        subst h
        exact ⟨x, a, by simp, hx, hm, fun j hj => absurd hj (Nat.not_lt_zero j),
          by simp [find_insn, hx, hm]⟩
      · simp only [find_index, hx, if_neg hm, Option.map_eq_some'] at h
        obtain ⟨k, hk, hki⟩ := h
        subst hki
        obtain ⟨e, b, he, hb, hme, hfirst, hfind⟩ := ih given k hk
        refine ⟨e, b, by simpa using he, hb, hme, ?_, by simp [find_insn, hx, hm, hfind]⟩
        intro j hj e1 he1
        cases j with
        | zero =>
          simp at he1
          subst he1
          exact hm
        | succ j1 => exact hfirst j1 (by omega) e1 (by simpa using he1)

theorem shadowed_by_entry_80 : ∀ i < 141, 88 ≤ i →
    (unicore64_opcodes[i]?).all (fun e =>
      decide (e.mask &&& 0xf0000000 = 0xf0000000) &&
      decide (e.value &&& 0xf0000000 = 0xe0000000)) = true := by
  decide

theorem reach_words : ∀ i < 161, (88 ≤ i ∧ i ≤ 140) ∨
    ([
    0x00000000, 0x00bfffff, 0x01000000, 0x02000000, 0x03000000, 0x04000000, 0x05000000, 0x06000000,
    0x07000000, 0x08800000, 0x09800000, 0x0a800000, 0x0b800000, 0x0c000000, 0x0d000000, 0x0e000000,
    0x0f000000, 0x00400000, 0x01400000, 0x02400000, 0x03400000, 0x04400000, 0x05400000, 0x06400000,
    0x07400000, 0x08c00000, 0x09c00000, 0x0ac00000, 0x0bc00000, 0x0c400000, 0x0d400000, 0x0e400000,
    0x0f400000, 0x10000000, 0x11000000, 0x12000000, 0x10400000, 0x11400000, 0x12400000, 0x18000000,
    0x18400000, 0x1d000000, 0x1d400000, 0x1f000000, 0x1f400000, 0x20000000, 0x30000000, 0x40000000,
    0x48000000, 0x40400000, 0x48400000, 0x50000000, 0x58000000, 0x50400000, 0x58400000, 0x60000000,
    0x68000000, 0x61000000, 0x60800000, 0x61800000, 0x61400000, 0x60c00000, 0x61c00000, 0x60400000,
    0x63000000, 0x62800000, 0x63800000, 0x63400000, 0x62c00000, 0x63c00000, 0x62400000, 0x80000000,
    0x82000000, 0x81000000, 0x83000000, 0x81a00000, 0x81800000, 0x81c00000, 0xaf400000, 0xa0000000,
    0xe0000000, 0xf0000000, 0xbe000000, 0xbf000000, 0xc2400000, 0xc0400000, 0xc6400000, 0xc4400000,
    0x00000000, 0x00000000, 0x00000000, 0x00000000, 0x00000000, 0x00000000, 0x00000000, 0x00000000,
    0x00000000, 0x00000000, 0x00000000, 0x00000000, 0x00000000, 0x00000000, 0x00000000, 0x00000000,
    0x00000000, 0x00000000, 0x00000000, 0x00000000, 0x00000000, 0x00000000, 0x00000000, 0x00000000,
    0x00000000, 0x00000000, 0x00000000, 0x00000000, 0x00000000, 0x00000000, 0x00000000, 0x00000000,
    0x00000000, 0x00000000, 0x00000000, 0x00000000, 0x00000000, 0x00000000, 0x00000000, 0x00000000,
    0x00000000, 0x00000000, 0x00000000, 0x00000000, 0x00000000, 0x00000000, 0x00000000, 0x00000000,
    0x00000000, 0x00000000, 0x00000000, 0x00000000, 0x00000000, 0xc0000015, 0xc0000001, 0xd8000001,
    0xd0000005, 0xd0000001, 0xd0000011, 0xc2000002, 0xc0000002, 0xc2000003, 0xc0000003, 0xc0000019,
    0xc0000009, 0xc000001d, 0xc0000005, 0xc0000011, 0xc0000025, 0xc0000825, 0xc2000000, 0xc0000000,
    0x1690532f].getD i 0 < 2 ^ 32 ∧
     find_index unicore64_opcodes ([
    0x00000000, 0x00bfffff, 0x01000000, 0x02000000, 0x03000000, 0x04000000, 0x05000000, 0x06000000,
    0x07000000, 0x08800000, 0x09800000, 0x0a800000, 0x0b800000, 0x0c000000, 0x0d000000, 0x0e000000,
    0x0f000000, 0x00400000, 0x01400000, 0x02400000, 0x03400000, 0x04400000, 0x05400000, 0x06400000,
    0x07400000, 0x08c00000, 0x09c00000, 0x0ac00000, 0x0bc00000, 0x0c400000, 0x0d400000, 0x0e400000,
    0x0f400000, 0x10000000, 0x11000000, 0x12000000, 0x10400000, 0x11400000, 0x12400000, 0x18000000,
    0x18400000, 0x1d000000, 0x1d400000, 0x1f000000, 0x1f400000, 0x20000000, 0x30000000, 0x40000000,
    0x48000000, 0x40400000, 0x48400000, 0x50000000, 0x58000000, 0x50400000, 0x58400000, 0x60000000,
    0x68000000, 0x61000000, 0x60800000, 0x61800000, 0x61400000, 0x60c00000, 0x61c00000, 0x60400000,
    0x63000000, 0x62800000, 0x63800000, 0x63400000, 0x62c00000, 0x63c00000, 0x62400000, 0x80000000,
    0x82000000, 0x81000000, 0x83000000, 0x81a00000, 0x81800000, 0x81c00000, 0xaf400000, 0xa0000000,
    0xe0000000, 0xf0000000, 0xbe000000, 0xbf000000, 0xc2400000, 0xc0400000, 0xc6400000, 0xc4400000,
    0x00000000, 0x00000000, 0x00000000, 0x00000000, 0x00000000, 0x00000000, 0x00000000, 0x00000000,
    0x00000000, 0x00000000, 0x00000000, 0x00000000, 0x00000000, 0x00000000, 0x00000000, 0x00000000,
    0x00000000, 0x00000000, 0x00000000, 0x00000000, 0x00000000, 0x00000000, 0x00000000, 0x00000000,
    0x00000000, 0x00000000, 0x00000000, 0x00000000, 0x00000000, 0x00000000, 0x00000000, 0x00000000,
    0x00000000, 0x00000000, 0x00000000, 0x00000000, 0x00000000, 0x00000000, 0x00000000, 0x00000000,
    0x00000000, 0x00000000, 0x00000000, 0x00000000, 0x00000000, 0x00000000, 0x00000000, 0x00000000,
    0x00000000, 0x00000000, 0x00000000, 0x00000000, 0x00000000, 0xc0000015, 0xc0000001, 0xd8000001,
    0xd0000005, 0xd0000001, 0xd0000011, 0xc2000002, 0xc0000002, 0xc2000003, 0xc0000003, 0xc0000019,
    0xc0000009, 0xc000001d, 0xc0000005, 0xc0000011, 0xc0000025, 0xc0000825, 0xc2000000, 0xc0000000,
    0x1690532f].getD i 0) = some i) := by
  decide

/-- C31 fails on the code: the 53 entries of the block `UniCore 2D`, at the indices
88 to 140, all have the top nibble `0xe` fixed, and the entry
`{0xe0000000, 0xf0000000, "%C"}` at index 80 matches every word with that nibble, so
the scan never stops at one of them; the word `0xe0000e20`, the value of the `TSLL`
entry 88, is printed by `%C` as `jepriveq`.  Every other entry is the first match
of some 32-bit word. -/
theorem shadowed_entries :
    (∀ given i : Nat, 88 ≤ i → i ≤ 140 → find_index unicore64_opcodes given ≠ some i) ∧
    unicore64_opcodes[80]? = some (opcode32.mk 1 0xe0000000 0xf0000000 (some "%C")) ∧
    unicore64_opcodes[88]? = some (opcode32.mk 1 0xe0000e20 0xfd003fe0
      (some "TSLL.%25?WH\t%14-18f, %19-23f, #%0-4d")) ∧
    0xe0000e20 &&& 0xfd003fe0 = 0xe0000e20 ∧
    find_index unicore64_opcodes 0xe0000e20 = some 80 ∧
    print_insn_uc64_interal 0 0xe0000e20 =
      .ok (txt "[e0000e20]   jepriveq\t" ++ [Out.addr 0x3880]) ∧
    (∀ i < 161, ¬ (88 ≤ i ∧ i ≤ 140) →
      ∃ w, w < 2 ^ 32 ∧ find_index unicore64_opcodes w = some i) := by
  refine ⟨?_, by decide, by decide, by decide, by decide, by decide, ?_⟩
  · intro given i hlo hhi hfind
    obtain ⟨e, a, he, _, hm, hfirst, _⟩ := find_index_first _ _ _ hfind
    have hs := shadowed_by_entry_80 i (by omega) hlo
    rw [he] at hs
    simp only [Option.all_some, Bool.and_eq_true, decide_eq_true_eq] at hs
    have h80 : unicore64_opcodes[80]? = some (opcode32.mk 1 0xe0000000 0xf0000000 (some "%C")) := by
      decide
    apply hfirst 80 (by omega) _ h80
    show given &&& 0xf0000000 = 0xe0000000
    calc given &&& 0xf0000000 = given &&& (e.mask &&& 0xf0000000) := by rw [hs.1]
      _ = (given &&& e.mask) &&& 0xf0000000 := by rw [Nat.land_assoc]
      _ = 0xe0000000 := by rw [hm, hs.2]
  · intro i hi hn
    rcases reach_words i hi with h | h
    · exact absurd h hn
    · exact ⟨_, h.1, h.2⟩

/-! ## The immediate of `%o` -/

theorem low_bits_of_clear (given : Nat) (h : given &&& 0x7c0 = 0) :
    given &&& 0x3f = given &&& 0x7ff := by
  have hsplit : (0x7ff : Nat) = 0x7c0 ||| 0x3f := by decide
  rw [hsplit, Nat.and_or_distrib_left, h, Nat.zero_or]

/-- C32: for every word with bit 21 set, the immediate that `%o` selects, the low six
bits when bits 6..10 are zero and the low eleven bits otherwise, equals `W & 0x7ff`,
and the directive writes `#`, that value in decimal, a tab, `; 0x` and the same value
in hexadecimal. -/
theorem immediate_operand (pc given : Nat) (h : given &&& 0x00200000 ≠ 0) :
    (if given &&& 0x000007c0 = 0x00000000 then given &&& 0x3f else given &&& 0x7ff) =
      given &&& 0x7ff ∧
    directive_o given = .ok (immediateText given) ∧
    letter_directive pc given 'o' = .ok (immediateText given) := by
  have himm : (if given &&& 0x000007c0 = 0x00000000 then given &&& 0x3f else given &&& 0x7ff) =
      given &&& 0x7ff := by
    by_cases hz : given &&& 0x000007c0 = 0x00000000
    · rw [if_pos hz]
      exact low_bits_of_clear given hz
    · rw [if_neg hz]
  have ho : directive_o given = .ok (immediateText given) := by
    unfold directive_o
    rw [if_pos h]
    dsimp only
    rw [himm]
    rfl
  refine ⟨himm, ho, ?_⟩
  rw [← ho]
  simp only [letter_directive, Char.reduceEq, if_true, if_false, reduceIte]

/-- Witness for C32: the word `0x00200123` has the immediate `0x123 = 291`. -/
theorem immediate_operand_witness :
    letter_directive 0 0x00200123 'o' = .ok (txt "#291\t; 0x123") :=
  ((immediate_operand 0 0x00200123 (by decide)).2.2).trans (by decide)

/-! ## The range of a bitfield value -/

theorem select_index_small (value width : Nat) (hw : width ≤ 30) (hv : value < 2 ^ 31) :
    select_index value width = some (((2 ^ width : Nat) : Int) - toInt32 value) := by
  have hpow : 2 ^ width ≤ 2 ^ 30 := Nat.pow_le_pow_right (by norm_num) hw
  have hpos : 0 < 2 ^ width := Nat.two_pow_pos width
  have hti : toInt32 value = (value : Int) := toInt32_small value hv
  unfold select_index
  rw [if_pos hw]
  dsimp only
  rw [if_pos]
  rw [hti]
  constructor <;> omega

theorem question_index (given value width : Nat) (t : List Char) (hw : width ≤ 30)
    (hv : value < 2 ^ 31) :
    ∃ k, select_index value width = some k ∧
      delimiter_directive given value width ('?' :: t) =
        match charAt ('?' :: t) k with
        | .error e => .error e
        | .ok ch =>
          if 2 ^ width ≤ ('?' :: t).length then
            .ok ([Out.chr ch], ('?' :: t).drop (2 ^ width))
          else .error .outOfBounds := by
  refine ⟨_, select_index_small value width hw hv, ?_⟩
  have hq : peek ('?' :: t) = '?' := rfl
  unfold delimiter_directive
  simp only [hq]
  simp [apostrophe, backquote]

theorem prefetch_bit27 (given : Nat) (h : given &&& 0xefc00000 = 0x60000000) :
    given &&& 0x08000000 = 0 := by
  have hm : (0x08000000 : Nat) = 0xefc00000 &&& 0x08000000 := by decide
  calc given &&& 0x08000000 = given &&& (0xefc00000 &&& 0x08000000) := by rw [← hm]
    _ = (given &&& 0xefc00000) &&& 0x08000000 := by rw [Nat.land_assoc]
    _ = 0 := by rw [h]; decide

theorem bracket_sign (given : Nat) :
    (if given &&& 0xefc00000 = 0x60000000 then
      if given &&& 0x08000000 = 0 then
        if given &&& 0x10000000 = 0 then say "-]" else say "+]"
      else
        if given &&& 0x10000000 ≠ 0 then say "]-" else say "]+"
    else
      if given &&& 0x08000000 ≠ 0 then
        if given &&& 0x10000000 = 0 then say "-]" else say "+]"
      else
        if given &&& 0x10000000 = 0 then say "]-" else say "]+") =
    .ok (txt (bracketText
      (decide (given &&& 0xefc00000 = 0x60000000 ↔ given &&& 0x08000000 = 0))
      (directionSign given))) := by
  by_cases h1 : given &&& 0xefc00000 = 0x60000000
  · have h2 := prefetch_bit27 given h1
    by_cases h3 : given &&& 0x10000000 = 0
    · simp only [h1, h2, h3, if_true, say, bracketText, directionSign, ne_eq, not_true_eq_false,
        if_false, decide_True]
      rfl
    · simp only [h1, h2, h3, if_true, say, bracketText, directionSign, ne_eq, not_false_eq_true,
        if_false, decide_True]
      rfl
  · by_cases h2 : given &&& 0x08000000 = 0 <;> by_cases h3 : given &&& 0x10000000 = 0
    · simp only [h1, h2, h3, if_true, say, bracketText, directionSign, ne_eq, not_true_eq_false,
        if_false, false_iff, decide_False, Bool.false_eq_true]
      rfl
    · simp only [h1, h2, h3, if_true, say, bracketText, directionSign, ne_eq, not_true_eq_false,
        not_false_eq_true, if_false, false_iff, decide_False, Bool.false_eq_true]
      rfl
    · simp only [h1, h2, h3, if_true, say, bracketText, directionSign, ne_eq, not_true_eq_false,
        not_false_eq_true, if_false, iff_self, decide_True]
      rfl
    · simp only [h1, h2, h3, if_true, say, bracketText, directionSign, ne_eq,
        not_false_eq_true, if_false, iff_self, decide_True]
      rfl

/-- C34: in `print_unicore64_address` the sign printed beside `]` is `+` exactly when
bit 28 of the word is set and `-` exactly when it is clear, before the bracket in the
pre-indexed form and after it in the post-indexed form, for the prefetch class and for
the others.  A word of the prefetch class has bit 27 clear, so it never takes the
post-indexed branch of that class. -/
theorem direction_sign (pc given : Nat) :
    ¬ (given &&& 0xefc00000 = 0x60000000 ∧ given &&& 0x08000000 ≠ 0) ∧
    (directionSign given = "+" ↔ given &&& 0x10000000 ≠ 0) ∧
    (directionSign given = "-" ↔ given &&& 0x10000000 = 0) ∧
    ∃ reg rest, unicore64_regnames[(given >>> 11) &&& 0x1f]? = some reg ∧
      print_unicore64_address pc given =
        .ok (txt "[" ++ (txt reg ++ (txt (bracketText
          (decide (given &&& 0xefc00000 = 0x60000000 ↔ given &&& 0x08000000 = 0))
          (directionSign given)) ++ rest))) := by
  refine ⟨fun h => h.2 (prefetch_bit27 given h.1), ?_, ?_, ?_⟩
  · unfold directionSign
    by_cases h : given &&& 0x10000000 ≠ 0
    · simp [h]
    · simp only [h, if_false, iff_false]
      decide
  · unfold directionSign
    by_cases h : given &&& 0x10000000 = 0
    · simp [h]
    · simp only [ne_eq, h, not_false_eq_true, if_true, iff_false]
      decide
  · have hr : (given >>> 11) &&& 0x1f < unicore64_regnames.length := land_lt _ _ _ (by decide)
    have hgood : Good (if given &&& 0x00200000 ≠ 0 then
        seq (say ", #") (seq (sayInt ((given &&& 0x7ff : Nat) : Int)) (seq (say "\t")
          (if given &&& 0x0000f800 = 0x0000f800 then
            sayAddr (toU64 (toInt32 ((toU64 (if given &&& 0x10000000 = 0 then
              -((given &&& 0x7ff : Nat) : Int) else ((given &&& 0x7ff : Nat) : Int)) + pc) %
                2 ^ 64)))
          else .ok [])))
        else seq (say ", ") (lookup unicore64_regnames ((given &&& 0x7c0) >>> 6))) := by
      repeat' (first
        | apply good_ite
        | apply good_seq
        | exact good_sayInt _
        | exact good_sayAddr _
        | exact good_nil
        | exact good_say _ (by decide)
        | exact good_lookup _ _ (by decide) (land_shift_lt _ _ _ _ (by decide)))
    obtain ⟨rest, hrest, _⟩ := hgood
    refine ⟨_, rest, List.getElem?_eq_getElem hr, ?_⟩
    unfold print_unicore64_address
    dsimp only
    rw [bracket_sign given, lookup_ok _ _ hr, hrest]
    rfl

/-- Witness for C34: the word `0x73a0f804` (`ldw r0, [pc]+, #4`) has bit 28 set and is
post-indexed, the word `0x6ba0f804` has bit 28 clear and is pre-indexed. -/
theorem direction_sign_witness :
    print_unicore64_address 0x1000 0x73a0f804 = .ok (txt "[pc]+, #4\t" ++ [Out.addr 0x1004]) ∧
    directionSign 0x73a0f804 = "+" ∧ directionSign 0x6ba0f804 = "-" ∧
    print_unicore64_address 0x1000 0x6ba0f804 = .ok (txt "[pc-], #4\t" ++ [Out.addr 0xffc]) :=
  ⟨by decide, (direction_sign 0x1000 0x73a0f804).2.1.mpr (by decide),
    (direction_sign 0x1000 0x6ba0f804).2.2.1.mpr (by decide), by decide⟩

/-! ## The word prefix -/

theorem template_loop_out (pc given : Nat) : ∀ (fuel : Nat) (c : List Char) (out : List Out),
    template_loop pc given fuel c out =
      match template_loop pc given fuel c [] with
      | .ok o => .ok (out ++ o)
      | .error e => .error e := by
  intro fuel
  induction fuel with
  | zero => intro c out; simp [template_loop]
  | succ k ih =>
    intro c out
    cases c with
    | nil => simp [template_loop]
    | cons ch cs =>
      by_cases hp : ch = '%'
      · rw [template_loop, template_loop, if_pos hp, if_pos hp]
        cases hd : directive pc given cs with
        | error e => rfl
        | ok r =>
          obtain ⟨o, c1⟩ := r
          cases c1 with
          | nil => rfl
          | cons x c2 =>
            dsimp only
            rw [ih c2 (out ++ o), ih c2 ([] ++ o)]
            cases template_loop pc given k c2 [] with
            | error e => rfl
            | ok o2 => simp
      · rw [template_loop, template_loop, if_neg hp, if_neg hp, ih cs (out ++ [Out.chr ch]),
          ih cs ([] ++ [Out.chr ch])]
        cases template_loop pc given k cs [] with
        | error e => rfl
        | ok o2 => simp

theorem fixedHex_shape : ∀ (k n : Nat),
    (fixedHex k n).length = k ∧ (fixedHex k n).all (fun c => lowerHex.contains c) = true := by
  have hd : ∀ d < 16, hexDigit d ∈ lowerHex := by decide
  intro k
  induction k with
  | zero => intro n; simp [fixedHex]
  | succ j ih =>
    intro n
    obtain ⟨h1, h2⟩ := ih (n / 16)
    refine ⟨by simp [fixedHex, h1], ?_⟩
    rw [fixedHex, List.all_append, h2]
    simpa using hd (n % 16) (Nat.mod_lt _ (by norm_num))

/-- C35: for every word the output of the instruction decoder is the prefix `[`, the
low 32 bits of the word as 8 lower-case zero-padded hexadecimal digits, `]` and three
spaces, followed by what the template of the first matching entry produces on its
own: the prefix is written once, before any template text or address event. -/
theorem word_lead_once (pc given : Nat) :
    word_lead given = Out.chr '[' :: (chars (fixedHex 8 (given % 2 ^ 32)) ++ txt "]   ") ∧
    (fixedHex 8 (given % 2 ^ 32)).length = 8 ∧
    (fixedHex 8 (given % 2 ^ 32)).all (fun c => lowerHex.contains c) = true ∧
    ∃ a o, find_insn unicore64_opcodes given = .ok a ∧
      template_loop pc given (a.length + 1) a.toList [] = .ok o ∧
      print_insn_uc64_interal pc given = .ok (word_lead given ++ o) := by
  have hlt : given % 2 ^ 32 < 16 ^ 8 := Nat.mod_lt _ (by norm_num)
  have hpad : pad0 8 (fmt_x (given % 2 ^ 32)) = fixedHex 8 (given % 2 ^ 32) :=
    (fixedHex_pad 8 16 (given % 2 ^ 32) (by norm_num) (by norm_num) hlt).1
  refine ⟨?_, (fixedHex_shape 8 _).1, (fixedHex_shape 8 _).2, ?_⟩
  · unfold word_lead
    rw [hpad]
    rfl
  · obtain ⟨i, insn, a, _, hi, ha, hm, hfirst⟩ := exists_first_match given
    obtain ⟨hfind, hprint⟩ := print_insn_of_first pc given i insn a hi ha hm hfirst
    obtain ⟨o, ho, _⟩ := print_template_sound pc given insn a (List.getElem?_mem hi) ha
    have hout := template_loop_out pc given (a.length + 1) a.toList (word_lead given)
    unfold print_template at ho
    rw [ho] at hout
    cases hloop : template_loop pc given (a.length + 1) a.toList [] with
    | error e =>
      rw [hloop] at hout
      cases hout
    | ok o2 =>
      rw [hloop] at hout
      have heq : word_lead given ++ o = word_lead given ++ o2 := Except.ok.inj hout
      refine ⟨a, o2, hfind, hloop, ?_⟩
      rw [hprint]
      unfold print_template
      rw [ho, heq]

/-! ## Interrupt entry and mode switch -/

theorem mode_field (x S P I : Nat) (hS : S < 2 ^ 64) (hP : P &&& S = P) (hI : I &&& S = 0) :
    (((x &&& (2 ^ 64 - 1 - S)) ||| P) ||| I) &&& S = P := by
  apply Nat.eq_of_testBit_eq
  intro i
  have hn : 2 ^ 64 - 1 - S = 2 ^ 64 - (S + 1) := by omega
  have hPi := congrArg (fun n => Nat.testBit n i) hP
  have hIi := congrArg (fun n => Nat.testBit n i) hI
  simp only [Nat.testBit_and, Nat.zero_testBit] at hPi hIi
  rw [hn]
  simp only [Nat.testBit_and, Nat.testBit_or, Nat.testBit_two_pow_sub_succ hS]
  cases hx : x.testBit i <;> cases hs : S.testBit i <;> cases hp : P.testBit i <;>
    cases hi : I.testBit i <;> simp_all

theorem switch_mode_regs31 (k : cpu_h) (env : CPUUniCore64State) (mode : Int) :
    (switch_mode k env mode).regs 31 = env.regs 31 := by
  unfold switch_mode
  dsimp only
  split
  · rfl
  · simp [Function.update]

theorem switch_mode_cp0 (k : cpu_h) (env : CPUUniCore64State) (mode : Int) :
    (switch_mode k env mode).cp0 = env.cp0 := by
  unfold switch_mode
  dsimp only
  split <;> rfl

/-- C36: for every CPU state whose `exception_index` is `UC64_EXCP_PRIV`,
`UC64_EXCP_ITRAP` or `UC64_EXCP_DTRAP`, `do_interrupt` returns, and afterwards the mode
field of `uncached_asr`, its bits under `ASR_MODE_SELECT`, is `ASR_MODE_PRIV` whatever
the state and its banked registers held (the header constants being such that
`ASR_MODE_PRIV` lies inside the mode field and `ASR_INTR_SELECT` outside it);
`c4_epc` holds the previous `regs[31]`, and `regs[31]` is the vector offset of the
exception, the value of the exception index, plus `c9_excpbase` modulo `2^64`.
`switch_mode` returns the state unchanged when the requested mode has the index of
the current mode. -/
theorem interrupt_entry (k : cpu_h) (env : CPUUniCore64State)
    (hexc : env.exception_index = k.UC64_EXCP_PRIV ∨ env.exception_index = k.UC64_EXCP_ITRAP ∨
      env.exception_index = k.UC64_EXCP_DTRAP)
    (hsel : k.ASR_MODE_SELECT < 2 ^ 64)
    (hpriv : k.ASR_MODE_PRIV &&& k.ASR_MODE_SELECT = k.ASR_MODE_PRIV)
    (hintr : k.ASR_INTR_SELECT &&& k.ASR_MODE_SELECT = 0) :
    (∃ env1, do_interrupt k env = .ok env1 ∧
      env1.uncached_asr &&& k.ASR_MODE_SELECT = k.ASR_MODE_PRIV ∧
      env1.cp0.c4_epc = env.regs 31 ∧
      env1.regs 31 = (toU64 env.exception_index + env.cp0.c9_excpbase) % 2 ^ 64) ∧
    (∀ mode : Int,
      mode_index k mode = mode_index k (toInt32 (env.uncached_asr &&& k.ASR_MODE_SELECT)) →
      switch_mode k env mode = env) := by
  constructor
  · have hv : (if env.exception_index = k.UC64_EXCP_PRIV then
          (Except.ok k.UC64_EXCP_PRIV : Except Fault Int)
        else if env.exception_index = k.UC64_EXCP_ITRAP then .ok k.UC64_EXCP_ITRAP
        else if env.exception_index = k.UC64_EXCP_DTRAP then .ok k.UC64_EXCP_DTRAP
        else .error .abort) = .ok env.exception_index := by
      by_cases h1 : env.exception_index = k.UC64_EXCP_PRIV
      · rw [if_pos h1, h1]
      · rw [if_neg h1]
        by_cases h2 : env.exception_index = k.UC64_EXCP_ITRAP
        · rw [if_pos h2, h2]
        · rw [if_neg h2]
          by_cases h3 : env.exception_index = k.UC64_EXCP_DTRAP
          · rw [if_pos h3, h3]
          · rcases hexc with h | h | h
            · exact absurd h h1
            · exact absurd h h2
            · exact absurd h h3
    unfold do_interrupt
    simp only [hv]
    refine ⟨_, rfl, ?_, ?_, ?_⟩
    · exact mode_field _ _ _ _ hsel hpriv hintr
    · exact switch_mode_regs31 k env _
    · simp [Function.update, switch_mode_cp0]
  · intro mode hmode
    unfold switch_mode
    dsimp only
    rw [if_pos hmode]

/-- Witness for C36: a data trap taken in user mode with the sample constants. -/
theorem interrupt_entry_witness :
    ∃ env1, do_interrupt sample_cpu_h sample_env = .ok env1 ∧
      env1.uncached_asr &&& sample_cpu_h.ASR_MODE_SELECT = sample_cpu_h.ASR_MODE_PRIV ∧
      env1.cp0.c4_epc = sample_env.regs 31 ∧
      env1.regs 31 =
        (toU64 sample_env.exception_index + sample_env.cp0.c9_excpbase) % 2 ^ 64 :=
  (interrupt_entry sample_cpu_h sample_env (Or.inr (Or.inr rfl)) (by decide) (by decide)
    (by decide)).1

/-! ## The page-table walk -/

theorem do_fault_recorded (k : cpu_h) (env : CPUUniCore64State) (address : Nat)
    (access_type : Int) (code : Nat) (h : code ≠ 0) :
    (do_fault k env address access_type code).cp0.c4_epc = address ∧
    (do_fault k env address access_type code).exception_index =
      (if access_type = 2 then k.UC64_EXCP_ITRAP else k.UC64_EXCP_DTRAP) := by
  unfold do_fault
  rw [if_pos h]
  by_cases h2 : access_type = 2
  · simp [h2]
  · simp [h2]

theorem pick_ite {α : Type} (Q : α → Prop) {c : Prop} [Decidable c] {a b : α} (ha : Q a)
    (hb : Q b) : Q (if c then a else b) := by
  split
  · exact ha
  · exact hb

theorem get_phys_addr_shape (k : cpu_h) (ldl_phys : Nat → Nat) (env : CPUUniCore64State)
    (address : Nat) (access_type is_user : Int) (phys_ptr prot page_size : Nat) :
    get_phys_addr k ldl_phys env address access_type is_user phys_ptr prot page_size =
      .error .abort ∨
    ∃ code p q s, get_phys_addr k ldl_phys env address access_type is_user phys_ptr prot
      page_size = .ok ⟨code, do_fault k env address access_type code, p, q, s⟩ := by
  unfold get_phys_addr
  dsimp only
  repeat' first
    | exact Or.inl rfl
    | exact Or.inr ⟨_, _, _, _, rfl⟩
    | refine pick_ite (fun r : Except Fault phys_result => r = .error .abort ∨
        ∃ code p q s, r = .ok ⟨code, do_fault k env address access_type code, p, q, s⟩) ?_ ?_

/-- C37: for a present superpage mapping (the level-1 descriptor has the EXIST bit,
the level-2 descriptor has bit 0 and the EXIST bit) `get_phys_addr` returns 0 for
every privileged access, and for a user access of type 0, 1 or 2 it returns 0 exactly
when the descriptor has the read bit 7, the write bit 6 or the exec bit 5; and
whenever `get_phys_addr` returns a non-zero code, for any mapping, the state holds
`c4_epc = address` and `exception_index` is `UC64_EXCP_ITRAP` for access type 2 and
`UC64_EXCP_DTRAP` otherwise. -/
theorem superpage_access (k : cpu_h) (ldl_phys : Nat → Nat) (env : CPUUniCore64State)
    (address : Nat) (access_type is_user : Int) (phys_ptr prot page_size : Nat) :
    (l1_descriptor ldl_phys env address &&& UC64_PAGETABLE_EXIST ≠ 0 →
      l2_descriptor ldl_phys env address &&& 1 = 1 →
      l2_descriptor ldl_phys env address &&& UC64_PAGETABLE_EXIST ≠ 0 →
      ∃ r, get_phys_addr k ldl_phys env address access_type is_user phys_ptr prot page_size =
          .ok r ∧
        (is_user = 0 → r.code = 0) ∧
        (is_user ≠ 0 → access_type = 0 →
          (r.code = 0 ↔ l2_descriptor ldl_phys env address &&& UC64_PAGETABLE_READ ≠ 0)) ∧
        (is_user ≠ 0 → access_type = 1 →
          (r.code = 0 ↔ l2_descriptor ldl_phys env address &&& UC64_PAGETABLE_WRITE ≠ 0)) ∧
        (is_user ≠ 0 → access_type = 2 →
          (r.code = 0 ↔ l2_descriptor ldl_phys env address &&& UC64_PAGETABLE_EXEC ≠ 0))) ∧
    (∀ r, get_phys_addr k ldl_phys env address access_type is_user phys_ptr prot page_size =
        .ok r → r.code ≠ 0 →
      r.env.cp0.c4_epc = address ∧
      r.env.exception_index =
        (if access_type = 2 then k.UC64_EXCP_ITRAP else k.UC64_EXCP_DTRAP)) := by
  constructor
  · intro h1 h2 h3
    unfold get_phys_addr
    dsimp only
    rw [if_neg h1, if_pos h2, if_neg h3]
    by_cases hr : l2_descriptor ldl_phys env address &&& UC64_PAGETABLE_READ ≠ 0 <;>
      by_cases hw : l2_descriptor ldl_phys env address &&& UC64_PAGETABLE_WRITE ≠ 0 <;>
      by_cases hx : l2_descriptor ldl_phys env address &&& UC64_PAGETABLE_EXEC ≠ 0 <;>
      by_cases hu : is_user = 0 <;>
      by_cases a0 : access_type = 0 <;>
      by_cases a1 : access_type = 1 <;>
      by_cases a2 : access_type = 2 <;>
      simp_all
  · intro r hget hcode
    rcases get_phys_addr_shape k ldl_phys env address access_type is_user phys_ptr prot
      page_size with h | ⟨code, p, q, s, h⟩
    · rw [h] at hget
      cases hget
    · rw [h] at hget
      have hr := Except.ok.inj hget
      subst hr
      exact do_fault_recorded k env address access_type code hcode

/-- Witness for C37: a user write to the sample superpage, which grants read and exec
only, returns a non-zero code and records a data trap at the address. -/
theorem superpage_access_witness :
    ∃ r, get_phys_addr sample_cpu_h sample_memory sample_env 0x1234 1 1 0 0 0 = .ok r ∧
      r.code ≠ 0 ∧ r.env.cp0.c4_epc = 0x1234 ∧
      r.env.exception_index = sample_cpu_h.UC64_EXCP_DTRAP := by
  obtain ⟨r, hget, _, _, hwrite, _⟩ :=
    (superpage_access sample_cpu_h sample_memory sample_env 0x1234 1 1 0 0 0).1
      (by decide) (by decide) (by decide)
  have hcode : r.code ≠ 0 := fun h0 => ((hwrite (by decide) rfl).mp h0) (by decide)
  have hrec := (superpage_access sample_cpu_h sample_memory sample_env 0x1234 1 1 0 0 0).2 r
    hget hcode
  exact ⟨r, hget, hcode, hrec.1, hrec.2⟩

end UC64
